import Mathlib

/-!
Downloader: a shallow embedding of `panda/src/downloader/downloader.cxx`

The embedding follows the C++ source function by function.

* Bytes are `Char`; a `std::string` is a `List Char`.
* Pointers into the receive arena are addresses (`Nat`) into a flat memory
  `Mem := Nat → Char`.
* `size_t` values are `Nat`; `string::npos` is `none` of an `Option Nat`.
* `std::string::substr` throws `std::out_of_range` when its start position lies
  beyond the end of the string; a function that can be left by that exception
  returns `Option ErrorUtilCode`, where `none` stands for "left by an uncaught
  exception, no code returned".
* The operating system (sockets, clock, allocator) is an explicit input.
-/

namespace Downloader

/-! ## Result codes -/

/-- Modelled from the spec: the result codes of `error_utils.h`, which is not part of the
sources. Only the sign of a code and the identity of the named codes are used by
`downloader.cxx`. `int_zero` is the plain integer `0` that `nassertr(..., false)` returns;
`EU_error_network k` and `EU_error_write k` are the negative codes produced by
`get_network_error()` and `get_write_error()`. -/
inductive ErrorUtilCode where
  | EU_http_redirect
  | EU_eof
  | EU_network_no_data
  | EU_write_ram
  | EU_write
  | EU_ok
  | EU_success
  | int_zero
  | EU_error_abort
  | EU_error_network_timeout
  | EU_error_http_server_timeout
  | EU_error_http_gateway_timeout
  | EU_error_http_service_unavailable
  | EU_error_network (k : Nat)
  | EU_error_write (k : Nat)
  deriving DecidableEq, Repr

open ErrorUtilCode

/-- The test `code < 0` of the source. -/
def ErrorUtilCode.neg : ErrorUtilCode → Bool
  | EU_http_redirect => false
  | EU_eof => false
  | EU_network_no_data => false
  | EU_write_ram => false
  | EU_write => false
  | EU_ok => false
  | EU_success => false
  | int_zero => false
  | EU_error_abort => true
  | EU_error_network_timeout => true
  | EU_error_http_server_timeout => true
  | EU_error_http_gateway_timeout => true
  | EU_error_http_service_unavailable => true
  | EU_error_network _ => true
  | EU_error_write _ => true

/-- The constant `MAX_RECEIVE_BYTES`. -/
def MAX_RECEIVE_BYTES : Nat := 16384

/-! ## `std::string` operations used by the parser -/

/-- Carriage return, `\015`. -/
def CR : Char := Char.ofNat 13

/-- Line feed, `\012`. -/
def LF : Char := Char.ofNat 10

/-- The line delimiter `"\015\012"` the parser searches for. -/
def CRLF : List Char := [CR, LF]

/-- Index of the first occurrence of `pat` in `s`, `none` when there is none. -/
def findAux (pat : List Char) : List Char → Option Nat
  | [] => if pat = [] then some 0 else none
  | c :: cs =>
    if pat.isPrefixOf (c :: cs) then some 0
    else (findAux pat cs).map (fun i => i + 1)

/-- The call `s.find(pat, pos)`: the first index `i ≥ pos` at which `pat` occurs in `s`;
`none` is `string::npos`, which is also the argument `pos = npos`. -/
def find (s pat : List Char) (pos : Option Nat) : Option Nat :=
  match pos with
  | none => none
  | some p =>
    if s.length < p then none
    else (findAux pat (s.drop p)).map (fun i => i + p)

/-- The call `s.substr(pos, count)`: `none` is the exception `std::out_of_range`, thrown
when `pos > s.size()`. A position or count of `none` is `string::npos`. -/
def substr (s : List Char) (pos : Option Nat) (count : Option Nat) : Option (List Char) :=
  match pos with
  | none => none
  | some p =>
    if s.length < p then none
    else
      match count with
      | none => some (s.drop p)
      | some n => some ((s.drop p).take n)

/-- The value `cpos + 2` in `size_t` arithmetic: `npos + 2` wraps around to `1`. -/
def size_add2 : Option Nat → Option Nat
  | some c => some (c + 2)
  | none => some 1

/-- The predicate `isspace` of the C locale. -/
def isspace (c : Char) : Bool :=
  c = Char.ofNat 32 || c = Char.ofNat 9 || c = Char.ofNat 10 || c = Char.ofNat 11 ||
  c = Char.ofNat 12 || c = Char.ofNat 13

/-- The digit loop of `atoi`: accumulate decimal digits until the first other character. -/
def atoi_digits : Nat → List Char → Nat
  | acc, [] => acc
  | acc, c :: cs =>
    if c.isDigit then atoi_digits (10 * acc + (c.toNat - 48)) cs else acc

/-- The part of `atoi` after the leading white space: an optional sign, then digits. -/
def atoi_signed : List Char → Int
  | [] => 0
  | c :: cs =>
    if c = Char.ofNat 45 then - (atoi_digits 0 cs : Int)
    else if c = Char.ofNat 43 then (atoi_digits 0 cs : Int)
    else (atoi_digits 0 (c :: cs) : Int)

/-- The number that the characters of a string denote for `atoi`: leading white space, an
optional sign, then digits (a NUL character, like any other non-digit, ends the number). -/
def atoi_number : List Char → Int
  | [] => 0
  | c :: cs => if isspace c then atoi_number cs else atoi_signed (c :: cs)

/-- The value of type `int` (32 bits, two's complement) with the low 32 bits of `x`: what a
conversion to `int` or an `int` operation whose result is `x` leaves. -/
def to_int (x : Int) : Int :=
  (x + 2147483648) % 4294967296 - 2147483648

/-- The value of type `long` (64 bits) that `strtol` returns for the number `x`: a number
beyond the range of `long` gives `LONG_MAX` or `LONG_MIN`. -/
def clamp_long (x : Int) : Int :=
  if x > 9223372036854775807 then 9223372036854775807
  else if x < -9223372036854775808 then -9223372036854775808
  else x

/-- The C function `atoi` on the characters of a string, with its result of type `int`. For a
number that does not fit an `int` the C standard leaves the result undefined; the embedding
follows the usual implementation `(int) strtol(s, NULL, 10)` with a `long` of 64 bits. -/
def atoi (s : List Char) : Int :=
  to_int (clamp_long (atoi_number s))

/-! ## The status line -/

/-- The function `Downloader::parse_http_response`. The result `none` is the exception
`std::out_of_range` of `resp.substr(ws, ws2)`. -/
def parse_http_response (resp : List Char) : Option ErrorUtilCode :=
  let ws := find resp [Char.ofNat 32] (some 0)
  -- `httpstr = resp.substr(0, ws)` is not used (the check is under `#if 0`)
  match substr resp (some 0) ws with
  | none => none
  | some _httpstr =>
    let ws2 := find resp [Char.ofNat 32] ws
    match substr resp ws ws2 with
    | none => none
    | some numstr =>
      -- nassertr(numstr.length() > 0, false)
      if numstr.length = 0 then some int_zero
      else
        let num := atoi numstr
        if num = 200 ∨ num = 206 then some EU_success
        else if num = 202 then some EU_success
        else if num = 201 ∨ num = 203 ∨ num = 204 ∨ num = 205 then some EU_error_abort
        else if num = 302 then some EU_http_redirect
        else if num = 408 then some EU_error_http_server_timeout
        else if num = 503 then some EU_error_http_service_unavailable
        else if num = 504 then some EU_error_http_gateway_timeout
        else some EU_error_abort

/-! ## Memory, the download status and the socket -/

/-- The address space that holds the receive arenas: one byte per address. -/
abbrev Mem := Nat → Char

/-- The `n` bytes of memory starting at address `a`. -/
def read_mem (m : Mem) (a n : Nat) : List Char :=
  (List.range n).map (fun i => m (a + i))

/-- Memory after the bytes `bs` were stored from address `a` on. -/
def write_mem (m : Mem) (a : Nat) (bs : List Char) : Mem :=
  fun x => if a ≤ x ∧ x < a + bs.length then bs.getD (x - a) (m x) else m x

/-- The class `Downloader::DownloadStatus`. The pointers `_buffer`, `_start` and `_next_in`
are addresses. `_bytes_in_buffer` is an `int` in the source that only counts bytes: its one
decrement, in `parse_header`, subtracts a header length that never exceeds it. -/
structure DownloadStatus where
  _first_line_complete : Bool
  _header_is_complete : Bool
  _header_is_valid : Bool
  _buffer : Nat
  _start : Nat
  _next_in : Nat
  _bytes_in_buffer : Nat
  _total_bytes_written : Int
  _total_bytes : Int
  _partial_content : Bool
  _first_byte : Int
  _last_byte : Int

/-- The method `DownloadStatus::reset`. -/
def DownloadStatus.reset (s : DownloadStatus) : DownloadStatus :=
  { s with _start := s._buffer, _next_in := s._buffer, _bytes_in_buffer := 0 }

/-- The constructor `DownloadStatus::DownloadStatus`. -/
def DownloadStatus.new (buffer : Nat) (first_byte last_byte total_bytes : Int)
    (partial_content : Bool) : DownloadStatus :=
  DownloadStatus.reset
    { _first_line_complete := false
      _header_is_complete := false
      _header_is_valid := false
      _buffer := buffer
      _start := 0
      _next_in := 0
      _bytes_in_buffer := 0
      _total_bytes_written := first_byte
      _total_bytes := total_bytes
      _partial_content := partial_content
      _first_byte := first_byte
      _last_byte := last_byte }

/-- What the operating system answers to one `select()` / `recv()` pair of `fast_receive`. -/
inductive SockEvent where
  /-- `select()` returned 0: nothing to read. -/
  | no_data
  /-- `select()` returned -1; `get_network_error()` gives the code `EU_error_network k`. -/
  | select_error (k : Nat)
  /-- `recv()` returned -1; `get_network_error()` gives the code `EU_error_network k`. -/
  | recv_error (k : Nat)
  /-- `select()` found the socket readable with `avail` bytes of the inbound stream in the
  receive queue; `recv()` hands over at most that many. -/
  | ready (avail : Nat)
  deriving DecidableEq, Repr

/-- The function `Downloader::fast_receive`. `inbound` is the part of the byte stream sent by
the server that `recv()` has not handed over yet; `recv()` returns its first
`min rec_size avail` bytes and stores them at `status->_next_in`. A return value of 0 is the
end of the stream. -/
def fast_receive (m : Mem) (inbound : List Char) (status : DownloadStatus) (rec_size : Nat)
    (ev : SockEvent) : ErrorUtilCode × DownloadStatus × Mem × List Char :=
  if rec_size = 0 then (EU_error_abort, status, m, inbound)
  else
    match ev with
    | SockEvent.no_data => (EU_network_no_data, status, m, inbound)
    | SockEvent.select_error k => (EU_error_network k, status, m, inbound)
    | SockEvent.recv_error k => (EU_error_network k, status, m, inbound)
    | SockEvent.ready avail =>
      let data := inbound.take (min rec_size avail)
      let ret := data.length
      if ret = 0 then (EU_eof, status, m, inbound)
      else
        (EU_success,
         { status with
             _next_in := status._next_in + ret
             _bytes_in_buffer := status._bytes_in_buffer + ret
             _total_bytes := status._total_bytes + ret },
         write_mem m status._next_in data,
         inbound.drop ret)

/-! ## The header parser -/

/-- The block "The first line of the response should say whether got an error or not" of
`parse_header`, run on the line `component`. The first component of the result is `some r`
when the function is left there with `r` (`none` for an exception); the others are the local
variable `redirect` and the status afterwards. -/
def parse_first_line (component : List Char) (redirect : Bool) (status : DownloadStatus) :
    Option (Option ErrorUtilCode) × Bool × DownloadStatus :=
  if status._first_line_complete = false then
    let status1 := { status with _first_line_complete := true }
    match parse_http_response component with
    | none => (some none, redirect, status1)
    | some parse_ret =>
      if parse_ret = EU_success then
        (none, redirect, { status1 with _header_is_valid := true })
      else if parse_ret = EU_http_redirect then
        (none, true, { status1 with _header_is_valid := true })
      else (some (some parse_ret), redirect, status1)
  else (none, redirect, status)

/-- The block "Look for content length and location" of `parse_header`, run on the line
`component`. The result is `some r` when the function is left there with `r` (`none` for an
exception). -/
def parse_field_line (component : List Char) (redirect : Bool) (status : DownloadStatus) :
    Option (Option ErrorUtilCode) :=
  let cpos := find component [Char.ofNat 58] (some 0)
  match substr component (some 0) cpos with
  | none => some none
  | some tline =>
    if status._partial_content = true ∧ tline = "Content-Length".toList then
      match substr component (size_add2 cpos) none with
      | none => some none
      | some tline2 =>
        let server_download_bytes := atoi tline2
        let client_download_bytes0 := to_int (status._last_byte - status._first_byte)
        let client_download_bytes :=
          if status._first_byte = 0 then to_int (client_download_bytes0 + 1)
          else client_download_bytes0
        if client_download_bytes ≠ server_download_bytes then some (some EU_error_abort)
        else none
    else if redirect = true ∧ tline = "Location".toList then
      match substr component (size_add2 cpos) none with
      | none => some none
      | some _ => some (some EU_error_abort)
    else none

/-- The status after "Strip the header out of the status buffer" of `parse_header`, for a
blank line found at index `nl`. -/
def strip_header (status : DownloadStatus) (nl : Nat) : DownloadStatus :=
  let header_length := nl + 2
  { status with
      _header_is_complete := true
      _start := status._start + header_length
      _bytes_in_buffer := status._bytes_in_buffer - header_length }

/-- The code of `parse_header` after its loop. -/
def parse_header_end (status : DownloadStatus) : Option ErrorUtilCode × DownloadStatus :=
  if status._header_is_complete = false then (some EU_error_abort, status)
  else (some EU_success, status)

/-- The loop `while (p < bufstr.length())` of `Downloader::parse_header`, with the local
variables `p` and `redirect`. Every iteration moves `p` forward by at least two, so the
`fuel = bufstr.length` iterations that `parse_header` grants are never used up. -/
def parse_header_loop (bufstr : List Char) :
    Nat → Nat → Bool → DownloadStatus → Option ErrorUtilCode × DownloadStatus
  | 0, _, _, status => parse_header_end status
  | fuel + 1, p, redirect, status =>
    if ¬ (p < bufstr.length) then parse_header_end status
    else
      match find bufstr CRLF (some p) with
      | none => (some EU_error_abort, status)
      | some nl =>
        if p = 0 ∧ nl = p then (some EU_error_abort, status)
        else
          match substr bufstr (some p) (some (nl - p)) with
          | none => (none, status)
          | some component =>
            match parse_first_line component redirect status with
            | (some r, _, status1) => (r, status1)
            | (none, redirect1, status1) =>
              match parse_field_line component redirect1 status1 with
              | some r => (r, status1)
              | none =>
                -- two consecutive (CR LF)s indicate the end of the header
                if nl = p then
                  if redirect1 = true then (some EU_error_abort, status1)
                  else (some EU_success, strip_header status1 nl)
                else parse_header_loop bufstr fuel (nl + 2) redirect1 status1

/-- The function `Downloader::parse_header`. The result `none` is an uncaught
`std::out_of_range`; the status is the one at the moment the function is left. -/
def parse_header (m : Mem) (status : DownloadStatus) : Option ErrorUtilCode × DownloadStatus :=
  if status._header_is_complete = true then (some EU_success, status)
  else if status._bytes_in_buffer = 0 then (some EU_error_abort, status)
  else
    let bufstr := read_mem m status._start status._bytes_in_buffer
    parse_header_loop bufstr bufstr.length 0 false status

/-! ## The sink -/

/-- The function `Downloader::write_to_disk`; `dest` is the sequence of bytes written to
`_dest_stream` so far. -/
def write_to_disk (m : Mem) (status : DownloadStatus) (dest : List Char) :
    Option ErrorUtilCode × DownloadStatus × List Char :=
  match parse_header m status with
  | (none, status1) => (none, status1, dest)
  | (some parse_ret, status1) =>
    if status1._header_is_complete = false then (some EU_error_abort, status1, dest)
    else if parse_ret.neg then (some parse_ret, status1, dest)
    else
      let written : DownloadStatus × List Char :=
        if status1._bytes_in_buffer > 0 then
          ({ status1 with
               _total_bytes_written := status1._total_bytes_written + status1._bytes_in_buffer },
           dest ++ read_mem m status1._start status1._bytes_in_buffer)
        else (status1, dest)
      (some EU_success, written.1.reset, written.2)

/-- The function `Downloader::write_to_ram`; `dest` is the content of the string stream
`_dest_string_stream` so far. -/
def write_to_ram (m : Mem) (status : DownloadStatus) (dest : List Char) :
    Option ErrorUtilCode × DownloadStatus × List Char :=
  match parse_header m status with
  | (none, status1) => (none, status1, dest)
  | (some parse_ret, status1) =>
    if status1._header_is_complete = false then (some EU_error_abort, status1, dest)
    else if parse_ret.neg then (some parse_ret, status1, dest)
    else
      let written : DownloadStatus × List Char :=
        if status1._bytes_in_buffer > 0 then
          ({ status1 with
               _total_bytes_written := status1._total_bytes_written + status1._bytes_in_buffer },
           dest ++ read_mem m status1._start status1._bytes_in_buffer)
        else (status1, dest)
      (some EU_success, written.1.reset, written.2)

/-! ## The engine -/

/-- The arena object `Buffer`: the address of its bytes and their number. -/
structure Buffer where
  _buffer : Nat
  _length : Nat
  deriving DecidableEq, Repr

/-- The class `Downloader` together with the resources it owns. The source keeps times in
seconds as `double` and the two rate tunables as `float`; here a time is a whole number of
microseconds (`_frequency`, `_tfirst`, `_tlast` and the clock readings) and `_byte_rate` a
whole number of bytes per second: the numbers the two tunables are set from. The product
`_byte_rate * _frequency` is formed by `compute_receive_size`, which converts both to single
precision; the comparison of the throttle is made on the microseconds. `memory` is the address space of the arenas, `inbound` the bytes of the connection that
`recv()` has not handed over yet, `sent` the bytes handed to `send()`, `_dest_stream` the
bytes written to the destination file and `_dest_string_stream` the content of the string
stream of a download to memory (`none` is the null pointer). -/
structure Engine where
  _frequency : Nat
  _byte_rate : Nat
  _disk_write_frequency : Nat
  _receive_size : Nat
  _disk_buffer_size : Nat
  _buffer : Buffer
  _connected : Bool
  _current_status : Option DownloadStatus
  _recompute_buffer : Bool
  _tfirst : Int
  _tlast : Int
  _got_any_data : Bool
  _initiated : Bool
  _ever_initiated : Bool
  _download_to_ram : Bool
  _total_bytes_written : Int
  _server_name : List Char
  memory : Mem
  inbound : List Char
  sent : List Char
  _dest_stream : List Char
  _dest_stream_open : Bool
  _dest_string_stream : Option (List Char)

/-- What `socket()` and `connect()` answer when `connect_to_server` dials. -/
inductive ConnectEvent where
  /-- `socket()` failed; `get_network_error()` gives `EU_error_network k`. -/
  | socket_failed (k : Nat)
  /-- `connect()` failed; `get_network_error()` gives `EU_error_network k`. -/
  | connect_failed (k : Nat)
  /-- The connection is up; `stream` is what the peer will send on it. -/
  | connected (stream : List Char)
  deriving DecidableEq, Repr

/-- What the environment answers during one call of `run`: the outcome of a dial (used only
when the engine is not connected), the two readings of the clock, the address of a newly
allocated arena (used only on a recompute) and the outcomes of the successive `select()` /
`recv()` pairs (an exhausted list means `select()` finds nothing to read). -/
structure TickEnv where
  connect : ConnectEvent
  t0 : Int
  t1 : Int
  new_buffer : Nat
  recvs : List SockEvent

/-- The function `Downloader::disconnect_from_server`. -/
def disconnect_from_server (d : Engine) : Engine :=
  { d with _connected := false }

/-- The private function `Downloader::connect_to_server(void)`. -/
def connect_to_server (d : Engine) (ev : ConnectEvent) : ErrorUtilCode × Engine :=
  if d._connected = true then (EU_success, d)
  else
    match ev with
    | ConnectEvent.socket_failed k => (EU_error_network k, d)
    | ConnectEvent.connect_failed k => (EU_error_network k, disconnect_from_server d)
    | ConnectEvent.connected stream => (EU_success, { d with _connected := true, inbound := stream })

/-- The function `Downloader::cleanup`. -/
def cleanup (d : Engine) : Engine :=
  if d._initiated = false then d
  else
    match d._current_status with
    | none => d
    | some status =>
      { disconnect_from_server d with
          _dest_stream_open := false
          _total_bytes_written := status._total_bytes_written
          _current_status := none
          _initiated := false }

/-- The local state of the receive attempts of one call of `run`: the variable `fret`, the
flag `_got_any_data`, the download status, the memory, the inbound stream and the answers of
the operating system not used yet. -/
structure RecvState where
  fret : ErrorUtilCode
  got_any_data : Bool
  status : DownloadStatus
  memory : Mem
  inbound : List Char
  recvs : List SockEvent

/-- One call `fret = fast_receive(_socket, _current_status, rec_size)`. -/
def RecvState.receive (r : RecvState) (rec_size : Nat) : RecvState :=
  match fast_receive r.memory r.inbound r.status rec_size (r.recvs.headD SockEvent.no_data) with
  | (fret, status, m, inbound) =>
    { r with fret := fret, status := status, memory := m, inbound := inbound,
             recvs := r.recvs.tail }

/-- The loop `for (int i = 0; i <= repeat; i++)` of the fast connection case, with `k`
iterations left to go. -/
def receive_loop (repeat_ remain : Nat) : Nat → Nat → RecvState → RecvState
  | 0, _, r => r
  | k + 1, i, r =>
    let r1 :=
      if i < repeat_ then r.receive MAX_RECEIVE_BYTES
      else if remain > 0 then r.receive remain
      else r
    if r1.fret = EU_eof ∨ r1.fret.neg = true then r1
    else if r1.fret = EU_success then
      receive_loop repeat_ remain k (i + 1) { r1 with got_any_data := true }
    else receive_loop repeat_ remain k (i + 1) r1

/-- The receive attempts of `run` and of `run_to_ram` (the two copies in the source differ
in their log messages only). `fret` is not initialised in the source; the first iteration of
the loop assigns it, since `repeat ≥ 1` there. -/
def receive_step (receive_size : Nat) (r : RecvState) : RecvState :=
  if receive_size > MAX_RECEIVE_BYTES then
    let repeat_ := receive_size / MAX_RECEIVE_BYTES
    let remain := receive_size % MAX_RECEIVE_BYTES
    receive_loop repeat_ remain (repeat_ + 1) 0 r
  else r.receive receive_size

/-- The number of binary digits of `n`, with `fuel` divisions by two left; `fuel = n` is
enough for every `n`. -/
def bit_length_fuel : Nat → Nat → Nat
  | 0, _ => 0
  | fuel + 1, n => if n = 0 then 0 else bit_length_fuel fuel (n / 2) + 1

/-- The number of binary digits of `n`: the least `l` with `n < 2 ^ l`. -/
def bit_length (n : Nat) : Nat := bit_length_fuel n n

/-- A non-negative finite value of type `float`, kept as the fraction `num / den`; the
functions below produce a power of two as `den`. -/
structure Float32 where
  num : Nat
  den : Nat
  deriving DecidableEq, Repr

/-- The integer nearest to `n / d`, a tie going to the even one: the rounding mode of the
floating point unit. -/
def round_half_even (n d : Nat) : Nat :=
  let k := n / d
  let r := n % d
  if 2 * r > d ∨ (2 * r = d ∧ k % 2 = 1) then k + 1 else k

/-- The fraction `p / q` multiplied by `2 ^ (up - down)`, as numerator and denominator. -/
def scaled (p q up down : Nat) : Nat × Nat :=
  if up ≥ down then (p * 2 ^ (up - down), q) else (p, q * 2 ^ (down - up))

/-- The value `k / 2 ^ (up - down)`. -/
def unscaled (k up down : Nat) : Float32 :=
  if up ≥ down then { num := k, den := 2 ^ (up - down) }
  else { num := k * 2 ^ (down - up), den := 1 }

/-- The value of type `float` nearest to `p / q`: the fraction is scaled by the power of two
that brings it into the range of a significand of 24 bits, from `2 ^ 23` up to `2 ^ 24`,
rounded to an integer there and scaled back. The limits of the exponent of a `float` are not
modelled. -/
def Float32.round (p q : Nat) : Float32 :=
  if p = 0 ∨ q = 0 then { num := 0, den := 1 }
  else
    let up := 24 + bit_length q
    let down := bit_length p
    let down1 :=
      if (scaled p q up down).1 ≥ 2 ^ 24 * (scaled p q up down).2 then down + 1 else down
    unscaled (round_half_even (scaled p q up down1).1 (scaled p q up down1).2) up down1

/-- The product `a * b` of two `float` values, evaluated in single precision. -/
def Float32.mul (a b : Float32) : Float32 :=
  Float32.round (a.num * b.num) (a.den * b.den)

/-- The conversion `(ulong) a`: the fraction is cut off. The range of `ulong` is not
modelled. -/
def Float32.to_ulong (a : Float32) : Nat := a.num / a.den

/-- The value `(ulong)(_byte_rate * _frequency)` of the constructor and of the recompute
block. The member `_frequency` is the `float` nearest to `frequency` microseconds, in
seconds, and `_byte_rate` the `float` nearest to `byte_rate`. -/
def compute_receive_size (frequency byte_rate : Nat) : Nat :=
  (Float32.mul (Float32.round byte_rate 1) (Float32.round frequency 1000000)).to_ulong

/-- The new arena and the rebinding of the status on a recompute: the block
"Allocate a new buffer" of `run` and `run_to_ram`. The result is the engine and the status
object `_current_status` points to. -/
def recompute_buffer (d : Engine) (status : DownloadStatus) (t0 : Int) (new_buffer : Nat) :
    Engine × DownloadStatus :=
  let receive_size := compute_receive_size d._frequency d._byte_rate
  let disk_buffer_size := receive_size * d._disk_write_frequency
  let status1 := { status with _buffer := new_buffer }
  let status2 := { status1.reset with _total_bytes := 0 }
  ({ d with
      _receive_size := receive_size
      _disk_buffer_size := disk_buffer_size
      _buffer := { _buffer := new_buffer, _length := disk_buffer_size }
      _current_status := some status2
      _recompute_buffer := false
      _tfirst := t0 }, status2)

/-- The outcome of the first part of a tick: either `run` returns at once, or it goes on to
the receive attempts with the local variable `ret`, the engine and the status object
`_current_status` points to. -/
inductive Prepared where
  | returned (code : Option ErrorUtilCode) (d : Engine)
  | go_on (ret : ErrorUtilCode) (d : Engine) (status : DownloadStatus)

/-- The call `write_to_disk(_current_status)` of `run`. -/
def write_to_disk_stream (d : Engine) (status : DownloadStatus) :
    Option ErrorUtilCode × DownloadStatus × Engine :=
  match write_to_disk d.memory status d._dest_stream with
  | (code, status1, dest1) =>
    (code, status1, { d with _current_status := some status1, _dest_stream := dest1 })

/-- The part of `run` from "Recompute the buffer size if necessary" up to the receive
attempts, for the disk destination. -/
def run_prepare (d : Engine) (status : DownloadStatus) (env : TickEnv) : Prepared :=
  if d._recompute_buffer = true then
    if status._bytes_in_buffer > 0 then
      match write_to_disk_stream d status with
      | (none, _, d1) => Prepared.returned none d1
      | (some write_ret, status1, d1) =>
        if write_ret.neg = true then Prepared.returned (some write_ret) d1
        else
          match recompute_buffer d1 status1 env.t0 env.new_buffer with
          | (d2, status2) => Prepared.go_on EU_write d2 status2
    else
      match recompute_buffer d status env.t0 env.new_buffer with
      | (d2, status2) => Prepared.go_on EU_ok d2 status2
  else if status._bytes_in_buffer + d._receive_size > d._disk_buffer_size then
    match write_to_disk_stream d status with
    | (none, _, d1) => Prepared.returned none d1
    | (some write_ret, status1, d1) =>
      if write_ret.neg = true then Prepared.returned (some write_ret) d1
      else Prepared.go_on EU_write d1 status1
  else Prepared.go_on EU_ok d status

/-- The engine after the receive attempts `r` of a tick. -/
def after_receive (d : Engine) (r : RecvState) : Engine :=
  { d with _current_status := some r.status, memory := r.memory,
           inbound := r.inbound, _got_any_data := r.got_any_data }

/-- The start of the receive attempts of a tick. -/
def before_receive (d : Engine) (status : DownloadStatus) (env : TickEnv) : RecvState :=
  { fret := EU_ok, got_any_data := d._got_any_data, status := status,
    memory := d.memory, inbound := d.inbound, recvs := env.recvs }

/-- The part of `run` from the receive attempts to the end, for the disk destination. -/
def run_receive (ret : ErrorUtilCode) (d : Engine) (status : DownloadStatus) (env : TickEnv) :
    Option ErrorUtilCode × Engine :=
  let r := receive_step d._receive_size (before_receive d status env)
  let d1 := after_receive d r
  if r.fret = EU_eof then
    if d1._got_any_data = true then
      if r.status._bytes_in_buffer > 0 then
        match write_to_disk_stream d1 r.status with
        | (none, _, d2) => (none, d2)
        | (some write_ret, _, d2) =>
          if write_ret.neg = true then (some write_ret, d2)
          else (some EU_success, cleanup d2)
      else (some EU_success, cleanup d1)
    else (some ret, d1)
  else if r.fret = EU_network_no_data then (some ret, d1)
  else if r.fret.neg = true then (some r.fret, d1)
  else (some ret, { d1 with _got_any_data := true })

/-- The function `Downloader::run` for the disk destination, after the dispatch on
`_download_to_ram`. -/
def run_to_disk (d : Engine) (status : DownloadStatus) (env : TickEnv) :
    Option ErrorUtilCode × Engine :=
  let d1 := if d._tfirst = 0 then { d with _tfirst := env.t0 } else d
  if env.t0 - d1._tlast < (d1._frequency : Int) then (some EU_ok, d1)
  else
    let d2 := { d1 with _tlast := env.t1 }
    match run_prepare d2 status env with
    | Prepared.returned code d3 => (code, d3)
    | Prepared.go_on ret d3 status3 => run_receive ret d3 status3 env

/-- The call `write_to_ram(_current_status)` of `run_to_ram`, which writes through the
pointer `_dest_string_stream`; a null pointer ends the program (`none`). -/
def write_to_ram_stream (d : Engine) (status : DownloadStatus) :
    Option ErrorUtilCode × DownloadStatus × Engine :=
  match d._dest_string_stream with
  | none => (none, status, d)
  | some dest =>
    match write_to_ram d.memory status dest with
    | (code, status1, dest1) =>
      (code, status1,
       { d with _current_status := some status1, _dest_string_stream := some dest1 })

/-- The part of `run_to_ram` from "Recompute the buffer size if necessary" up to the
receive attempts. -/
def run_to_ram_prepare (d : Engine) (status : DownloadStatus) (env : TickEnv) : Prepared :=
  if d._recompute_buffer = true then
    if status._bytes_in_buffer > 0 then
      match write_to_ram_stream d status with
      | (none, _, d1) => Prepared.returned none d1
      | (some write_ret, status1, d1) =>
        if write_ret.neg = true then Prepared.returned (some write_ret) d1
        else
          match recompute_buffer d1 status1 env.t0 env.new_buffer with
          | (d2, status2) => Prepared.go_on EU_write_ram d2 status2
    else
      match recompute_buffer d status env.t0 env.new_buffer with
      | (d2, status2) => Prepared.go_on EU_ok d2 status2
  else if status._bytes_in_buffer + d._receive_size > d._disk_buffer_size then
    match write_to_ram_stream d status with
    | (none, _, d1) => Prepared.returned none d1
    | (some write_ret, status1, d1) =>
      if write_ret.neg = true then Prepared.returned (some write_ret) d1
      else Prepared.go_on EU_write_ram d1 status1
  else Prepared.go_on EU_ok d status

/-- The part of `run_to_ram` from the receive attempts to the end. -/
def run_to_ram_receive (ret : ErrorUtilCode) (d : Engine) (status : DownloadStatus)
    (env : TickEnv) : Option ErrorUtilCode × Engine :=
  let r := receive_step d._receive_size (before_receive d status env)
  let d1 := after_receive d r
  if r.fret = EU_eof then
    if d1._got_any_data = true then
      if r.status._bytes_in_buffer > 0 then
        match write_to_ram_stream d1 r.status with
        | (none, _, d2) => (none, d2)
        | (some write_ret, _, d2) =>
          if write_ret.neg = true then (some write_ret, d2)
          else (some EU_success, cleanup d2)
      else (some EU_success, cleanup d1)
    else (some ret, d1)
  else if r.fret = EU_network_no_data then (some ret, d1)
  else if r.fret.neg = true then (some r.fret, d1)
  else (some ret, { d1 with _got_any_data := true })

/-- The function `Downloader::run_to_ram`. -/
def run_to_ram (d : Engine) (status : DownloadStatus) (env : TickEnv) :
    Option ErrorUtilCode × Engine :=
  let d1 := if d._tfirst = 0 then { d with _tfirst := env.t0 } else d
  if env.t0 - d1._tlast < (d1._frequency : Int) then (some EU_ok, d1)
  else
    let d2 := { d1 with _tlast := env.t1 }
    match run_to_ram_prepare d2 status env with
    | Prepared.returned code d3 => (code, d3)
    | Prepared.go_on ret d3 status3 => run_to_ram_receive ret d3 status3 env

/-- The function `Downloader::run`: one tick. -/
def run (d : Engine) (env : TickEnv) : Option ErrorUtilCode × Engine :=
  if d._initiated = false then (some EU_error_abort, d)
  else
    match d._current_status with
    | none => (some EU_error_abort, d)
    | some status =>
      match connect_to_server d env.connect with
      | (connect_ret, d1) =>
        if connect_ret.neg = true then (some connect_ret, d1)
        else if d1._download_to_ram = true then run_to_ram d1 status env
        else run_to_disk d1 status env

/-! ## Sending the request, `initiate` and the constructor -/

/-- What the operating system answers to one `select()` / `send()` pair of `safe_send`. -/
inductive SendEvent where
  /-- `select()` returned 0: the wait for the socket to become writable timed out. -/
  | select_timeout
  /-- `select()` returned -1; `get_network_error()` gives the code `EU_error_network k`. -/
  | select_error (k : Nat)
  /-- `send()` returned a negative value; `get_network_error()` gives `EU_error_network k`. -/
  | send_error (k : Nat)
  /-- `send()` took the first `n` of the bytes it was offered, or all of them when fewer than
  `n` were offered, and returned their number. -/
  | accepted (n : Nat)
  deriving DecidableEq, Repr

/-- The loop `while (bytes < length)` of `Downloader::safe_send`, with the local variable
`bytes`. Every call is `send(socket, data, length, 0)`: it offers the whole of `data`.
`sent` collects the bytes the socket took. A `send()` that returns 0 takes the error branch,
with the code `EU_error_network 0`. Every iteration adds at least one to `bytes`, so
`fuel = length` iterations are never used up. An exhausted list of answers means that
`select()` times out. -/
def safe_send_loop (data : List Char) :
    Nat → Nat → List Char → List SendEvent → ErrorUtilCode × List Char
  | 0, _, sent, _ => (EU_success, sent)
  | fuel + 1, bytes, sent, events =>
    if ¬ (bytes < data.length) then (EU_success, sent)
    else
      match events.headD SendEvent.select_timeout with
      | SendEvent.select_timeout => (EU_error_network_timeout, sent)
      | SendEvent.select_error k => (EU_error_network k, sent)
      | SendEvent.send_error k => (EU_error_network k, sent)
      | SendEvent.accepted n =>
        let ret := min n data.length
        if ret > 0 then
          safe_send_loop data fuel (bytes + ret) (sent ++ data.take ret) events.tail
        else (EU_error_network 0, sent)

/-- The function `Downloader::safe_send`: the result code and the bytes the socket has taken
so far, those of earlier calls included. -/
def safe_send (sent data : List Char) (events : List SendEvent) :
    ErrorUtilCode × List Char :=
  if data.length = 0 then (EU_error_abort, sent)
  else safe_send_loop data data.length 0 sent events

/-- The characters `stream << i` writes for an `int`: its decimal numeral, with a minus sign
for a negative number. -/
def stream_int : Int → List Char
  | Int.ofNat n => Nat.toDigits 10 n
  | Int.negSucc n => Char.ofNat 45 :: Nat.toDigits 10 (n + 1)

/-- The string `request` that `initiate(file_name, file_dest, first_byte, last_byte,
total_bytes, partial_content)` builds; `"\012"` is the line feed. -/
def file_request (file_name server_name : List Char) (first_byte last_byte : Int)
    (partial_content : Bool) : List Char :=
  let request := "GET ".toList
  let request := request ++ file_name
  let request := request ++ (" HTTP/1.1".toList ++ [LF] ++ "Host: ".toList)
  let request := request ++ server_name
  let request := request ++ ([LF] ++ "Connection: close".toList)
  let request :=
    if partial_content = true then
      request ++ ([LF] ++ "Range: bytes=".toList)
        ++ (stream_int first_byte ++ [Char.ofNat 45] ++ stream_int last_byte)
    else request
  request ++ [LF, LF]

/-- The string `request` that `initiate(file_name)`, the download to memory, builds. -/
def ram_request (file_name server_name : List Char) : List Char :=
  let request := "GET ".toList
  let request := request ++ file_name
  let request := request ++ (" HTTP/1.1".toList ++ [LF] ++ "Host: ".toList)
  let request := request ++ server_name
  let request := request ++ ([LF] ++ "Connection: close".toList)
  request ++ [LF, LF]

/-- What `open_append` or `open_write` answers when `initiate` opens the destination. -/
inductive OpenEvent where
  /-- The file could not be opened; `get_write_error()` gives the code `EU_error_write k`. -/
  | failed (k : Nat)
  /-- The file is open; `existing` is what it held before. -/
  | opened (existing : List Char)
  deriving DecidableEq, Repr

/-- What the environment answers during one call of `initiate`: the outcome of a dial (used
only when the engine is not connected), the outcome of opening the destination file (not used
by the download to memory) and the outcomes of the `select()` / `send()` pairs. -/
structure InitEnv where
  connect : ConnectEvent
  open_file : OpenEvent
  sends : List SendEvent

/-- The function `Downloader::initiate(file_name, file_dest, first_byte, last_byte,
total_bytes, partial_content)`. The destination `file_dest` is represented by the answer of
the environment to its opening: `open_write` empties the file, `open_append` keeps what it
held. -/
def initiate (d : Engine) (file_name : List Char) (first_byte last_byte total_bytes : Int)
    (partial_content : Bool) (env : InitEnv) : ErrorUtilCode × Engine :=
  if d._initiated = true then (EU_error_abort, d)
  else
    match connect_to_server d env.connect with
    | (connect_ret, d1) =>
      if connect_ret.neg = true then (connect_ret, d1)
      else
        match env.open_file with
        | OpenEvent.failed k => (EU_error_write k, d1)
        | OpenEvent.opened existing =>
          let d2 :=
            if partial_content = true ∧ first_byte > 0 then
              { d1 with _dest_stream := existing, _dest_stream_open := true }
            else { d1 with _dest_stream := [], _dest_stream_open := true }
          let request :=
            file_request file_name d2._server_name first_byte last_byte partial_content
          match safe_send d2.sent request env.sends with
          | (send_ret, sent) =>
            let d3 := { d2 with sent := sent }
            if send_ret.neg = true then (send_ret, d3)
            else
              (EU_success,
               { d3 with
                   _current_status := some
                     (DownloadStatus.new d3._buffer._buffer first_byte last_byte total_bytes
                       partial_content)
                   _tfirst := 0
                   _tlast := 0
                   _got_any_data := false
                   _initiated := true
                   _ever_initiated := true
                   _download_to_ram := false })

/-- The function `Downloader::initiate(file_name, file_dest)`: the download of a complete
file. -/
def initiate_file (d : Engine) (file_name : List Char) (env : InitEnv) :
    ErrorUtilCode × Engine :=
  initiate d file_name 0 0 0 false env

/-- The function `Downloader::initiate(file_name)`: the download to memory. -/
def initiate_ram (d : Engine) (file_name : List Char) (env : InitEnv) :
    ErrorUtilCode × Engine :=
  if d._initiated = true then (EU_error_abort, d)
  else
    match connect_to_server d env.connect with
    | (connect_ret, d1) =>
      if connect_ret.neg = true then (connect_ret, d1)
      else
        let request := ram_request file_name d1._server_name
        match safe_send d1.sent request env.sends with
        | (send_ret, sent) =>
          let d3 := { d1 with sent := sent }
          if send_ret.neg = true then (send_ret, d3)
          else
            (EU_success,
             { d3 with
                 _current_status := some (DownloadStatus.new d3._buffer._buffer 0 0 0 false)
                 _tfirst := 0
                 _tlast := 0
                 _got_any_data := false
                 _initiated := true
                 _ever_initiated := true
                 _download_to_ram := true
                 _dest_string_stream := some [] })

/-- The constructor `Downloader::Downloader`, for the configuration values
`downloader_frequency` (in microseconds), `downloader_byte_rate` and
`downloader_disk_write_frequency` and the address `arena` at which `new Buffer` places the
arena. The result is `none` when `nassertv` fails: the constructor then returns before it
has set the other members. The members the constructor does not set are given the values
`false`, null and the empty string. -/
def Engine.new (downloader_frequency downloader_byte_rate downloader_disk_write_frequency : Nat)
    (arena : Nat) : Option Engine :=
  if downloader_frequency > 0 ∧ downloader_byte_rate > 0 ∧ downloader_disk_write_frequency > 0
  then
    let receive_size := compute_receive_size downloader_frequency downloader_byte_rate
    let disk_buffer_size := downloader_disk_write_frequency * receive_size
    some
      { _frequency := downloader_frequency
        _byte_rate := downloader_byte_rate
        _disk_write_frequency := downloader_disk_write_frequency
        _receive_size := receive_size
        _disk_buffer_size := disk_buffer_size
        _buffer := { _buffer := arena, _length := disk_buffer_size }
        _connected := false
        _current_status := none
        _recompute_buffer := false
        _tfirst := 0
        _tlast := 0
        _got_any_data := false
        _initiated := false
        _ever_initiated := false
        _download_to_ram := false
        _total_bytes_written := 0
        _server_name := []
        memory := fun _ => Char.ofNat 0
        inbound := []
        sent := []
        _dest_stream := []
        _dest_stream_open := false
        _dest_string_stream := none }
  else none

/-! ## The rate tunables -/

/-- Modelled from the spec: a change of the rate tunables between two polls. The three
setters are inline functions of a file that is not part of the sources; the specification
says that the engine owns the poll interval, the byte rate and the flush interval in polls
together with a dirty flag signalling "recompute buffer on next poll", and that the caller
may change them between polls. -/
def set_tunables (d : Engine) (frequency byte_rate disk_write_frequency : Nat) : Engine :=
  { d with _frequency := frequency, _byte_rate := byte_rate,
           _disk_write_frequency := disk_write_frequency, _recompute_buffer := true }

/-! ## Notions used to state the properties -/

/-- `pat` occurs in `s` at index `i`. -/
def OccursAt (pat s : List Char) (i : Nat) : Prop := pat <+: s.drop i

/-- The header terminator: two consecutive line delimiters. -/
def CRLFCRLF : List Char := CRLF ++ CRLF

/-- `pat` occurs in `s` at index `k` and at no smaller index. -/
def FirstOccurrence (pat s : List Char) (k : Nat) : Prop :=
  OccursAt pat s k ∧ ∀ j, j < k → ¬ OccursAt pat s j

/-- The two statuses differ at most in the three parse flags. -/
def SameCursors (s t : DownloadStatus) : Prop :=
  t._buffer = s._buffer ∧ t._start = s._start ∧ t._next_in = s._next_in ∧
  t._bytes_in_buffer = s._bytes_in_buffer ∧ t._total_bytes_written = s._total_bytes_written ∧
  t._total_bytes = s._total_bytes ∧ t._partial_content = s._partial_content ∧
  t._first_byte = s._first_byte ∧ t._last_byte = s._last_byte

/-- Index `p` is where a line starts: the beginning of the buffer or just after a delimiter. -/
def LineStart (s : List Char) (p : Nat) : Prop :=
  p = 0 ∨ (2 ≤ p ∧ OccursAt CRLF s (p - 2))

/-- The cursor invariant `write_cursor - start == bytes_buffered`. -/
def CursorInv (s : DownloadStatus) : Prop :=
  (s._next_in : Int) - (s._start : Int) = (s._bytes_in_buffer : Int)

instance (s : DownloadStatus) : Decidable (CursorInv s) := by
  unfold CursorInv; infer_instance

/-- The cursor invariant for the status an engine points to, if any. -/
def EngineCursorInv (d : Engine) : Prop :=
  ∀ s, d._current_status = some s → CursorInv s

/-- The cursor invariant at the end of the first part of a tick. -/
def PreparedCursorInv : Prepared → Prop
  | Prepared.returned _ d => EngineCursorInv d
  | Prepared.go_on _ d s => d._current_status = some s ∧ CursorInv s

/-- The status table of the specification: the outcome assigned to a numeric status code. -/
def status_table (code : Nat) : ErrorUtilCode :=
  if code = 200 ∨ code = 206 ∨ code = 202 then EU_success
  else if code = 302 then EU_http_redirect
  else if code = 408 then EU_error_http_server_timeout
  else if code = 503 then EU_error_http_service_unavailable
  else if code = 504 then EU_error_http_gateway_timeout
  else EU_error_abort

/-- The value of a decimal digit character. -/
def digit_value (c : Char) : Nat := c.toNat - 48

/-- The status line `HTTP/1.1 <code> <reason>` with the three digits `d1 d2 d3` as code. -/
def status_line (d1 d2 d3 : Char) (reason : List Char) : List Char :=
  "HTTP/1.1 ".toList ++ [d1, d2, d3] ++ Char.ofNat 32 :: reason

instance (pat s : List Char) (i : Nat) : Decidable (OccursAt pat s i) := by
  unfold OccursAt; infer_instance

instance (pat s : List Char) (k : Nat) : Decidable (FirstOccurrence pat s k) := by
  unfold FirstOccurrence; infer_instance

/-- The header lines `ls`, each followed by the line delimiter. -/
def header_lines : List (List Char) → List Char
  | [] => []
  | l :: ls => l ++ CRLF ++ header_lines ls

/-- The name of a header line: what stands before its first colon. -/
def field_name (l : List Char) : List Char := l.takeWhile (fun c => c ≠ Char.ofNat 58)

/-- The decimal numeral of `n`. -/
def decimal (n : Nat) : List Char := Nat.toDigits 10 n

/-- A header line other than `Content-Length`: not empty, free of carriage returns, and with
a name different from `Content-Length`. -/
def OtherHeaderLine (l : List Char) : Prop :=
  l ≠ [] ∧ CR ∉ l ∧ field_name l ≠ "Content-Length".toList

instance (l : List Char) : Decidable (OtherHeaderLine l) := by
  unfold OtherHeaderLine; infer_instance

/-- The header line `Content-Length: n`. -/
def content_length_line (n : Nat) : List Char := "Content-Length: ".toList ++ decimal n

/-- The number of bytes a client expects for its range: `last_byte - first_byte`, and one
more for a range that starts at byte 0. -/
def client_download_bytes (s : DownloadStatus) : Int :=
  s._last_byte - s._first_byte + (if s._first_byte = 0 then 1 else 0)

/-- The number of bytes a client expects for its range as `parse_header` computes it, in
the `int` variable `client_download_bytes`. -/
def client_download_int (s : DownloadStatus) : Int :=
  if s._first_byte = 0 then to_int (to_int (s._last_byte - s._first_byte) + 1)
  else to_int (s._last_byte - s._first_byte)

/-- The value `parse_header` stores in the `int` variable `server_download_bytes` for a
line `Content-Length: n`: what `atoi` gives for the decimal numeral of `n`. -/
def server_download_int (n : Nat) : Int := to_int (clamp_long (n : Int))

/-- The number `x` is a value of type `int`. -/
def fits_int (x : Int) : Prop := -2147483648 ≤ x ∧ x ≤ 2147483647

instance (x : Int) : Decidable (fits_int x) := by
  unfold fits_int; infer_instance

/-- What C10 asks of the engine `d1` and status `s1` with which the receive attempts of a
tick start, when the tick began in engine `d` with status `s` holding `n` payload bytes and
the recompute flag set: the arena was replaced by one at `new_buffer` sized from the
tunables of `d`, the status was rebound to it and emptied, the flag was cleared, and
nothing was received yet. -/
def RecomputedFrom (d : Engine) (new_buffer : Nat) (d1 : Engine)
    (s1 : DownloadStatus) : Prop :=
  d1._receive_size = compute_receive_size d._frequency d._byte_rate ∧
  d1._disk_buffer_size = d1._receive_size * d._disk_write_frequency ∧
  d1._buffer = { _buffer := new_buffer, _length := d1._receive_size * d._disk_write_frequency } ∧
  d1._current_status = some s1 ∧
  s1._buffer = new_buffer ∧ s1._start = new_buffer ∧ s1._next_in = new_buffer ∧
  s1._bytes_in_buffer = 0 ∧ s1._total_bytes = 0 ∧
  d1._recompute_buffer = false ∧
  d1.inbound = d.inbound ∧ d1._got_any_data = d._got_any_data

/-- What a download of the response `H ++ P` keeps true of its status `s`, the memory, the
bytes written to the destination and the bytes still to come: the cursors are consistent
and, before the header is parsed, nothing was written and the buffer followed by the
inbound stream is the whole response; afterwards, the destination followed by the buffer
and the inbound stream is the payload `P`. -/
def Holding (H P : List Char) (s : DownloadStatus) (m : Mem) (dest inbound : List Char) :
    Prop :=
  s._partial_content = false ∧ s._start = s._buffer ∧
  s._next_in = s._start + s._bytes_in_buffer ∧
  ((s._header_is_complete = false ∧ s._first_line_complete = false ∧ dest = [] ∧
      read_mem m s._start s._bytes_in_buffer ++ inbound = H ++ P) ∨
   (s._header_is_complete = true ∧
      dest ++ read_mem m s._start s._bytes_in_buffer ++ inbound = P))

/-- The header `H` of the response `H ++ P` starts with the line `ln`, which
`parse_http_response` accepts, and ends with the first blank line of the response, whose
`CRLF CRLF` stands at index `k`. -/
def AcceptedHeader (H P ln : List Char) (k : Nat) : Prop :=
  ln ++ CRLF <+: H ∧ CR ∉ ln ∧ ln ≠ [] ∧ parse_http_response ln = some EU_success ∧
  FirstOccurrence CRLFCRLF (H ++ P) k ∧ H.length = k + 4

/-- The invariant `Holding` for the local state of the receive attempts of a tick, together
with what the attempts keep true: an end of stream leaves nothing inbound, and no answer of
the operating system announces an end of stream by itself. -/
def RecvHolding (H P dest : List Char) (r : RecvState) : Prop :=
  Holding H P r.status r.memory dest r.inbound ∧ (r.fret = EU_eof → r.inbound = []) ∧
  SockEvent.ready 0 ∉ r.recvs

/-- The engine is in the middle of a disk download, connected, with no recompute pending,
with receive chunk size `rs` and buffer capacity `cap`. -/
def Running (rs cap : Nat) (d : Engine) : Prop :=
  d._initiated = true ∧ d._connected = true ∧ d._download_to_ram = false ∧
  d._recompute_buffer = false ∧ d._receive_size = rs ∧ d._disk_buffer_size = cap

/-- The engine is in the middle of a disk download of the response `H ++ P`. -/
def Delivering (H P : List Char) (rs cap : Nat) (d : Engine) : Prop :=
  Running rs cap d ∧
  ∃ s, d._current_status = some s ∧ Holding H P s d.memory d._dest_stream d.inbound

/-- The engine is in the middle of a disk download of `H ++ P`, or has no download in
progress. -/
def Settled (H P : List Char) (rs cap : Nat) (d : Engine) : Prop :=
  d._initiated = false ∨ Delivering H P rs cap d

/-- The engine after the ticks whose environments are `envs`, in order. -/
def run_ticks (d : Engine) : List TickEnv → Engine
  | [] => d
  | env :: envs => run_ticks (run d env).2 envs

/-- An operation on a Download Status: a receive attempt, a parse of the header, a flush to
the disk or to memory, a reset, or the rebinding to a new arena on a recompute. -/
inductive StatusOp where
  | receive (m : Mem) (inbound : List Char) (rec_size : Nat) (ev : SockEvent)
  | parse (m : Mem)
  | flush_disk (m : Mem) (dest : List Char)
  | flush_ram (m : Mem) (dest : List Char)
  | reset
  | recompute (d : Engine) (t0 : Int) (new_buffer : Nat)

/-- The status after the operation `op`. -/
def StatusOp.apply (s : DownloadStatus) : StatusOp → DownloadStatus
  | StatusOp.receive m inbound rec_size ev => (fast_receive m inbound s rec_size ev).2.1
  | StatusOp.parse m => (parse_header m s).2
  | StatusOp.flush_disk m dest => (write_to_disk m s dest).2.1
  | StatusOp.flush_ram m dest => (write_to_ram m s dest).2.1
  | StatusOp.reset => s.reset
  | StatusOp.recompute d t0 new_buffer => (recompute_buffer d s t0 new_buffer).2

/-- The engine a `Prepared` outcome carries. -/
def Prepared.engine : Prepared → Engine
  | Prepared.returned _ d => d
  | Prepared.go_on _ d _ => d

/-- The download of the engine is still open: the engine is initiated, holds a status, and
neither the socket nor the destination file was closed. -/
def StillOpen (d0 d : Engine) : Prop :=
  d._initiated = d0._initiated ∧ d._current_status.isSome = true ∧
  d._connected = d0._connected ∧ d._dest_stream_open = d0._dest_stream_open

/-- The engine of an eligible tick when it reaches the recompute test: `_tfirst` is set if it
was 0 and `_tlast` is the second reading of the clock. -/
def tick_start (d : Engine) (env : TickEnv) : Engine :=
  { (if d._tfirst = 0 then { d with _tfirst := env.t0 } else d) with _tlast := env.t1 }

/-- The receive attempts of a tick that starts them with the engine `d` and the status
`status`. -/
def tick_receive (d : Engine) (status : DownloadStatus) (env : TickEnv) : RecvState :=
  receive_step d._receive_size (before_receive d status env)

/-- The bytes a final flush of the status `s` hands to the destination: the bytes of the
arena that are left once the header is excised; nothing when the arena is empty. -/
def remaining_bytes (m : Mem) (s : DownloadStatus) : List Char :=
  if 0 < s._bytes_in_buffer then
    read_mem m (parse_header m s).2._start (parse_header m s).2._bytes_in_buffer
  else []

/-- The loop `receive_loop` with a record of its calls of `fast_receive`: the result is the
state `receive_loop` computes together with the list of the pairs (requested size, code
returned), in the order of the calls. An iteration with `i = repeat` and `remain = 0` makes
no call. -/
def receive_loop_traced (repeat_ remain : Nat) :
    Nat → Nat → RecvState → RecvState × List (Nat × ErrorUtilCode)
  | 0, _, r => (r, [])
  | k + 1, i, r =>
    let r1 :=
      if i < repeat_ then r.receive MAX_RECEIVE_BYTES
      else if remain > 0 then r.receive remain
      else r
    let calls :=
      if i < repeat_ then [(MAX_RECEIVE_BYTES, r1.fret)]
      else if remain > 0 then [(remain, r1.fret)]
      else []
    if r1.fret = EU_eof ∨ r1.fret.neg = true then (r1, calls)
    else if r1.fret = EU_success then
      let rest := receive_loop_traced repeat_ remain k (i + 1) { r1 with got_any_data := true }
      (rest.1, calls ++ rest.2)
    else
      let rest := receive_loop_traced repeat_ remain k (i + 1) r1
      (rest.1, calls ++ rest.2)

/-- The receive attempts `receive_step` with a record of the calls of `fast_receive`. -/
def receive_step_traced (receive_size : Nat) (r : RecvState) :
    RecvState × List (Nat × ErrorUtilCode) :=
  if receive_size > MAX_RECEIVE_BYTES then
    let repeat_ := receive_size / MAX_RECEIVE_BYTES
    let remain := receive_size % MAX_RECEIVE_BYTES
    receive_loop_traced repeat_ remain (repeat_ + 1) 0 r
  else ((r.receive receive_size), [(receive_size, (r.receive receive_size).fret)])

/-- The sizes a receive step of `receive_size` bytes asks for when no call ends it early:
the quotient many requests of `MAX_RECEIVE_BYTES` bytes, then the remainder if positive. -/
def full_requests (receive_size : Nat) : List Nat :=
  List.replicate (receive_size / MAX_RECEIVE_BYTES) MAX_RECEIVE_BYTES
    ++ (if receive_size % MAX_RECEIVE_BYTES > 0 then [receive_size % MAX_RECEIVE_BYTES] else [])

/-- The request of a download without a range when every line ends in CR LF. -/
def crlf_request (path host : List Char) : List Char :=
  "GET ".toList ++ path ++ " HTTP/1.1".toList ++ CRLF ++ "Host: ".toList ++ host ++ CRLF
    ++ "Connection: close".toList ++ CRLF ++ CRLF

/-- The request of a download without a range when every line ends in a bare LF. -/
def lf_request (path host : List Char) : List Char :=
  "GET ".toList ++ path ++ " HTTP/1.1".toList ++ [LF] ++ "Host: ".toList ++ host ++ [LF]
    ++ "Connection: close".toList ++ [LF] ++ [LF]

/-- The decimal numeral of an integer, with a minus sign when it is negative. -/
def decimal_int (i : Int) : List Char :=
  if i < 0 then Char.ofNat 45 :: decimal i.natAbs else decimal i.natAbs

/-- The header line `Range: bytes=<first_byte>-<last_byte>`. -/
def range_line (first_byte last_byte : Int) : List Char :=
  "Range: bytes=".toList ++ decimal_int first_byte ++ [Char.ofNat 45] ++ decimal_int last_byte

/-- The lines of a text in which a line feed ends a line: the pieces between the line
feeds, the piece after the last line feed included. -/
def lines_of : List Char → List (List Char)
  | [] => [[]]
  | c :: cs =>
    if c = LF then [] :: lines_of cs
    else
      match lines_of cs with
      | [] => [[c]]
      | l :: ls => (c :: l) :: ls

/-- A first line of the form `<token> SP <code> SP <reason>` with the three digits
`d1 d2 d3` as code. -/
def response_line (token : List Char) (d1 d2 d3 : Char) (reason : List Char) : List Char :=
  token ++ Char.ofNat 32 :: d1 :: d2 :: d3 :: Char.ofNat 32 :: reason

/-- The code of a tick to memory that corresponds to the code `c` of a tick to disk: the
"wrote" code `EU_write` becomes `EU_write_ram`, every other code is the same. -/
def ram_code : ErrorUtilCode → ErrorUtilCode
  | EU_write => EU_write_ram
  | c => c

/-- The engine `r` downloads to memory what the engine `d` downloads to a file: `d` has the
disk destination and `r` the memory destination, the string stream of `r` holds what the
file of `d` holds, and every other member but the file stream is the same in both. -/
def SameMachine (d r : Engine) : Prop :=
  d._download_to_ram = false ∧ r._download_to_ram = true ∧
  r._dest_string_stream = some d._dest_stream ∧
  r._current_status = d._current_status ∧
  r._receive_size = d._receive_size ∧ r._disk_buffer_size = d._disk_buffer_size ∧
  r._buffer = d._buffer ∧ r._recompute_buffer = d._recompute_buffer ∧
  r._initiated = d._initiated ∧ r._ever_initiated = d._ever_initiated ∧
  r._connected = d._connected ∧ r._got_any_data = d._got_any_data ∧
  r._frequency = d._frequency ∧ r._byte_rate = d._byte_rate ∧
  r._disk_write_frequency = d._disk_write_frequency ∧
  r._tfirst = d._tfirst ∧ r._tlast = d._tlast ∧
  r._total_bytes_written = d._total_bytes_written ∧ r._server_name = d._server_name ∧
  r.memory = d.memory ∧ r.inbound = d.inbound ∧ r.sent = d.sent

/-- The engine with the memory destination that corresponds to the engine `d` with the disk
destination; `ds` and `o` are the state of its file stream, which a download to memory does
not write to. -/
def to_ram (d : Engine) (ds : List Char) (o : Bool) : Engine :=
  { d with _download_to_ram := true, _dest_stream := ds, _dest_stream_open := o,
           _dest_string_stream := some d._dest_stream }

/-- The outcome of the first part of a tick to memory that corresponds to the outcome `p` of
the first part of a tick to disk. -/
def Prepared.to_ram : Prepared → List Char → Bool → Prepared
  | Prepared.returned c d, ds, o => Prepared.returned (c.map ram_code) (Downloader.to_ram d ds o)
  | Prepared.go_on ret d s, ds, o => Prepared.go_on (ram_code ret) (Downloader.to_ram d ds o) s

/-- The loop `receive_loop` with a record of its calls of `fast_receive`: the result is the
state `receive_loop` computes together with the list of the pairs (state before the call,
requested size), in the order of the calls. -/
def receive_loop_calls (repeat_ remain : Nat) :
    Nat → Nat → RecvState → RecvState × List (RecvState × Nat)
  | 0, _, r => (r, [])
  | k + 1, i, r =>
    let r1 :=
      if i < repeat_ then r.receive MAX_RECEIVE_BYTES
      else if remain > 0 then r.receive remain
      else r
    let calls :=
      if i < repeat_ then [(r, MAX_RECEIVE_BYTES)]
      else if remain > 0 then [(r, remain)]
      else []
    if r1.fret = EU_eof ∨ r1.fret.neg = true then (r1, calls)
    else if r1.fret = EU_success then
      let rest := receive_loop_calls repeat_ remain k (i + 1) { r1 with got_any_data := true }
      (rest.1, calls ++ rest.2)
    else
      let rest := receive_loop_calls repeat_ remain k (i + 1) r1
      (rest.1, calls ++ rest.2)

/-- The receive attempts `receive_step` with a record of the calls of `fast_receive`: the
state before each call and the size it asks for. -/
def receive_step_calls (receive_size : Nat) (r : RecvState) :
    RecvState × List (RecvState × Nat) :=
  if receive_size > MAX_RECEIVE_BYTES then
    let repeat_ := receive_size / MAX_RECEIVE_BYTES
    let remain := receive_size % MAX_RECEIVE_BYTES
    receive_loop_calls repeat_ remain (repeat_ + 1) 0 r
  else (r.receive receive_size, [(r, receive_size)])

/-- The status `s` lies in the arena of `cap` bytes at address `base`: its cursors start at
the base, the write cursor stands after the buffered bytes, and these are at most `cap`. -/
def StatusInArena (base cap : Nat) (s : DownloadStatus) : Prop :=
  s._buffer = base ∧ s._start = base ∧ s._next_in = base + s._bytes_in_buffer ∧
  s._bytes_in_buffer ≤ cap

/-- What the engine keeps true of its arena between two calls: the flush interval is at least
one poll, a receive chunk fits the arena, the arena has the size `_disk_buffer_size`, and
the status, if there is one, lies in the arena. -/
def ArenaInv (d : Engine) : Prop :=
  1 ≤ d._disk_write_frequency ∧ d._receive_size ≤ d._disk_buffer_size ∧
  d._buffer._length = d._disk_buffer_size ∧
  ∀ s, d._current_status = some s → StatusInArena d._buffer._buffer d._disk_buffer_size s

/-- What holds when a tick comes to its receive attempts with the engine `d` and the status
`s`: the arena invariant, and the bytes already buffered leave room for a receive chunk. -/
def ReadyToReceive (d : Engine) (s : DownloadStatus) : Prop :=
  ArenaInv d ∧ d._current_status = some s ∧
  s._bytes_in_buffer + d._receive_size ≤ d._disk_buffer_size

/-- The arena invariant at the end of the first part of a tick. -/
def PreparedArena : Prepared → Prop
  | Prepared.returned _ d => ArenaInv d
  | Prepared.go_on _ d s => ReadyToReceive d s

/-- A call of the caller on the engine: a tick, a change of the rate tunables, or one of
the two `initiate`. -/
inductive EngineOp where
  | tick (env : TickEnv)
  | set_rate (frequency byte_rate disk_write_frequency : Nat)
  | start_file (file_name : List Char) (first_byte last_byte total_bytes : Int)
      (partial_content : Bool) (env : InitEnv)
  | start_ram (file_name : List Char) (env : InitEnv)

/-- The engine after the call `op`. -/
def EngineOp.apply (d : Engine) : EngineOp → Engine
  | EngineOp.tick env => (run d env).2
  | EngineOp.set_rate frequency byte_rate disk_write_frequency =>
    set_tunables d frequency byte_rate disk_write_frequency
  | EngineOp.start_file file_name first_byte last_byte total_bytes partial_content env =>
    (initiate d file_name first_byte last_byte total_bytes partial_content env).2
  | EngineOp.start_ram file_name env => (initiate_ram d file_name env).2

/-- A change of the rate tunables keeps the flush interval at one poll or more. -/
def EngineOp.keeps_flush_interval : EngineOp → Prop
  | EngineOp.set_rate _ _ disk_write_frequency => 1 ≤ disk_write_frequency
  | _ => True

/-- A memory that holds the bytes `bs` from address `a` on and NUL bytes elsewhere. -/
def memory_with (a : Nat) (bs : List Char) : Mem :=
  write_mem (fun _ => Char.ofNat 0) a bs

/-- A status whose arena at address `a` holds `n` received bytes that were not parsed yet. -/
def status_holding (a n : Nat) (first_byte last_byte : Int) (partial_content : Bool) :
    DownloadStatus :=
  { DownloadStatus.new a first_byte last_byte 0 partial_content with
      _next_in := a + n, _bytes_in_buffer := n }

/-- A short complete response: status line, one header line, blank line, three payload bytes. -/
def short_response : List Char :=
  "HTTP/1.1 200 OK".toList ++ CRLF ++ "Content-Length: 3".toList ++ CRLF ++ CRLF ++
    "abc".toList

/-- The header of `short_response`: 38 bytes up to and including the blank line. -/
def short_header : List Char :=
  status_line '2' '0' '0' "OK".toList ++ CRLF ++ "Content-Length: 3".toList ++ CRLF ++ CRLF

/-- A response to a range request: status 206, a `Content-Length: n` line between two other
header lines, and three payload bytes. -/
def range_response (n : Nat) : List Char :=
  status_line '2' '0' '6' "Partial Content".toList ++ CRLF
    ++ header_lines ["Server: panda".toList] ++ content_length_line n ++ CRLF
    ++ header_lines ["Connection: close".toList] ++ CRLF ++ "xyz".toList

/-- A redirect response whose `Location` line ends right after the colon. -/
def redirect_response : List Char :=
  status_line '3' '0' '2' "Found".toList ++ CRLF ++ "Location:".toList ++ CRLF ++ CRLF

/-- A response whose first line holds no space, with no blank line after it. -/
def garbled_response : List Char := "ERROR".toList ++ CRLF

/-- An engine in the middle of a download whose header is complete, with 500 payload bytes
in the arena at address 1000 and the recompute flag set after a change of the tunables. -/
def recompute_engine (to_ram : Bool) : Engine :=
  { _frequency := 200000
    _byte_rate := 1000
    _disk_write_frequency := 2
    _receive_size := 500
    _disk_buffer_size := 1000
    _buffer := { _buffer := 1000, _length := 1000 }
    _connected := true
    _current_status := some
      { status_holding 1000 500 0 0 false with
          _first_line_complete := true, _header_is_valid := true,
          _header_is_complete := true }
    _recompute_buffer := true
    _tfirst := 5000000
    _tlast := 5000000
    _got_any_data := true
    _initiated := true
    _ever_initiated := true
    _download_to_ram := to_ram
    _total_bytes_written := 0
    _server_name := "host".toList
    memory := memory_with 1000 (List.replicate 500 'p')
    inbound := "more".toList
    sent := []
    _dest_stream := []
    _dest_stream_open := !to_ram
    _dest_string_stream := if to_ram then some [] else none }

/-- The answers of the environment during a tick at time 6 s in which nothing arrives; a new
arena would be placed at address 4000. -/
def quiet_tick : TickEnv :=
  { connect := ConnectEvent.connected [], t0 := 6000000, t1 := 6000000, new_buffer := 4000,
    recvs := [SockEvent.no_data] }

/-- The header of the end-to-end example: `200 OK` and `Content-Length: 250`. -/
def delivery_header : List Char :=
  status_line '2' '0' '0' "OK".toList ++ CRLF ++ content_length_line 250 ++ CRLF ++ CRLF

/-- The 250 payload bytes of the end-to-end example. -/
def delivery_payload : List Char :=
  (List.range 250).map (fun i => Char.ofNat (65 + i % 26))

/-- The engine of the end-to-end example right after `initiate`: poll interval 0.1 s, byte
rate 1000 bytes per second, a flush every 2 polls, an empty destination file, and the
response of the server still to come. -/
def delivery_engine : Engine :=
  { _frequency := 100000
    _byte_rate := 1000
    _disk_write_frequency := 2
    _receive_size := 100
    _disk_buffer_size := 200
    _buffer := { _buffer := 1000, _length := 200 }
    _connected := true
    _current_status := some (DownloadStatus.new 1000 0 0 0 false)
    _recompute_buffer := false
    _tfirst := 0
    _tlast := 0
    _got_any_data := false
    _initiated := true
    _ever_initiated := true
    _download_to_ram := false
    _total_bytes_written := 0
    _server_name := "host".toList
    memory := fun _ => Char.ofNat 0
    inbound := delivery_header ++ delivery_payload
    sent := []
    _dest_stream := []
    _dest_stream_open := true
    _dest_string_stream := none }

/-- A tick at time `t` (in microseconds) in which the operating system answers `ev`. -/
def tick_at (t : Int) (ev : SockEvent) : TickEnv :=
  { connect := ConnectEvent.connected [], t0 := t, t1 := t, new_buffer := 0, recvs := [ev] }

/-- The ticks of the end-to-end example before the last one: a full chunk, a tick that comes
too early, a short read, a tick without data, a full chunk and a read of what is left. -/
def delivery_ticks : List TickEnv :=
  [tick_at 1000000 (SockEvent.ready 100), tick_at 1050000 (SockEvent.ready 100),
   tick_at 1100000 (SockEvent.ready 7), tick_at 1200000 SockEvent.no_data,
   tick_at 1300000 (SockEvent.ready 1000), tick_at 1400000 (SockEvent.ready 1000)]

/-- A response that holds a status line with the code `d1 d2 d3` and the blank line. -/
def error_response (d1 d2 d3 : Char) : List Char :=
  status_line d1 d2 d3 "Error".toList ++ CRLF ++ CRLF

/-- The engine of the end-to-end example when the server answers `503` and closes. -/
def refused_engine : Engine :=
  { delivery_engine with inbound := error_response '5' '0' '3' }

/-- The answers of the environment to an `initiate` on which everything goes well: the dial
succeeds, the destination opens empty and the socket takes `n` bytes at the first `send()`. -/
def smooth_init (n : Nat) : InitEnv :=
  { connect := ConnectEvent.connected [], open_file := OpenEvent.opened [],
    sends := [SendEvent.accepted n] }

/-- The request for the file `/f` on the host `h`: 43 bytes. -/
def short_request : List Char := ram_request "/f".toList "h".toList

/-- A status at address 1000 whose header is complete and whose arena holds 500 payload
bytes. -/
def status_holding_complete : DownloadStatus :=
  { status_holding 1000 500 0 0 false with
      _first_line_complete := true, _header_is_valid := true, _header_is_complete := true }

/-- The engine of the end-to-end example when the server closes the connection without
sending a byte. -/
def silent_engine : Engine :=
  { delivery_engine with inbound := [] }

/-- An engine at the end of a download: the header is complete, 500 payload bytes wait in
the arena, and the server has nothing more to send. -/
def final_engine (to_ram : Bool) : Engine :=
  { recompute_engine to_ram with inbound := [], _recompute_buffer := false }

/-- The start of the receive attempts of a tick in which the socket has nothing to read. -/
def idle_socket : RecvState :=
  { fret := EU_ok, got_any_data := false, status := DownloadStatus.new 1000 0 0 0 false,
    memory := fun _ => Char.ofNat 0, inbound := [], recvs := [] }

/-- An engine with no download in progress and no connection, for the server `h`. -/
def idle_engine : Engine :=
  { delivery_engine with
      _initiated := false, _ever_initiated := false, _current_status := none,
      _connected := false, _dest_stream_open := false, _server_name := "h".toList,
      inbound := [] }

/-- A response the status table rejects, followed by six bytes of body. -/
def rejected_response : List Char :=
  status_line '4' '0' '4' "Not Found".toList ++ CRLF ++ CRLF ++ "secret".toList

/-- The engine of the end-to-end example when the server answers `404` with a body. -/
def rejected_engine : Engine :=
  { delivery_engine with inbound := rejected_response }

/-- A response to a range request whose `Content-Length` line ends right after the colon. -/
def truncated_length_response : List Char :=
  status_line '2' '0' '6' "Partial Content".toList ++ CRLF ++ "Content-Length:".toList
    ++ CRLF ++ CRLF

/-- A session of calls on a new engine: the download of `/f` is initiated, a tick receives
data, the caller changes the three tunables, and the next tick recomputes the arena. -/
def rate_change_session : List EngineOp :=
  [EngineOp.start_file "/f".toList 0 0 0 false
     { connect := ConnectEvent.connected short_response, open_file := OpenEvent.opened [],
       sends := [SendEvent.accepted 100] },
   EngineOp.tick (tick_at 1000000 (SockEvent.ready 100)),
   EngineOp.set_rate 50000 4000 3,
   EngineOp.tick (tick_at 1100000 (SockEvent.ready 100))]

/-! ## Lemmas on the string operations and on the parser loop -/

theorem findAux_some_iff (pat : List Char) (s : List Char) (i : Nat) :
    findAux pat s = some i ↔
      (OccursAt pat s i ∧ i ≤ s.length ∧ ∀ j, j < i → ¬ OccursAt pat s j) := by
  induction s generalizing i with
  | nil =>
    unfold findAux OccursAt
    by_cases hp : pat = []
    · subst hp
      simp
      constructor
      · intro h; subst h; simp
      · intro h; exact h.1.symm
    · simp [hp]
  | cons c cs ih =>
    unfold findAux
    by_cases h0 : pat.isPrefixOf (c :: cs) = true
    · rw [if_pos h0]
      have h0' : OccursAt pat (c :: cs) 0 := by
        simpa [OccursAt] using List.isPrefixOf_iff_prefix.mp h0
      constructor
      · intro h
        have : i = 0 := by simpa using h.symm
        subst this
        exact ⟨h0', Nat.zero_le _, fun j hj => absurd hj (Nat.not_lt_zero j)⟩
      · rintro ⟨_, _, h3⟩
        cases i with
        | zero => rfl
        | succ k => exact absurd h0' (h3 0 (Nat.succ_pos k))
    · rw [if_neg h0]
      have h0' : ¬ OccursAt pat (c :: cs) 0 := by
        intro h
        exact h0 (List.isPrefixOf_iff_prefix.mpr (by simpa [OccursAt] using h))
      cases i with
      | zero =>
        constructor
        · intro h
          cases hf : findAux pat cs <;> simp [hf] at h
        · rintro ⟨h1, _, _⟩
          exact absurd h1 h0'
      | succ k =>
        have := ih k
        constructor
        · intro h
          have hk : findAux pat cs = some k := by
            cases hf : findAux pat cs with
            | none => simp [hf] at h
            | some v => simp [hf] at h; subst h; rfl
          obtain ⟨h1, h2, h3⟩ := this.mp hk
          refine ⟨by simpa [OccursAt] using h1, by simpa using h2, ?_⟩
          intro j hj
          cases j with
          | zero => exact h0'
          | succ j' =>
            have := h3 j' (by omega)
            simpa [OccursAt] using this
        · rintro ⟨h1, h2, h3⟩
          have hk : findAux pat cs = some k := by
            apply this.mpr
            refine ⟨by simpa [OccursAt] using h1, by simpa using h2, ?_⟩
            intro j hj
            have := h3 (j + 1) (by omega)
            simpa [OccursAt] using this
          simp [hk]

theorem find_some_iff (pat s : List Char) (p i : Nat) :
    find s pat (some p) = some i ↔
      (p ≤ i ∧ i ≤ s.length ∧ OccursAt pat s i ∧ ∀ j, p ≤ j → j < i → ¬ OccursAt pat s j) := by
  unfold find
  simp only []
  by_cases hp : s.length < p
  · rw [if_pos hp]
    constructor
    · intro h; cases h
    · rintro ⟨h1, h2, _⟩; omega
  · rw [if_neg hp]
    constructor
    · intro h
      cases hf : findAux pat (s.drop p) with
      | none => simp [hf] at h
      | some v =>
        simp [hf] at h
        subst h
        obtain ⟨h1, h2, h3⟩ := (findAux_some_iff pat (s.drop p) v).mp hf
        simp [OccursAt, List.drop_drop] at h1 h2 h3
        refine ⟨by omega, by omega, by simpa [OccursAt, Nat.add_comm] using h1, ?_⟩
        intro j hj1 hj2
        have := h3 (j - p) (by omega)
        have e : p + (j - p) = j := by omega
        simpa [OccursAt, e] using this
    · rintro ⟨h1, h2, h3, h4⟩
      have hf : findAux pat (s.drop p) = some (i - p) := by
        apply (findAux_some_iff pat (s.drop p) (i - p)).mpr
        have e : p + (i - p) = i := by omega
        refine ⟨by simpa [OccursAt, List.drop_drop, e] using h3, by simp; omega, ?_⟩
        intro j hj
        have := h4 (p + j) (by omega) (by omega)
        simpa [OccursAt, List.drop_drop] using this
      simp [hf]
      omega



theorem find_exists_of_occurs (pat s : List Char) (p i : Nat) (hpi : p ≤ i)
    (hi : i ≤ s.length) (h : OccursAt pat s i) :
    ∃ k, find s pat (some p) = some k ∧ k ≤ i := by
  classical
  have hex : ∃ j, p ≤ j ∧ OccursAt pat s j := ⟨i, hpi, h⟩
  refine ⟨Nat.find hex, ?_, Nat.find_min' hex ⟨hpi, h⟩⟩
  apply (find_some_iff pat s p _).mpr
  have hle : Nat.find hex ≤ i := Nat.find_min' hex ⟨hpi, h⟩
  refine ⟨(Nat.find_spec hex).1, by omega, (Nat.find_spec hex).2, ?_⟩
  intro j hj1 hj2 hocc
  exact Nat.find_min hex hj2 ⟨hj1, hocc⟩

theorem occursAt_CRLF_iff (s : List Char) (i : Nat) :
    OccursAt CRLF s i ↔ (s[i]? = some CR ∧ s[i + 1]? = some LF) := by
  unfold OccursAt CRLF
  have h0 : (s.drop i)[0]? = s[i]? := by simp [List.getElem?_drop]
  have h1 : (s.drop i)[1]? = s[i + 1]? := by simp [List.getElem?_drop]
  rw [← h0, ← h1]
  generalize s.drop i = l
  match l with
  | [] => simp
  | [a] => simp [List.prefix_iff_eq_append]
  | a :: b :: t =>
    simp [List.cons_prefix_cons]
    constructor
    · rintro ⟨h1, h2⟩; exact ⟨h1.symm, h2.symm⟩
    · rintro ⟨h1, h2⟩; exact ⟨h1.symm, h2.symm⟩

theorem occursAt_CRLFCRLF_iff (s : List Char) (i : Nat) :
    OccursAt CRLFCRLF s i ↔ (OccursAt CRLF s i ∧ OccursAt CRLF s (i + 2)) := by
  rw [occursAt_CRLF_iff, occursAt_CRLF_iff]
  unfold OccursAt CRLFCRLF CRLF
  have h0 : (s.drop i)[0]? = s[i]? := by simp [List.getElem?_drop]
  have h1 : (s.drop i)[1]? = s[i + 1]? := by simp [List.getElem?_drop]
  have h2 : (s.drop i)[2]? = s[i + 2]? := by simp [List.getElem?_drop]
  have h3 : (s.drop i)[3]? = s[i + 2 + 1]? := by simp [List.getElem?_drop]
  rw [← h0, ← h1, ← h2, ← h3]
  generalize s.drop i = l
  match l with
  | [] => simp
  | [a] => simp [List.prefix_iff_eq_append]
  | [a, b] => simp [List.prefix_iff_eq_append]
  | [a, b, c] => simp [List.prefix_iff_eq_append]
  | a :: b :: c :: d :: t =>
    simp [List.cons_prefix_cons]
    constructor
    · rintro ⟨h1, h2, h3, h4⟩; exact ⟨⟨h1.symm, h2.symm⟩, h3.symm, h4.symm⟩
    · rintro ⟨⟨h1, h2⟩, h3, h4⟩; exact ⟨h1.symm, h2.symm, h3.symm, h4.symm⟩

theorem CR_ne_LF : CR ≠ LF := by decide

theorem SameCursors.refl (s : DownloadStatus) : SameCursors s s := by
  simp [SameCursors]

theorem SameCursors.trans {s t u : DownloadStatus} (h1 : SameCursors s t)
    (h2 : SameCursors t u) : SameCursors s u := by
  unfold SameCursors at *
  obtain ⟨a1, a2, a3, a4, a5, a6, a7, a8, a9⟩ := h1
  obtain ⟨b1, b2, b3, b4, b5, b6, b7, b8, b9⟩ := h2
  exact ⟨b1.trans a1, b2.trans a2, b3.trans a3, b4.trans a4, b5.trans a5, b6.trans a6,
    b7.trans a7, b8.trans a8, b9.trans a9⟩

theorem parse_first_line_spec (component : List Char) (redirect : Bool) (status : DownloadStatus) :
    SameCursors status (parse_first_line component redirect status).2.2 ∧
    (parse_first_line component redirect status).2.2._header_is_complete
      = status._header_is_complete ∧
    (parse_first_line component redirect status).1 ≠ some (some EU_success) := by
  unfold parse_first_line
  split_ifs with h1
  · split
    · simp [SameCursors]
    · split_ifs with h2 h3
      · simp [SameCursors]
      · simp [SameCursors]
      · simp [SameCursors]; exact h2
  · simp [SameCursors]

theorem parse_field_line_ne_success (component : List Char) (redirect : Bool)
    (status : DownloadStatus) :
    parse_field_line component redirect status ≠ some (some EU_success) := by
  unfold parse_field_line
  simp only []
  repeat' split
  all_goals simp


theorem no_terminator_step (s : List Char) (p nl : Nat) (hstart : LineStart s p)
    (hinv : ∀ j, j + 2 < p → ¬ OccursAt CRLFCRLF s j)
    (hpnl : p < nl) (hocc : OccursAt CRLF s nl)
    (hmin : ∀ j, p ≤ j → j < nl → ¬ OccursAt CRLF s j) :
    ∀ j, j + 2 < nl + 2 → ¬ OccursAt CRLFCRLF s j := by
  intro j hj hjj
  rw [occursAt_CRLFCRLF_iff] at hjj
  obtain ⟨hj0, hj2⟩ := hjj
  by_cases h1 : j + 2 < p
  · exact hinv j h1 ((occursAt_CRLFCRLF_iff s j).mpr ⟨hj0, hj2⟩)
  · by_cases h2 : j + 2 < nl
    · exact hmin (j + 2) (by omega) h2 hj2
    · rw [occursAt_CRLF_iff] at hocc hj0 hj2
      by_cases h3 : j + 2 = nl + 1
      · have e : j + 2 = nl + 1 := h3
        rw [e] at hj2
        have := hocc.2.symm.trans hj2.1
        exact CR_ne_LF (Option.some.inj this).symm
      · have e : j + 2 = nl := by omega
        by_cases h4 : p ≤ j
        · exact hmin j h4 (by omega) ((occursAt_CRLF_iff s j).mpr hj0)
        · have hp : p = j + 1 := by omega
          rcases hstart with h0 | ⟨h5, h6⟩
          · omega
          · rw [occursAt_CRLF_iff] at h6
            have e2 : p - 2 + 1 = j := by omega
            rw [e2] at h6
            have := h6.2.symm.trans hj0.1
            exact CR_ne_LF (Option.some.inj this).symm

theorem occursAt_CRLF_bound (s : List Char) (i : Nat) (h : OccursAt CRLF s i) :
    i + 2 ≤ s.length := by
  rw [occursAt_CRLF_iff] at h
  have := h.2
  by_contra hc
  have : s[i + 1]? = none := List.getElem?_eq_none (by omega)
  rw [this] at h
  exact absurd h.2 (by simp)

theorem parse_header_loop_spec (bufstr : List Char) :
    ∀ (fuel p : Nat) (redirect : Bool) (status : DownloadStatus),
      status._header_is_complete = false →
      LineStart bufstr p →
      (∀ j, j + 2 < p → ¬ OccursAt CRLFCRLF bufstr j) →
      (SameCursors status (parse_header_loop bufstr fuel p redirect status).2 ∧
        (parse_header_loop bufstr fuel p redirect status).2._header_is_complete = false ∧
        (parse_header_loop bufstr fuel p redirect status).1 ≠ some EU_success) ∨
      ((parse_header_loop bufstr fuel p redirect status).1 = some EU_success ∧
        ∃ k s1, FirstOccurrence CRLFCRLF bufstr k ∧ k + 4 ≤ bufstr.length ∧
          SameCursors status s1 ∧ s1._header_is_complete = false ∧
          (parse_header_loop bufstr fuel p redirect status).2 = strip_header s1 (k + 2)) := by
  intro fuel
  induction fuel with
  | zero =>
    intro p redirect status hc _ _
    left
    simp [parse_header_loop, parse_header_end, hc, SameCursors.refl]
  | succ fuel ih =>
    intro p redirect status hc hstart hinv
    rw [parse_header_loop]
    split_ifs with hlen
    swap
    · left
      simp [parse_header_end, hc, SameCursors.refl]
    · cases hfind : find bufstr CRLF (some p) with
      | none =>
        left
        simp [hc, SameCursors.refl]
      | some nl =>
        obtain ⟨hpnl, hnllen, hocc, hmin⟩ := (find_some_iff CRLF bufstr p nl).mp hfind
        simp only []
        by_cases h0 : p = 0 ∧ nl = p
        · rw [if_pos h0]
          left
          simp [hc, SameCursors.refl]
        · rw [if_neg h0]
          cases hsub : substr bufstr (some p) (some (nl - p)) with
          | none =>
            left
            simp [hc, SameCursors.refl]
          | some component =>
            simp only []
            obtain ⟨hsame, hcomp, hne⟩ := parse_first_line_spec component redirect status
            rcases hfl : parse_first_line component redirect status with ⟨r1, redirect1, status1⟩
            rw [hfl] at hsame hcomp hne
            simp only [] at hsame hcomp hne
            cases r1 with
            | some r =>
              left
              simp only []
              refine ⟨hsame, by rw [hcomp, hc], ?_⟩
              intro h
              apply hne
              rw [h]
            | none =>
              simp only []
              have hfield := parse_field_line_ne_success component redirect1 status1
              cases hpf : parse_field_line component redirect1 status1 with
              | some r =>
                left
                simp only []
                refine ⟨hsame, by rw [hcomp, hc], ?_⟩
                intro h
                apply hfield
                rw [hpf, h]
              | none =>
                simp only []
                by_cases hnl : nl = p
                · rw [if_pos hnl]
                  by_cases hred : redirect1 = true
                  · rw [if_pos hred]
                    left
                    exact ⟨hsame, by rw [hcomp, hc], by simp⟩
                  rw [if_neg hred]
                  right
                  refine ⟨rfl, p - 2, status1, ?_, ?_, hsame, by rw [hcomp, hc], ?_⟩
                  · have hp2 : 2 ≤ p ∧ OccursAt CRLF bufstr (p - 2) := by
                      rcases hstart with h | h
                      · exact absurd ⟨h, hnl⟩ h0
                      · exact h
                    constructor
                    · rw [occursAt_CRLFCRLF_iff]
                      refine ⟨hp2.2, ?_⟩
                      have e : p - 2 + 2 = nl := by omega
                      rw [e]
                      exact hocc
                    · intro j hj
                      exact hinv j (by omega)
                  · have := occursAt_CRLF_bound bufstr nl hocc
                    have hp2 : 2 ≤ p := by
                      rcases hstart with h | h
                      · exact absurd ⟨h, hnl⟩ h0
                      · exact h.1
                    omega
                  · have hp2 : 2 ≤ p := by
                      rcases hstart with h | h
                      · exact absurd ⟨h, hnl⟩ h0
                      · exact h.1
                    have e : p - 2 + 2 = nl := by omega
                    rw [e]
                · rw [if_neg hnl]
                  have hlt : p < nl := by omega
                  have hstart' : LineStart bufstr (nl + 2) := by
                    right
                    exact ⟨by omega, by simpa using hocc⟩
                  have hinv' := no_terminator_step bufstr p nl hstart hinv hlt hocc hmin
                  rcases ih (nl + 2) redirect1 status1 (by rw [hcomp, hc]) hstart' hinv' with
                    ⟨a1, a2, a3⟩ | ⟨b1, k, s1, b2, b3, b4, b5, b6⟩
                  · left
                    exact ⟨hsame.trans a1, a2, a3⟩
                  · right
                    exact ⟨b1, k, s1, b2, b3, hsame.trans b4, b5, b6⟩

/-- The fuel of `parse_header_loop` is never used up: once `fuel + p` reaches the length of
the buffer, more fuel changes nothing. In particular the `bufstr.length` iterations granted
by `parse_header` always suffice. -/
theorem parse_header_loop_fuel (bufstr : List Char) :
    ∀ (fuel p : Nat) (redirect : Bool) (status : DownloadStatus),
      bufstr.length ≤ fuel + p →
      parse_header_loop bufstr (fuel + 1) p redirect status
        = parse_header_loop bufstr fuel p redirect status := by
  intro fuel
  induction fuel with
  | zero =>
    intro p redirect status h
    rw [parse_header_loop, parse_header_loop, if_pos (by omega)]
  | succ fuel ih =>
    intro p redirect status h
    rw [parse_header_loop]
    conv_rhs => rw [parse_header_loop]
    by_cases hlen : p < bufstr.length
    swap
    · rw [if_pos hlen, if_pos hlen]
    rw [if_neg (not_not.mpr hlen), if_neg (not_not.mpr hlen)]
    cases hfind : find bufstr CRLF (some p) with
    | none => rfl
    | some nl =>
      have hpnl := ((find_some_iff CRLF bufstr p nl).mp hfind).1
      simp only []
      by_cases h0 : p = 0 ∧ nl = p
      · rw [if_pos h0, if_pos h0]
      rw [if_neg h0, if_neg h0]
      cases substr bufstr (some p) (some (nl - p)) with
      | none => rfl
      | some component =>
        simp only []
        rcases parse_first_line component redirect status with ⟨r1, redirect1, status1⟩
        cases r1 with
        | some r => rfl
        | none =>
          simp only []
          cases parse_field_line component redirect1 status1 with
          | some r => rfl
          | none =>
            simp only []
            by_cases hnl : nl = p
            · rw [if_pos hnl, if_pos hnl]
            · rw [if_neg hnl, if_neg hnl]
              exact ih _ _ _ (by omega)

/-! ## The cursor invariant (C1) and the header excision (C7) -/

theorem read_mem_length (m : Mem) (a n : Nat) : (read_mem m a n).length = n := by
  simp [read_mem]

theorem read_mem_getElem? (m : Mem) (a n i : Nat) (h : i < n) :
    (read_mem m a n)[i]? = some (m (a + i)) := by
  simp [read_mem, List.getElem?_map, List.getElem?_range h]

theorem read_mem_drop (m : Mem) (a n i : Nat) :
    (read_mem m a n).drop i = read_mem m (a + i) (n - i) := by
  apply List.ext_getElem?
  intro j
  by_cases hj : j < n - i
  · rw [read_mem_getElem? m (a + i) (n - i) j hj, List.getElem?_drop,
      read_mem_getElem? m a n (i + j) (by omega), Nat.add_assoc]
  · rw [List.getElem?_eq_none (by simp [read_mem_length]; omega),
      List.getElem?_eq_none (by simp [read_mem_length]; omega)]

theorem read_mem_zero (m : Mem) (a : Nat) : read_mem m a 0 = [] := by
  simp [read_mem]

theorem parse_header_spec (m : Mem) (status : DownloadStatus)
    (hc : status._header_is_complete = false) :
    (SameCursors status (parse_header m status).2 ∧
      (parse_header m status).2._header_is_complete = false ∧
      (parse_header m status).1 ≠ some EU_success) ∨
    ((parse_header m status).1 = some EU_success ∧
      ∃ k s1, FirstOccurrence CRLFCRLF (read_mem m status._start status._bytes_in_buffer) k ∧
        k + 4 ≤ status._bytes_in_buffer ∧
        SameCursors status s1 ∧ s1._header_is_complete = false ∧
        (parse_header m status).2 = strip_header s1 (k + 2)) := by
  unfold parse_header
  rw [if_neg (by simp [hc])]
  split_ifs with h0
  · left
    simp [hc, SameCursors.refl]
  · simp only []
    have := parse_header_loop_spec (read_mem m status._start status._bytes_in_buffer)
      (read_mem m status._start status._bytes_in_buffer).length 0 false status hc
      (Or.inl rfl) (fun j hj => absurd hj (by omega))
    rw [read_mem_length] at this
    rw [read_mem_length]
    exact this

theorem parse_header_complete (m : Mem) (status : DownloadStatus)
    (hc : status._header_is_complete = true) :
    parse_header m status = (some EU_success, status) := by
  simp [parse_header, hc]

theorem cursorInv_of_sameCursors {s t : DownloadStatus} (h : SameCursors s t)
    (hs : CursorInv s) : CursorInv t := by
  unfold CursorInv SameCursors at *
  obtain ⟨_, a2, a3, a4, _⟩ := h
  rw [a2, a3, a4]; exact hs

theorem cursorInv_strip_header {s : DownloadStatus} (k : Nat) (hs : CursorInv s)
    (hk : k + 2 ≤ s._bytes_in_buffer) : CursorInv (strip_header s k) := by
  unfold CursorInv strip_header at *
  simp only []
  omega

theorem cursorInv_reset (s : DownloadStatus) : CursorInv s.reset := by
  simp [CursorInv, DownloadStatus.reset]

theorem cursorInv_parse_header (m : Mem) (s : DownloadStatus) (hs : CursorInv s) :
    CursorInv (parse_header m s).2 := by
  cases hc : s._header_is_complete with
  | true => rw [parse_header_complete m s hc]; exact hs
  | false =>
    rcases parse_header_spec m s hc with ⟨h1, _, _⟩ | ⟨_, k, s1, _, hk, h3, _, h5⟩
    · exact cursorInv_of_sameCursors h1 hs
    · rw [h5]
      apply cursorInv_strip_header _ (cursorInv_of_sameCursors h3 hs)
      have := h3.2.2.2.1
      omega

theorem write_to_ram_eq_write_to_disk : write_to_ram = write_to_disk := rfl

theorem cursorInv_write_to_disk (m : Mem) (s : DownloadStatus) (dest : List Char)
    (hs : CursorInv s) : CursorInv (write_to_disk m s dest).2.1 := by
  have h := cursorInv_parse_header m s hs
  unfold write_to_disk
  rcases hp : parse_header m s with ⟨r, s1⟩
  rw [hp] at h
  cases r with
  | none => exact h
  | some c =>
    simp only []
    split_ifs
    · exact h
    · exact h
    · exact cursorInv_reset _
    · exact cursorInv_reset _

theorem cursorInv_fast_receive (m : Mem) (inbound : List Char) (s : DownloadStatus)
    (rec_size : Nat) (ev : SockEvent) (hs : CursorInv s) :
    CursorInv (fast_receive m inbound s rec_size ev).2.1 := by
  unfold fast_receive
  split_ifs
  · exact hs
  · cases ev with
    | no_data => exact hs
    | select_error k => exact hs
    | recv_error k => exact hs
    | ready avail =>
      simp only []
      split_ifs
      · exact hs
      · unfold CursorInv at *
        simp only []
        push_cast
        omega

theorem cursorInv_receive (r : RecvState) (rec_size : Nat) (h : CursorInv r.status) :
    CursorInv (r.receive rec_size).status := by
  unfold RecvState.receive
  have := cursorInv_fast_receive r.memory r.inbound r.status rec_size
    (r.recvs.headD SockEvent.no_data) h
  rcases hf : fast_receive r.memory r.inbound r.status rec_size
    (r.recvs.headD SockEvent.no_data) with ⟨a, b, c, e⟩
  rw [hf] at this
  exact this

theorem cursorInv_receive_loop (repeat_ remain : Nat) :
    ∀ (k i : Nat) (r : RecvState), CursorInv r.status →
      CursorInv (receive_loop repeat_ remain k i r).status := by
  intro k
  induction k with
  | zero => intro i r h; exact h
  | succ k ih =>
    intro i r h
    rw [receive_loop]
    have h1 : CursorInv (if i < repeat_ then r.receive MAX_RECEIVE_BYTES
        else if remain > 0 then r.receive remain else r).status := by
      split_ifs
      · exact cursorInv_receive r _ h
      · exact cursorInv_receive r _ h
      · exact h
    generalize (if i < repeat_ then r.receive MAX_RECEIVE_BYTES
        else if remain > 0 then r.receive remain else r) = r1 at h1 ⊢
    split_ifs
    · exact h1
    · exact ih _ _ h1
    · exact ih _ _ h1

theorem cursorInv_receive_step (receive_size : Nat) (r : RecvState) (h : CursorInv r.status) :
    CursorInv (receive_step receive_size r).status := by
  unfold receive_step
  split_ifs
  · exact cursorInv_receive_loop _ _ _ _ r h
  · exact cursorInv_receive r _ h

theorem engineCursorInv_cleanup (d : Engine) (h : EngineCursorInv d) :
    EngineCursorInv (cleanup d) := by
  unfold cleanup
  split_ifs
  · exact h
  · cases hs : d._current_status with
    | none => simpa [hs] using h
    | some s =>
      intro s' hs'
      simp [disconnect_from_server] at hs'

theorem cursorInv_write_to_disk_stream (d : Engine) (s : DownloadStatus) (hs : CursorInv s) :
    CursorInv (write_to_disk_stream d s).2.1 ∧
    (write_to_disk_stream d s).2.2._current_status = some (write_to_disk_stream d s).2.1 := by
  unfold write_to_disk_stream
  have := cursorInv_write_to_disk d.memory s d._dest_stream hs
  rcases hw : write_to_disk d.memory s d._dest_stream with ⟨a, b, c⟩
  rw [hw] at this
  exact ⟨this, rfl⟩

theorem cursorInv_write_to_ram_stream (d : Engine) (s : DownloadStatus) (hs : CursorInv s)
    (hd : d._current_status = some s) :
    CursorInv (write_to_ram_stream d s).2.1 ∧
    (write_to_ram_stream d s).2.2._current_status = some (write_to_ram_stream d s).2.1 := by
  unfold write_to_ram_stream
  cases hds : d._dest_string_stream with
  | none => exact ⟨hs, hd⟩
  | some dest =>
    simp only []
    have := cursorInv_write_to_disk d.memory s dest hs
    rw [write_to_ram_eq_write_to_disk]
    rcases hw : write_to_disk d.memory s dest with ⟨a, b, c⟩
    rw [hw] at this
    exact ⟨this, trivial⟩

theorem cursorInv_recompute_buffer (d : Engine) (s : DownloadStatus) (t0 : Int) (nb : Nat) :
    (recompute_buffer d s t0 nb).1._current_status = some (recompute_buffer d s t0 nb).2 ∧
    CursorInv (recompute_buffer d s t0 nb).2 := by
  simp [recompute_buffer, CursorInv, DownloadStatus.reset]

theorem engineCursorInv_of_eq {d : Engine} {s : DownloadStatus}
    (h : d._current_status = some s) (hs : CursorInv s) : EngineCursorInv d := by
  intro s' hs'
  rw [h] at hs'
  cases hs'
  exact hs

theorem preparedCursorInv_run_prepare (d : Engine) (s : DownloadStatus) (env : TickEnv)
    (hd : d._current_status = some s) (hs : CursorInv s) :
    PreparedCursorInv (run_prepare d s env) := by
  have hw := cursorInv_write_to_disk_stream d s hs
  unfold run_prepare
  rcases hws : write_to_disk_stream d s with ⟨r, s1, d1⟩
  rw [hws] at hw
  simp only [] at hw
  split_ifs
  · cases r with
    | none => exact engineCursorInv_of_eq hw.2 hw.1
    | some c =>
      simp only []
      split_ifs
      · exact engineCursorInv_of_eq hw.2 hw.1
      · exact cursorInv_recompute_buffer d1 s1 env.t0 env.new_buffer
  · exact cursorInv_recompute_buffer d s env.t0 env.new_buffer
  · cases r with
    | none => exact engineCursorInv_of_eq hw.2 hw.1
    | some c =>
      simp only []
      split_ifs
      · exact engineCursorInv_of_eq hw.2 hw.1
      · exact hw.symm
  · exact ⟨hd, hs⟩

theorem preparedCursorInv_run_to_ram_prepare (d : Engine) (s : DownloadStatus) (env : TickEnv)
    (hd : d._current_status = some s) (hs : CursorInv s) :
    PreparedCursorInv (run_to_ram_prepare d s env) := by
  have hw := cursorInv_write_to_ram_stream d s hs hd
  unfold run_to_ram_prepare
  rcases hws : write_to_ram_stream d s with ⟨r, s1, d1⟩
  rw [hws] at hw
  simp only [] at hw
  split_ifs
  · cases r with
    | none => exact engineCursorInv_of_eq hw.2 hw.1
    | some c =>
      simp only []
      split_ifs
      · exact engineCursorInv_of_eq hw.2 hw.1
      · exact cursorInv_recompute_buffer d1 s1 env.t0 env.new_buffer
  · exact cursorInv_recompute_buffer d s env.t0 env.new_buffer
  · cases r with
    | none => exact engineCursorInv_of_eq hw.2 hw.1
    | some c =>
      simp only []
      split_ifs
      · exact engineCursorInv_of_eq hw.2 hw.1
      · exact hw.symm
  · exact ⟨hd, hs⟩

theorem engineCursorInv_run_receive (ret : ErrorUtilCode) (d : Engine) (s : DownloadStatus)
    (env : TickEnv) (hs : CursorInv s) :
    EngineCursorInv (run_receive ret d s env).2 := by
  unfold run_receive
  have hr := cursorInv_receive_step d._receive_size (before_receive d s env) hs
  generalize receive_step d._receive_size (before_receive d s env) = r at hr
  have hd1 : (after_receive d r)._current_status = some r.status := rfl
  have hw := cursorInv_write_to_disk_stream (after_receive d r) r.status hr
  simp only []
  rcases hws : write_to_disk_stream (after_receive d r) r.status with ⟨c, s1, d1⟩
  rw [hws] at hw
  simp only [] at hw
  split_ifs
  · cases c with
    | none => exact engineCursorInv_of_eq hw.2 hw.1
    | some c =>
      simp only []
      split_ifs
      · exact engineCursorInv_of_eq hw.2 hw.1
      · exact engineCursorInv_cleanup _ (engineCursorInv_of_eq hw.2 hw.1)
  · exact engineCursorInv_cleanup _ (engineCursorInv_of_eq hd1 hr)
  · exact engineCursorInv_of_eq hd1 hr
  · exact engineCursorInv_of_eq hd1 hr
  · exact engineCursorInv_of_eq hd1 hr
  · exact engineCursorInv_of_eq (s := r.status) rfl hr

theorem engineCursorInv_run_to_ram_receive (ret : ErrorUtilCode) (d : Engine)
    (s : DownloadStatus) (env : TickEnv) (hs : CursorInv s) :
    EngineCursorInv (run_to_ram_receive ret d s env).2 := by
  unfold run_to_ram_receive
  have hr := cursorInv_receive_step d._receive_size (before_receive d s env) hs
  generalize receive_step d._receive_size (before_receive d s env) = r at hr
  have hd1 : (after_receive d r)._current_status = some r.status := rfl
  have hw := cursorInv_write_to_ram_stream (after_receive d r) r.status hr hd1
  simp only []
  rcases hws : write_to_ram_stream (after_receive d r) r.status with ⟨c, s1, d1⟩
  rw [hws] at hw
  simp only [] at hw
  split_ifs
  · cases c with
    | none => exact engineCursorInv_of_eq hw.2 hw.1
    | some c =>
      simp only []
      split_ifs
      · exact engineCursorInv_of_eq hw.2 hw.1
      · exact engineCursorInv_cleanup _ (engineCursorInv_of_eq hw.2 hw.1)
  · exact engineCursorInv_cleanup _ (engineCursorInv_of_eq hd1 hr)
  · exact engineCursorInv_of_eq hd1 hr
  · exact engineCursorInv_of_eq hd1 hr
  · exact engineCursorInv_of_eq hd1 hr
  · exact engineCursorInv_of_eq (s := r.status) rfl hr

theorem engineCursorInv_run_to_disk (d : Engine) (s : DownloadStatus) (env : TickEnv)
    (hd : d._current_status = some s) (hs : CursorInv s) :
    EngineCursorInv (run_to_disk d s env).2 := by
  unfold run_to_disk
  have hinv : EngineCursorInv d := engineCursorInv_of_eq hd hs
  simp only []
  split_ifs with h1 h2 h2
  · exact engineCursorInv_of_eq (s := s) hd hs
  · have := preparedCursorInv_run_prepare
      { { d with _tfirst := env.t0 } with _tlast := env.t1 } s env hd hs
    cases hp : run_prepare { { d with _tfirst := env.t0 } with _tlast := env.t1 } s env with
    | returned c d3 => rw [hp] at this; exact this
    | go_on ret d3 s3 =>
      rw [hp] at this
      exact engineCursorInv_run_receive ret d3 s3 env this.2
  · exact hinv
  · have := preparedCursorInv_run_prepare { d with _tlast := env.t1 } s env hd hs
    cases hp : run_prepare { d with _tlast := env.t1 } s env with
    | returned c d3 => rw [hp] at this; exact this
    | go_on ret d3 s3 =>
      rw [hp] at this
      exact engineCursorInv_run_receive ret d3 s3 env this.2

theorem engineCursorInv_run_to_ram (d : Engine) (s : DownloadStatus) (env : TickEnv)
    (hd : d._current_status = some s) (hs : CursorInv s) :
    EngineCursorInv (run_to_ram d s env).2 := by
  unfold run_to_ram
  have hinv : EngineCursorInv d := engineCursorInv_of_eq hd hs
  simp only []
  split_ifs with h1 h2 h2
  · exact engineCursorInv_of_eq (s := s) hd hs
  · have := preparedCursorInv_run_to_ram_prepare
      { { d with _tfirst := env.t0 } with _tlast := env.t1 } s env hd hs
    cases hp : run_to_ram_prepare { { d with _tfirst := env.t0 } with _tlast := env.t1 } s env with
    | returned c d3 => rw [hp] at this; exact this
    | go_on ret d3 s3 =>
      rw [hp] at this
      exact engineCursorInv_run_to_ram_receive ret d3 s3 env this.2
  · exact hinv
  · have := preparedCursorInv_run_to_ram_prepare { d with _tlast := env.t1 } s env hd hs
    cases hp : run_to_ram_prepare { d with _tlast := env.t1 } s env with
    | returned c d3 => rw [hp] at this; exact this
    | go_on ret d3 s3 =>
      rw [hp] at this
      exact engineCursorInv_run_to_ram_receive ret d3 s3 env this.2

theorem connect_to_server_status (d : Engine) (ev : ConnectEvent) :
    (connect_to_server d ev).2._current_status = d._current_status := by
  unfold connect_to_server
  split_ifs
  · rfl
  · cases ev <;> rfl

theorem engineCursorInv_run (d : Engine) (env : TickEnv) (h : EngineCursorInv d) :
    EngineCursorInv (run d env).2 := by
  unfold run
  split_ifs
  · exact h
  · cases hs : d._current_status with
    | none => simpa using h
    | some s =>
      simp only []
      have hc := connect_to_server_status d env.connect
      rcases hcs : connect_to_server d env.connect with ⟨c, d1⟩
      rw [hcs, hs] at hc
      simp only [] at hc
      have hs1 : CursorInv s := h s hs
      split_ifs
      · exact engineCursorInv_of_eq hc hs1
      · exact engineCursorInv_run_to_ram d1 s env hc hs1
      · exact engineCursorInv_run_to_disk d1 s env hc hs1

theorem cursorInv_new (buffer : Nat) (first_byte last_byte total_bytes : Int)
    (partial_content : Bool) :
    CursorInv (DownloadStatus.new buffer first_byte last_byte total_bytes partial_content) := by
  simp [DownloadStatus.new, CursorInv, DownloadStatus.reset]

/-- C1. Cursor invariant: `write_cursor - start == bytes_buffered` holds right after
construction, and every operation that touches a Download Status (reset, `fast_receive`,
`parse_header`, `write_to_disk`, `write_to_ram`, a tick of `run_to_ram` and a tick of `run`)
keeps it: if it holds before the operation, it holds after it. -/
theorem cursor_invariant_preserved :
    (∀ buffer first_byte last_byte total_bytes partial_content,
      CursorInv (DownloadStatus.new buffer first_byte last_byte total_bytes partial_content)) ∧
    (∀ s : DownloadStatus, CursorInv s → CursorInv s.reset) ∧
    (∀ m inbound s rec_size ev, CursorInv s →
      CursorInv (fast_receive m inbound s rec_size ev).2.1) ∧
    (∀ m s, CursorInv s → CursorInv (parse_header m s).2) ∧
    (∀ m s dest, CursorInv s → CursorInv (write_to_disk m s dest).2.1) ∧
    (∀ m s dest, CursorInv s → CursorInv (write_to_ram m s dest).2.1) ∧
    (∀ d s env, d._current_status = some s → CursorInv s →
      ∀ s1, (run_to_ram d s env).2._current_status = some s1 → CursorInv s1) ∧
    (∀ d s env, d._current_status = some s → CursorInv s →
      ∀ s1, (run d env).2._current_status = some s1 → CursorInv s1) := by
  refine ⟨cursorInv_new, fun s _ => cursorInv_reset s, cursorInv_fast_receive,
    cursorInv_parse_header, cursorInv_write_to_disk, ?_, ?_, ?_⟩
  · intro m s dest hs
    rw [write_to_ram_eq_write_to_disk]
    exact cursorInv_write_to_disk m s dest hs
  · intro d s env hd hs
    exact engineCursorInv_run_to_ram d s env hd hs
  · intro d s env hd hs
    exact engineCursorInv_run d env (engineCursorInv_of_eq hd hs)

/-- C1 at a concrete input: a status holding a short response satisfies the invariant, and
still does after the header was parsed out of it. -/
theorem cursor_invariant_preserved_witness :
    CursorInv (status_holding 64 41 0 0 false) ∧
    CursorInv (parse_header (memory_with 64 short_response)
      (status_holding 64 41 0 0 false)).2 :=
  ⟨by decide,
   cursor_invariant_preserved.2.2.2.1 (memory_with 64 short_response)
     (status_holding 64 41 0 0 false) (by decide)⟩

/-- C7. Header excision: when `parse_header` returns success on a status whose header was
not complete yet, it has set `header_complete`, moved `start` forward by `h` and lowered
`bytes_buffered` by `h`, where `h` is the offset of the first `CRLF CRLF` among the buffered
bytes plus 4, and it has left `write_cursor` alone. -/
theorem header_excision (m : Mem) (s : DownloadStatus)
    (hc : s._header_is_complete = false)
    (hret : (parse_header m s).1 = some EU_success) :
    ∃ k, FirstOccurrence CRLFCRLF (read_mem m s._start s._bytes_in_buffer) k ∧
      (parse_header m s).2._header_is_complete = true ∧
      (parse_header m s).2._start = s._start + (k + 4) ∧
      (parse_header m s).2._bytes_in_buffer + (k + 4) = s._bytes_in_buffer ∧
      (parse_header m s).2._next_in = s._next_in := by
  rcases parse_header_spec m s hc with ⟨_, _, h3⟩ | ⟨_, k, s1, h2, hk, h4, _, h6⟩
  · exact absurd hret h3
  · refine ⟨k, h2, ?_⟩
    rw [h6]
    obtain ⟨_, a2, a3, a4, _⟩ := h4
    refine ⟨rfl, ?_, ?_, ?_⟩
    · show s1._start + (k + 2 + 2) = s._start + (k + 4)
      rw [a2]
    · show s1._bytes_in_buffer - (k + 2 + 2) + (k + 4) = s._bytes_in_buffer
      rw [a4]; omega
    · exact a3

/-- C7 at a concrete input: the header of the short response is 38 bytes long. -/
theorem header_excision_witness :
    (status_holding 64 41 0 0 false)._header_is_complete = false ∧
    (parse_header (memory_with 64 short_response) (status_holding 64 41 0 0 false)).1
      = some EU_success ∧
    ∃ k, FirstOccurrence CRLFCRLF (read_mem (memory_with 64 short_response)
        (status_holding 64 41 0 0 false)._start
        (status_holding 64 41 0 0 false)._bytes_in_buffer) k ∧
      (parse_header (memory_with 64 short_response)
        (status_holding 64 41 0 0 false)).2._header_is_complete = true ∧
      (parse_header (memory_with 64 short_response)
        (status_holding 64 41 0 0 false)).2._start
        = (status_holding 64 41 0 0 false)._start + (k + 4) ∧
      (parse_header (memory_with 64 short_response)
        (status_holding 64 41 0 0 false)).2._bytes_in_buffer + (k + 4)
        = (status_holding 64 41 0 0 false)._bytes_in_buffer ∧
      (parse_header (memory_with 64 short_response)
        (status_holding 64 41 0 0 false)).2._next_in
        = (status_holding 64 41 0 0 false)._next_in :=
  ⟨by decide, by decide,
   header_excision (memory_with 64 short_response) (status_holding 64 41 0 0 false)
     (by decide) (by decide)⟩

/-! ## The status line (C4) -/

theorem digit_not_space (c : Char) (h : c.isDigit = true) :
    isspace c = false ∧ c ≠ Char.ofNat 45 ∧ c ≠ Char.ofNat 43 ∧ c ≠ Char.ofNat 32 := by
  refine ⟨?_, ?_, ?_, ?_⟩
  · unfold isspace
    simp only [Bool.or_eq_false_iff, decide_eq_false_iff_not]
    refine ⟨⟨⟨⟨⟨?_, ?_⟩, ?_⟩, ?_⟩, ?_⟩, ?_⟩ <;>
    · rintro rfl
      exact absurd h (by decide)
  all_goals
    rintro rfl
    exact absurd h (by decide)

theorem http_prefix_eq :
    "HTTP/1.1 ".toList = ['H', 'T', 'T', 'P', '/', '1', '.', '1', Char.ofNat 32] := by
  decide

theorem to_int_of_fits (x : Int) (h : fits_int x) : to_int x = x := by
  unfold fits_int at h
  unfold to_int
  omega

theorem clamp_long_of_fits (x : Int) (h : fits_int x) : clamp_long x = x := by
  unfold fits_int at h
  unfold clamp_long
  rw [if_neg (by omega), if_neg (by omega)]

theorem atoi_of_fits (s : List Char) (h : fits_int (atoi_number s)) :
    atoi s = atoi_number s := by
  unfold atoi
  rw [clamp_long_of_fits _ h, to_int_of_fits _ h]

theorem digit_value_le (c : Char) (h : c.isDigit = true) : digit_value c ≤ 9 := by
  unfold digit_value
  have h2 : c.val ≤ 57 := by
    simp only [Char.isDigit, Bool.and_eq_true, decide_eq_true_eq] at h
    exact h.2
  have h3 : c.toNat ≤ 57 := by
    have := UInt32.le_def.mp h2
    simpa [Char.toNat] using this
  omega

theorem atoi_number_three_digits (d1 d2 d3 : Char) (rest : List Char)
    (h1 : d1.isDigit = true) (h2 : d2.isDigit = true) (h3 : d3.isDigit = true) :
    atoi_number (Char.ofNat 32 :: d1 :: d2 :: d3 :: Char.ofNat 32 :: rest)
      = ((100 * digit_value d1 + 10 * digit_value d2 + digit_value d3 : Nat) : Int) := by
  obtain ⟨a1, a2, a3, _⟩ := digit_not_space d1 h1
  have hsp : isspace (Char.ofNat 32) = true := by decide
  have hnd : (Char.ofNat 32).isDigit = false := by decide
  simp only [atoi_number, hsp, a1, if_true, atoi_signed, a2, a3, if_false, atoi_digits, h1, h2,
    h3, hnd, digit_value]
  simp only [Bool.false_eq_true, if_false]
  congr 1
  omega

theorem three_digits_fit (d1 d2 d3 : Char)
    (h1 : d1.isDigit = true) (h2 : d2.isDigit = true) (h3 : d3.isDigit = true) :
    fits_int ((100 * digit_value d1 + 10 * digit_value d2 + digit_value d3 : Nat) : Int) := by
  have b1 := digit_value_le d1 h1
  have b2 := digit_value_le d2 h2
  have b3 := digit_value_le d3 h3
  unfold fits_int
  omega

theorem atoi_three_digits (d1 d2 d3 : Char) (rest : List Char)
    (h1 : d1.isDigit = true) (h2 : d2.isDigit = true) (h3 : d3.isDigit = true) :
    atoi (Char.ofNat 32 :: d1 :: d2 :: d3 :: Char.ofNat 32 :: rest)
      = ((100 * digit_value d1 + 10 * digit_value d2 + digit_value d3 : Nat) : Int) := by
  have hn := atoi_number_three_digits d1 d2 d3 rest h1 h2 h3
  rw [atoi_of_fits _ (by rw [hn]; exact three_digits_fit d1 d2 d3 h1 h2 h3), hn]

theorem parse_http_response_status_line (d1 d2 d3 : Char) (reason : List Char)
    (h1 : d1.isDigit = true) (h2 : d2.isDigit = true) (h3 : d3.isDigit = true) :
    parse_http_response (status_line d1 d2 d3 reason)
      = some (status_table (100 * digit_value d1 + 10 * digit_value d2 + digit_value d3)) := by
  have hf1 : find (status_line d1 d2 d3 reason) [Char.ofNat 32] (some 0) = some 8 := by
    simp [status_line, http_prefix_eq, find, findAux, List.isPrefixOf]
  have hf2 : find (status_line d1 d2 d3 reason) [Char.ofNat 32] (some 8) = some 8 := by
    simp [status_line, http_prefix_eq, find, findAux, List.isPrefixOf]
  have hs1 : substr (status_line d1 d2 d3 reason) (some 0) (some 8)
      = some ['H', 'T', 'T', 'P', '/', '1', '.', '1'] := by
    simp [status_line, http_prefix_eq, substr]
  have hs2 : substr (status_line d1 d2 d3 reason) (some 8) (some 8)
      = some (Char.ofNat 32 :: d1 :: d2 :: d3 :: Char.ofNat 32 :: reason.take 3) := by
    simp [status_line, http_prefix_eq, substr]
  unfold parse_http_response
  simp only [hf1, hs1, hf2, hs2]
  rw [atoi_three_digits d1 d2 d3 _ h1 h2 h3]
  generalize 100 * digit_value d1 + 10 * digit_value d2 + digit_value d3 = n
  unfold status_table
  simp only [List.length_cons, Nat.add_one_ne_zero, if_false]
  have e : ∀ k : Nat, ((n : Int) = (k : Int)) ↔ n = k := fun k => Int.ofNat_inj
  have e200 := e 200
  have e201 := e 201
  have e202 := e 202
  have e203 := e 203
  have e204 := e 204
  have e205 := e 205
  have e206 := e 206
  have e302 := e 302
  have e408 := e 408
  have e503 := e 503
  have e504 := e 504
  simp only [Nat.cast_ofNat] at e200 e201 e202 e203 e204 e205 e206 e302 e408 e503 e504
  simp only [e200, e201, e202, e203, e204, e205, e206, e302, e408, e503, e504]
  split_ifs <;> first | rfl | omega

/-- C4. Status-code mapping: on a status line `HTTP/1.1 <code> <reason>` with a three-digit
decimal code, `parse_http_response` returns the outcome of the status table: success for
200, 206 and 202, redirect-pending for 302, the server-timeout error for 408, the
service-unavailable error for 503, the gateway-timeout error for 504 and the
unexpected-status error for 201, 203, 204, 205 and every other code. -/
theorem status_code_mapping (d1 d2 d3 : Char) (reason : List Char)
    (h1 : d1.isDigit = true) (h2 : d2.isDigit = true) (h3 : d3.isDigit = true) :
    parse_http_response (status_line d1 d2 d3 reason)
      = some (status_table (100 * digit_value d1 + 10 * digit_value d2 + digit_value d3)) :=
  parse_http_response_status_line d1 d2 d3 reason h1 h2 h3

/-- C4 at concrete inputs: `HTTP/1.1 503 Service Unavailable` gives the service-unavailable
error. -/
theorem status_code_mapping_witness :
    ('5').isDigit = true ∧ ('0').isDigit = true ∧ ('3').isDigit = true ∧
    parse_http_response (status_line '5' '0' '3' "Service Unavailable".toList)
      = some EU_error_http_service_unavailable :=
  ⟨by decide, by decide, by decide,
   status_code_mapping '5' '0' '3' "Service Unavailable".toList
     (by decide) (by decide) (by decide)⟩

/-! ## The flush contract (C8) -/

theorem write_to_disk_complete (m : Mem) (s : DownloadStatus) (dest : List Char)
    (hc : s._header_is_complete = true) :
    write_to_disk m s dest =
      (some EU_success,
       DownloadStatus.reset
         { s with _total_bytes_written := s._total_bytes_written + s._bytes_in_buffer },
       dest ++ read_mem m s._start s._bytes_in_buffer) := by
  unfold write_to_disk
  rw [parse_header_complete m s hc]
  simp only [hc, Bool.true_eq_false, if_false, ErrorUtilCode.neg]
  by_cases hn : s._bytes_in_buffer > 0
  · simp [hn]
  · have h0 : s._bytes_in_buffer = 0 := by omega
    simp [h0, read_mem_zero, DownloadStatus.reset, hc]

/-- C8. Flush contract: on a status with `header_complete` true, `write_to_disk` and
`write_to_ram` return success, append to the destination exactly the `bytes_buffered` bytes
from `start` on (nothing when there are none), raise `total_bytes_written` by that number,
and leave `start = write_cursor = buffer base` and `bytes_buffered = 0`. -/
theorem flush_contract (m : Mem) (s : DownloadStatus) (dest : List Char)
    (hc : s._header_is_complete = true) :
    ((write_to_disk m s dest).1 = some EU_success ∧
      (write_to_disk m s dest).2.2 = dest ++ read_mem m s._start s._bytes_in_buffer ∧
      (s._bytes_in_buffer = 0 → (write_to_disk m s dest).2.2 = dest) ∧
      (write_to_disk m s dest).2.1._total_bytes_written
        = s._total_bytes_written + s._bytes_in_buffer ∧
      (write_to_disk m s dest).2.1._start = s._buffer ∧
      (write_to_disk m s dest).2.1._next_in = s._buffer ∧
      (write_to_disk m s dest).2.1._bytes_in_buffer = 0) ∧
    ((write_to_ram m s dest).1 = some EU_success ∧
      (write_to_ram m s dest).2.2 = dest ++ read_mem m s._start s._bytes_in_buffer ∧
      (s._bytes_in_buffer = 0 → (write_to_ram m s dest).2.2 = dest) ∧
      (write_to_ram m s dest).2.1._total_bytes_written
        = s._total_bytes_written + s._bytes_in_buffer ∧
      (write_to_ram m s dest).2.1._start = s._buffer ∧
      (write_to_ram m s dest).2.1._next_in = s._buffer ∧
      (write_to_ram m s dest).2.1._bytes_in_buffer = 0) := by
  rw [write_to_ram_eq_write_to_disk, write_to_disk_complete m s dest hc]
  have h0 : s._bytes_in_buffer = 0 → dest ++ read_mem m s._start s._bytes_in_buffer = dest := by
    intro h; rw [h, read_mem_zero, List.append_nil]
  exact ⟨⟨rfl, rfl, h0, rfl, rfl, rfl, rfl⟩, ⟨rfl, rfl, h0, rfl, rfl, rfl, rfl⟩⟩

/-- C8 at a concrete input: three buffered payload bytes are flushed. -/
theorem flush_contract_witness :
    ({ status_holding 64 3 0 0 false with _header_is_complete := true } : DownloadStatus)._header_is_complete
      = true ∧
    (write_to_disk (memory_with 64 "abc".toList)
      { status_holding 64 3 0 0 false with _header_is_complete := true } "xy".toList).2.2
      = "xyabc".toList :=
  ⟨rfl,
   (flush_contract (memory_with 64 "abc".toList)
     { status_holding 64 3 0 0 false with _header_is_complete := true } "xy".toList rfl).1.2.1⟩

/-! ## The payload round trip (C2) -/

theorem substr_zero (s : List Char) (c : Option Nat) :
    ∃ t, substr s (some 0) c = some t := by
  unfold substr
  cases c <;> simp

theorem parse_field_line_no_range (component : List Char) (status : DownloadStatus)
    (h : status._partial_content = false) :
    parse_field_line component false status = none := by
  unfold parse_field_line
  obtain ⟨t, ht⟩ := substr_zero component (find component [Char.ofNat 58] (some 0))
  simp [ht, h]

theorem parse_first_line_done (component : List Char) (redirect : Bool)
    (status : DownloadStatus) (h : status._first_line_complete = true) :
    parse_first_line component redirect status = (none, redirect, status) := by
  simp [parse_first_line, h]

theorem parse_header_loop_no_range (bufstr : List Char) (k : Nat)
    (hk : FirstOccurrence CRLFCRLF bufstr k) :
    ∀ (fuel p : Nat) (status : DownloadStatus),
      status._partial_content = false → status._first_line_complete = true →
      2 ≤ p → OccursAt CRLF bufstr (p - 2) → p ≤ k + 2 → k + 3 ≤ fuel + p →
      parse_header_loop bufstr fuel p false status
        = (some EU_success, strip_header status (k + 2)) := by
  have hkk := (occursAt_CRLFCRLF_iff bufstr k).mp hk.1
  have hlen := occursAt_CRLF_bound bufstr (k + 2) hkk.2
  intro fuel
  induction fuel with
  | zero => intro p status _ _ _ _ h1 h2; omega
  | succ fuel ih =>
    intro p status hnp hfl hp2 hocc hpk hfuel
    rw [parse_header_loop]
    rw [if_neg (by omega)]
    obtain ⟨nl, hfind, hnlk⟩ := find_exists_of_occurs CRLF bufstr p (k + 2) hpk (by omega) hkk.2
    obtain ⟨hpnl, _, hoccnl, hmin⟩ := (find_some_iff CRLF bufstr p nl).mp hfind
    simp only [hfind]
    rw [if_neg (by omega)]
    obtain ⟨component, hsub⟩ : ∃ c, substr bufstr (some p) (some (nl - p)) = some c := by
      unfold substr
      simp
      omega
    simp only [hsub, parse_first_line_done component false status hfl,
      parse_field_line_no_range component status hnp]
    by_cases hnl : nl = p
    · rw [if_pos hnl]
      simp only [Bool.false_eq_true, if_false]
      have hterm : OccursAt CRLFCRLF bufstr (p - 2) := by
        rw [occursAt_CRLFCRLF_iff]
        refine ⟨hocc, ?_⟩
        have e : p - 2 + 2 = nl := by omega
        rw [e]; exact hoccnl
      have hge : k ≤ p - 2 := by
        by_contra hc
        exact hk.2 (p - 2) (by omega) hterm
      have e : nl = k + 2 := by omega
      rw [e]
    · rw [if_neg hnl]
      have hnlk' : nl ≤ k := by
        by_contra hc
        have h1 := (occursAt_CRLF_iff bufstr nl).mp hoccnl
        have h2 := (occursAt_CRLF_iff bufstr k).mp hkk.1
        by_cases e1 : nl = k + 1
        · rw [e1] at h1
          have := h1.1.symm.trans h2.2
          exact CR_ne_LF (Option.some.inj this)
        · have e2 : nl = k + 2 := by omega
          by_cases h3 : p ≤ k
          · exact hmin k h3 (by omega) hkk.1
          · have e3 : p = k + 1 := by omega
            have h4 := (occursAt_CRLF_iff bufstr (p - 2)).mp hocc
            have e4 : p - 2 + 1 = k := by omega
            rw [e4] at h4
            have := h4.2.symm.trans h2.1
            exact CR_ne_LF (Option.some.inj this).symm
      exact ih (nl + 2) status hnp hfl (by omega) (by simpa using hoccnl) (by omega) (by omega)

theorem find_CRLF_append_line (ln tail : List Char) (hline : CR ∉ ln) :
    find (ln ++ CRLF ++ tail) CRLF (some 0) = some ln.length := by
  apply (find_some_iff CRLF _ 0 ln.length).mpr
  refine ⟨Nat.zero_le _, by simp, ?_, ?_⟩
  · unfold OccursAt
    simp [List.append_assoc]
  · intro j _ hj hocc
    rw [occursAt_CRLF_iff] at hocc
    have : (ln ++ CRLF ++ tail)[j]? = ln[j]? := by
      rw [List.append_assoc, List.getElem?_append_left hj]
    rw [this] at hocc
    have hmem : CR ∈ ln := by
      rw [List.mem_iff_getElem?]
      exact ⟨j, hocc.1⟩
    exact hline hmem

theorem parse_header_fresh_no_range (m : Mem) (s : DownloadStatus) (ln tail : List Char)
    (k : Nat) (hfl : s._first_line_complete = false) (hc : s._header_is_complete = false)
    (hnp : s._partial_content = false)
    (hbuf : read_mem m s._start s._bytes_in_buffer = ln ++ CRLF ++ tail)
    (hcr : CR ∉ ln) (hne : ln ≠ [])
    (hresp : parse_http_response ln = some EU_success)
    (hk : FirstOccurrence CRLFCRLF (ln ++ CRLF ++ tail) k) :
    parse_header m s =
      (some EU_success,
       strip_header { s with _first_line_complete := true, _header_is_valid := true }
         (k + 2)) := by
  have hlen : s._bytes_in_buffer = (ln ++ CRLF ++ tail).length := by
    rw [← hbuf, read_mem_length]
  have hpos : 0 < ln.length := List.length_pos.mpr hne
  have hkk := (occursAt_CRLFCRLF_iff _ k).mp hk.1
  have hklen := occursAt_CRLF_bound _ (k + 2) hkk.2
  have hfind := find_CRLF_append_line ln tail hcr
  obtain ⟨_, _, hocc, hmin⟩ := (find_some_iff CRLF _ 0 ln.length).mp hfind
  have hlk : ln.length ≤ k := by
    by_contra hcon
    exact hmin k (Nat.zero_le _) (by omega) hkk.1
  unfold parse_header
  rw [if_neg (by simp [hc]), if_neg (by rw [hlen]; simp [CRLF]), hbuf]
  simp only []
  have hl2 : (ln ++ CRLF ++ tail).length = (ln ++ CRLF ++ tail).length - 1 + 1 := by
    omega
  rw [hl2, parse_header_loop]
  rw [if_neg (by simp [CRLF])]
  simp only [hfind]
  rw [if_neg (by omega)]
  have hsub : substr (ln ++ CRLF ++ tail) (some 0) (some (ln.length - 0)) = some ln := by
    simp [substr, List.append_assoc]
  simp only [hsub]
  have hfirst : parse_first_line ln false s
      = (none, false, { s with _first_line_complete := true, _header_is_valid := true }) := by
    simp [parse_first_line, hfl, hresp]
  simp only [hfirst]
  have hpf := parse_field_line_no_range ln
    { s with _first_line_complete := true, _header_is_valid := true } hnp
  simp only [hpf]
  rw [if_neg (by omega)]
  exact parse_header_loop_no_range _ k hk _ _ _ hnp rfl (by omega) (by simpa using hocc)
    (by omega) (by omega)

theorem status_line_no_CR (d1 d2 d3 : Char) (reason : List Char)
    (h1 : d1.isDigit = true) (h2 : d2.isDigit = true) (h3 : d3.isDigit = true)
    (hr : CR ∉ reason) : CR ∉ status_line d1 d2 d3 reason := by
  have e1 : CR ≠ d1 := by rintro rfl; exact absurd h1 (by decide)
  have e2 : CR ≠ d2 := by rintro rfl; exact absurd h2 (by decide)
  have e3 : CR ≠ d3 := by rintro rfl; exact absurd h3 (by decide)
  simp only [status_line, http_prefix_eq, List.mem_append, List.mem_cons, not_or]
  refine ⟨⟨⟨by decide, by decide, by decide, by decide, by decide, by decide, by decide,
    by decide, by decide, by simp⟩, e1, e2, e3, by simp⟩, by decide, hr⟩

theorem write_to_disk_fresh_no_range (m : Mem) (s : DownloadStatus) (dest : List Char)
    (ln tail : List Char) (k : Nat) (hfl : s._first_line_complete = false)
    (hc : s._header_is_complete = false) (hnp : s._partial_content = false)
    (hbuf : read_mem m s._start s._bytes_in_buffer = ln ++ CRLF ++ tail)
    (hcr : CR ∉ ln) (hne : ln ≠ [])
    (hresp : parse_http_response ln = some EU_success)
    (hk : FirstOccurrence CRLFCRLF (ln ++ CRLF ++ tail) k) :
    write_to_disk m s dest =
      (some EU_success,
       DownloadStatus.reset
         { s with _first_line_complete := true, _header_is_valid := true,
                  _header_is_complete := true,
                  _total_bytes_written :=
                    s._total_bytes_written + ((s._bytes_in_buffer - (k + 4) : Nat) : Int) },
       dest ++ (ln ++ CRLF ++ tail).drop (k + 4)) := by
  unfold write_to_disk
  rw [parse_header_fresh_no_range m s ln tail k hfl hc hnp hbuf hcr hne hresp hk]
  simp only [strip_header, Bool.true_eq_false, if_false, ErrorUtilCode.neg]
  have hdrop : (ln ++ CRLF ++ tail).drop (k + 4)
      = read_mem m (s._start + (k + 4)) (s._bytes_in_buffer - (k + 4)) := by
    rw [← hbuf, read_mem_drop]
  rw [hdrop]
  by_cases hn : s._bytes_in_buffer - (k + 2 + 2) > 0
  · rw [if_pos hn]
    simp [DownloadStatus.reset]
  · rw [if_neg hn]
    have h0 : s._bytes_in_buffer - (k + 4) = 0 := by omega
    simp [DownloadStatus.reset, h0, read_mem_zero]

/-- C2. Payload round trip at the sink: for a fresh, non-partial status whose buffered bytes
are `H ++ P`, where `H` starts with a status line `HTTP/1.1 <code> <reason>` of code 200, 202
or 206 and ends with the first `CRLF CRLF` of the buffer, `write_to_disk` and `write_to_ram`
succeed and append to the destination exactly `P`. -/
theorem payload_round_trip (m : Mem) (s : DownloadStatus) (dest : List Char)
    (d1 d2 d3 : Char) (reason H P : List Char) (k : Nat)
    (hfl : s._first_line_complete = false) (hc : s._header_is_complete = false)
    (hnp : s._partial_content = false)
    (h1 : d1.isDigit = true) (h2 : d2.isDigit = true) (h3 : d3.isDigit = true)
    (hcode : 100 * digit_value d1 + 10 * digit_value d2 + digit_value d3 = 200 ∨
      100 * digit_value d1 + 10 * digit_value d2 + digit_value d3 = 202 ∨
      100 * digit_value d1 + 10 * digit_value d2 + digit_value d3 = 206)
    (hr : CR ∉ reason)
    (hline : status_line d1 d2 d3 reason ++ CRLF <+: H)
    (hbuf : read_mem m s._start s._bytes_in_buffer = H ++ P)
    (hk : FirstOccurrence CRLFCRLF (H ++ P) k) (hH : H.length = k + 4) :
    ((write_to_disk m s dest).1 = some EU_success ∧
      (write_to_disk m s dest).2.2 = dest ++ P) ∧
    ((write_to_ram m s dest).1 = some EU_success ∧
      (write_to_ram m s dest).2.2 = dest ++ P) := by
  obtain ⟨t0, ht0⟩ := hline
  have hHP : H ++ P = status_line d1 d2 d3 reason ++ CRLF ++ (t0 ++ P) := by
    rw [← ht0]; simp [List.append_assoc]
  have hresp : parse_http_response (status_line d1 d2 d3 reason) = some EU_success := by
    rw [parse_http_response_status_line d1 d2 d3 reason h1 h2 h3]
    rcases hcode with h | h | h <;> rw [h] <;> rfl
  have hne : status_line d1 d2 d3 reason ≠ [] := by
    simp [status_line, http_prefix_eq]
  have hw := write_to_disk_fresh_no_range m s dest (status_line d1 d2 d3 reason) (t0 ++ P) k
    hfl hc hnp (hbuf.trans hHP) (status_line_no_CR d1 d2 d3 reason h1 h2 h3 hr) hne hresp
    (hHP ▸ hk)
  have hdrop : (status_line d1 d2 d3 reason ++ CRLF ++ (t0 ++ P)).drop (k + 4) = P := by
    rw [← hHP, ← hH, List.drop_left]
  rw [hdrop] at hw
  rw [write_to_ram_eq_write_to_disk, hw]
  exact ⟨⟨rfl, rfl⟩, ⟨rfl, rfl⟩⟩

/-- C2 at a concrete input: the 38 header bytes of the short response are held back and its
three payload bytes reach the destination. -/
theorem payload_round_trip_witness :
    read_mem (memory_with 64 short_response) (status_holding 64 41 0 0 false)._start
      (status_holding 64 41 0 0 false)._bytes_in_buffer = short_header ++ "abc".toList ∧
    FirstOccurrence CRLFCRLF (short_header ++ "abc".toList) 34 ∧
    (write_to_disk (memory_with 64 short_response) (status_holding 64 41 0 0 false) []).1
      = some EU_success ∧
    (write_to_disk (memory_with 64 short_response) (status_holding 64 41 0 0 false) []).2.2
      = [] ++ "abc".toList :=
  ⟨by decide, by decide,
   (payload_round_trip (memory_with 64 short_response) (status_holding 64 41 0 0 false) []
     '2' '0' '0' "OK".toList short_header "abc".toList 34 rfl rfl rfl (by decide) (by decide)
     (by decide) (by decide) (by decide) (by decide) (by decide) (by decide) (by decide)).1⟩

/-! ## Range validation (C5) -/

theorem digitChar_isDigit (d : Nat) (h : d < 10) :
    (Nat.digitChar d).isDigit = true ∧ (Nat.digitChar d).toNat - 48 = d := by
  interval_cases d <;> decide

theorem toDigitsCore_head : ∀ (fuel n : Nat) (ds : List Char), n < fuel →
    ∃ d t, d < 10 ∧ Nat.toDigitsCore 10 fuel n ds = Nat.digitChar d :: t := by
  intro fuel
  induction fuel with
  | zero => intro n ds h; omega
  | succ fuel ih =>
    intro n ds hn
    rw [Nat.toDigitsCore]
    by_cases h0 : n / 10 = 0
    · simp only [h0, if_true]
      exact ⟨n % 10, ds, Nat.mod_lt _ (by decide), rfl⟩
    · simp only [h0, if_false]
      have : n / 10 < n := Nat.div_lt_self (by omega) (by decide)
      exact ih (n / 10) _ (by omega)

theorem atoi_digits_toDigitsCore : ∀ (fuel n : Nat), n < fuel →
    ∃ e, ∀ (acc : Nat) (ds : List Char),
      atoi_digits acc (Nat.toDigitsCore 10 fuel n ds) = atoi_digits (acc * 10 ^ e + n) ds := by
  intro fuel
  induction fuel with
  | zero => intro n h; omega
  | succ fuel ih =>
    intro n hn
    by_cases h0 : n / 10 = 0
    · refine ⟨1, ?_⟩
      intro acc ds
      rw [Nat.toDigitsCore]
      simp only [h0, if_true]
      have hlt : n < 10 := by omega
      have hd := digitChar_isDigit (n % 10) (Nat.mod_lt _ (by decide))
      rw [atoi_digits, if_pos hd.1, hd.2]
      congr 1
      omega
    · have hlt : n / 10 < n := Nat.div_lt_self (by omega) (by decide)
      obtain ⟨e, he⟩ := ih (n / 10) (by omega)
      refine ⟨e + 1, ?_⟩
      intro acc ds
      rw [Nat.toDigitsCore]
      simp only [h0, if_false]
      rw [he]
      have hd := digitChar_isDigit (n % 10) (Nat.mod_lt _ (by decide))
      rw [atoi_digits, if_pos hd.1, hd.2]
      congr 1
      rw [pow_succ]
      have := Nat.div_add_mod n 10
      nlinarith [this]

theorem atoi_number_decimal (n : Nat) : atoi_number (decimal n) = (n : Int) := by
  unfold decimal Nat.toDigits
  obtain ⟨d, t, hd, ht⟩ := toDigitsCore_head (n + 1) n [] (by omega)
  obtain ⟨e, he⟩ := atoi_digits_toDigitsCore (n + 1) n (by omega)
  have h := he 0 []
  rw [ht] at h ⊢
  have hdig := (digitChar_isDigit d hd).1
  obtain ⟨a1, a2, a3, _⟩ := digit_not_space _ hdig
  rw [atoi_number, a1]
  simp only [Bool.false_eq_true, if_false]
  rw [atoi_signed, if_neg a2, if_neg a3, h]
  simp [atoi_digits]

/-- On the decimal numeral of `n`, `atoi` gives the low 32 bits of `n` (of `LONG_MAX` when
`n` is beyond the range of `long`). -/
theorem atoi_decimal_int (n : Nat) : atoi (decimal n) = server_download_int n := by
  unfold atoi server_download_int
  rw [atoi_number_decimal]

theorem atoi_decimal (n : Nat) (h : (n : Int) ≤ 2147483647) : atoi (decimal n) = (n : Int) := by
  rw [atoi_of_fits _ (by rw [atoi_number_decimal]; unfold fits_int; omega), atoi_number_decimal]

theorem field_name_eq (l : List Char) :
    substr l (some 0) (find l [Char.ofNat 58] (some 0)) = some (field_name l) := by
  have key : ∀ l : List Char,
      (match findAux [Char.ofNat 58] l with
        | none => l
        | some i => l.take i) = field_name l := by
    intro l
    induction l with
    | nil => simp [findAux, field_name]
    | cons c cs ih =>
      unfold findAux
      by_cases hc : c = Char.ofNat 58
      · subst hc
        simp [field_name, List.isPrefixOf]
      · have hp : List.isPrefixOf [Char.ofNat 58] (c :: cs) = false := by
          simp [List.isPrefixOf]
          exact fun h => hc h.symm
        rw [hp]
        simp only [Bool.false_eq_true, if_false]
        have e : field_name (c :: cs) = c :: field_name cs := by
          simp [field_name, List.takeWhile, hc]
        rw [e, ← ih]
        cases findAux [Char.ofNat 58] cs <;> simp
  have hk := key l
  unfold find substr
  simp only [Nat.not_lt_zero, if_false, List.drop_zero, Nat.add_zero]
  cases hf : findAux [Char.ofNat 58] l with
  | none => rw [hf] at hk; simp [← hk]
  | some i => rw [hf] at hk; simp [← hk]

theorem find_CRLF_at_line (pre ln tail : List Char) (hcr : CR ∉ ln) :
    find (pre ++ ln ++ CRLF ++ tail) CRLF (some pre.length) = some (pre.length + ln.length) := by
  apply (find_some_iff CRLF _ pre.length (pre.length + ln.length)).mpr
  refine ⟨Nat.le_add_right _ _, by simp, ?_, ?_⟩
  · unfold OccursAt
    have : pre ++ ln ++ CRLF ++ tail = (pre ++ ln) ++ (CRLF ++ tail) := by
      simp [List.append_assoc]
    rw [this, ← List.length_append, List.drop_left]
    exact List.prefix_append _ _
  · intro j hj1 hj2 hocc
    rw [occursAt_CRLF_iff] at hocc
    have e : (pre ++ ln ++ CRLF ++ tail)[j]? = ln[j - pre.length]? := by
      have : pre ++ ln ++ CRLF ++ tail = pre ++ (ln ++ (CRLF ++ tail)) := by
        simp [List.append_assoc]
      rw [this, List.getElem?_append_right hj1, List.getElem?_append_left (by omega)]
    rw [e] at hocc
    exact hcr (List.mem_iff_getElem?.mpr ⟨_, hocc.1⟩)

theorem substr_line (pre ln tail : List Char) :
    substr (pre ++ ln ++ CRLF ++ tail) (some pre.length)
      (some (pre.length + ln.length - pre.length)) = some ln := by
  unfold substr
  have : pre ++ ln ++ CRLF ++ tail = pre ++ (ln ++ (CRLF ++ tail)) := by
    simp [List.append_assoc]
  rw [this]
  simp

theorem parse_header_loop_step (pre ln tail : List Char) (fuel : Nat)
    (redirect redirect1 : Bool) (status status1 : DownloadStatus)
    (hcr : CR ∉ ln) (hne : ln ≠ [])
    (hfirst : parse_first_line ln redirect status = (none, redirect1, status1))
    (hfield : parse_field_line ln redirect1 status1 = none) :
    parse_header_loop (pre ++ ln ++ CRLF ++ tail) (fuel + 1) pre.length redirect status
      = parse_header_loop (pre ++ ln ++ CRLF ++ tail) fuel (pre.length + ln.length + 2)
          redirect1 status1 := by
  have hpos : 0 < ln.length := List.length_pos.mpr hne
  rw [parse_header_loop]
  rw [if_neg (by simp [CRLF])]
  simp only [find_CRLF_at_line pre ln tail hcr]
  rw [if_neg (by omega)]
  simp only [substr_line, hfirst, hfield]
  rw [if_neg (by omega)]

theorem parse_header_loop_stop (pre ln tail : List Char) (fuel : Nat)
    (redirect redirect1 : Bool) (status status1 : DownloadStatus) (r : Option ErrorUtilCode)
    (hcr : CR ∉ ln) (hne : ln ≠ [])
    (hfirst : parse_first_line ln redirect status = (none, redirect1, status1))
    (hfield : parse_field_line ln redirect1 status1 = some r) :
    parse_header_loop (pre ++ ln ++ CRLF ++ tail) (fuel + 1) pre.length redirect status
      = (r, status1) := by
  have hpos : 0 < ln.length := List.length_pos.mpr hne
  rw [parse_header_loop]
  rw [if_neg (by simp [CRLF])]
  simp only [find_CRLF_at_line pre ln tail hcr]
  rw [if_neg (by omega)]
  simp only [substr_line, hfirst, hfield]

theorem parse_field_line_nil (redirect : Bool) (status : DownloadStatus) :
    parse_field_line [] redirect status = none := by
  have h1 : "Content-Length".toList ≠ [] := by decide
  have h2 : "Location".toList ≠ [] := by decide
  simp [parse_field_line, find, findAux, substr, h1.symm, h2.symm]

theorem parse_header_loop_blank (pre tail : List Char) (fuel : Nat) (status : DownloadStatus)
    (hpre : pre ≠ []) (hfl : status._first_line_complete = true) :
    parse_header_loop (pre ++ CRLF ++ tail) (fuel + 1) pre.length false status
      = (some EU_success, strip_header status pre.length) := by
  have hpos : 0 < pre.length := List.length_pos.mpr hpre
  have hfind := find_CRLF_at_line pre [] tail (by simp)
  have hsub := substr_line pre [] tail
  simp only [List.append_nil, List.length_nil, Nat.add_zero] at hfind hsub
  rw [parse_header_loop]
  rw [if_neg (by simp [CRLF])]
  simp only [hfind]
  rw [if_neg (by omega)]
  simp only [hsub, parse_first_line_done [] false status hfl, parse_field_line_nil]
  simp

theorem header_lines_length (ls : List (List Char)) :
    2 * ls.length ≤ (header_lines ls).length := by
  induction ls with
  | nil => simp [header_lines]
  | cons l ls ih => simp [header_lines, CRLF]; omega

theorem parse_header_loop_skip_lines (redirect : Bool) (status : DownloadStatus)
    (hfl : status._first_line_complete = true) :
    ∀ (ls : List (List Char)) (pre tail : List Char) (fuel : Nat),
      (∀ l ∈ ls, l ≠ [] ∧ CR ∉ l ∧ parse_field_line l redirect status = none) →
      parse_header_loop (pre ++ header_lines ls ++ tail) (fuel + ls.length) pre.length
          redirect status
        = parse_header_loop (pre ++ header_lines ls ++ tail) fuel
            (pre.length + (header_lines ls).length) redirect status := by
  intro ls
  induction ls with
  | nil => intro pre tail fuel _; simp [header_lines]
  | cons l ls ih =>
    intro pre tail fuel h
    obtain ⟨h1, h2, h3⟩ := h l (List.mem_cons_self _ _)
    have e1 : pre ++ header_lines (l :: ls) ++ tail
        = pre ++ l ++ CRLF ++ (header_lines ls ++ tail) := by
      simp [header_lines, List.append_assoc]
    have e2 : pre ++ l ++ CRLF ++ (header_lines ls ++ tail)
        = (pre ++ l ++ CRLF) ++ header_lines ls ++ tail := by
      simp [List.append_assoc]
    have e3 : fuel + (l :: ls).length = (fuel + ls.length) + 1 := by simp; omega
    rw [e1, e3, parse_header_loop_step pre l _ _ redirect redirect status status h2 h1
      (parse_first_line_done l redirect status hfl) h3, e2]
    have := ih (pre ++ l ++ CRLF) tail fuel (fun x hx => h x (List.mem_cons_of_mem _ hx))
    have e4 : (pre ++ l ++ CRLF).length = pre.length + l.length + 2 := by
      simp [CRLF]; omega
    rw [e4] at this
    rw [this]
    congr 1
    simp [header_lines, CRLF]
    omega

theorem content_length_prefix_eq :
    "Content-Length: ".toList
      = ['C', 'o', 'n', 't', 'e', 'n', 't', '-', 'L', 'e', 'n', 'g', 't', 'h', Char.ofNat 58,
         Char.ofNat 32] := by
  decide

theorem parse_field_line_content_length (n : Nat) (status : DownloadStatus)
    (hp : status._partial_content = true) :
    parse_field_line (content_length_line n) false status
      = if client_download_int status ≠ server_download_int n then some (some EU_error_abort)
        else none := by
  have hname : "Content-Length".toList
      = ['C', 'o', 'n', 't', 'e', 'n', 't', '-', 'L', 'e', 'n', 'g', 't', 'h'] := by decide
  have hfind : find (content_length_line n) [Char.ofNat 58] (some 0) = some 14 := by
    simp [content_length_line, content_length_prefix_eq, find, findAux, List.isPrefixOf]
  have hsub1 : substr (content_length_line n) (some 0) (some 14) = some "Content-Length".toList := by
    simp [content_length_line, content_length_prefix_eq, substr, hname]
  have hsub2 : substr (content_length_line n) (some 16) none = some (decimal n) := by
    simp [content_length_line, content_length_prefix_eq, substr]
  unfold parse_field_line
  simp only [hfind, hsub1, size_add2, hsub2, hp, atoi_decimal_int, client_download_int, and_self,
    if_true]

theorem parse_field_line_other (l : List Char) (status : DownloadStatus)
    (h : field_name l ≠ "Content-Length".toList) :
    parse_field_line l false status = none := by
  unfold parse_field_line
  simp only [field_name_eq]
  rw [if_neg (fun hh => h hh.2), if_neg (by simp)]

theorem parse_first_line_accept (ln : List Char) (s : DownloadStatus)
    (hresp : parse_http_response ln = some EU_success) :
    ∃ s1, parse_first_line ln false s = (none, false, s1) ∧
      s1._first_line_complete = true ∧ SameCursors s s1 ∧
      s1._header_is_complete = s._header_is_complete := by
  cases hfl : s._first_line_complete with
  | true =>
    exact ⟨s, parse_first_line_done ln false s hfl, hfl, SameCursors.refl s, rfl⟩
  | false =>
    refine ⟨{ s with _first_line_complete := true, _header_is_valid := true }, ?_, rfl, ?_, rfl⟩
    · simp [parse_first_line, hfl, hresp]
    · simp [SameCursors]

theorem field_name_status_line (d1 d2 d3 : Char) (reason : List Char) :
    field_name (status_line d1 d2 d3 reason) ≠ "Content-Length".toList := by
  have hname : "Content-Length".toList
      = ['C', 'o', 'n', 't', 'e', 'n', 't', '-', 'L', 'e', 'n', 'g', 't', 'h'] := by decide
  simp [field_name, status_line, http_prefix_eq, hname, List.takeWhile]

theorem toDigitsCore_isDigit : ∀ (fuel n : Nat) (ds : List Char),
    (∀ c ∈ ds, c.isDigit = true) → ∀ c ∈ Nat.toDigitsCore 10 fuel n ds, c.isDigit = true := by
  intro fuel
  induction fuel with
  | zero => intro n ds h; simpa [Nat.toDigitsCore] using h
  | succ fuel ih =>
    intro n ds h
    have hd := (digitChar_isDigit (n % 10) (Nat.mod_lt _ (by decide))).1
    have h' : ∀ c ∈ Nat.digitChar (n % 10) :: ds, c.isDigit = true := by
      intro c hc
      rcases List.mem_cons.mp hc with rfl | hc
      · exact hd
      · exact h c hc
    rw [Nat.toDigitsCore]
    by_cases h0 : n / 10 = 0
    · simp only [h0, if_true]; exact h'
    · simp only [h0, if_false]; exact ih _ _ h'

theorem content_length_line_no_CR (n : Nat) :
    CR ∉ content_length_line n ∧ content_length_line n ≠ [] := by
  constructor
  · intro hmem
    rw [content_length_line, List.mem_append] at hmem
    rcases hmem with h | h
    · exact absurd h (by decide)
    · have := toDigitsCore_isDigit (n + 1) n [] (by simp) CR h
      exact absurd this (by decide)
  · simp [content_length_line, content_length_prefix_eq]

theorem parse_header_range (m : Mem) (s : DownloadStatus) (d1 d2 d3 : Char)
    (reason : List Char) (pre post : List (List Char)) (n : Nat) (payload : List Char)
    (hc : s._header_is_complete = false) (hp : s._partial_content = true)
    (h1 : d1.isDigit = true) (h2 : d2.isDigit = true) (h3 : d3.isDigit = true)
    (hcode : 100 * digit_value d1 + 10 * digit_value d2 + digit_value d3 = 200 ∨
      100 * digit_value d1 + 10 * digit_value d2 + digit_value d3 = 202 ∨
      100 * digit_value d1 + 10 * digit_value d2 + digit_value d3 = 206)
    (hr : CR ∉ reason)
    (hpre : ∀ l ∈ pre, OtherHeaderLine l) (hpost : ∀ l ∈ post, OtherHeaderLine l)
    (hbuf : read_mem m s._start s._bytes_in_buffer
      = status_line d1 d2 d3 reason ++ CRLF ++ header_lines pre ++ content_length_line n
          ++ CRLF ++ header_lines post ++ CRLF ++ payload) :
    (client_download_int s = server_download_int n →
      (parse_header m s).1 = some EU_success ∧
      (parse_header m s).2._header_is_complete = true) ∧
    (client_download_int s ≠ server_download_int n →
      (parse_header m s).1 = some EU_error_abort ∧
      (parse_header m s).2._header_is_complete = false) := by
  have hresp : parse_http_response (status_line d1 d2 d3 reason) = some EU_success := by
    rw [parse_http_response_status_line d1 d2 d3 reason h1 h2 h3]
    rcases hcode with h | h | h <;> rw [h] <;> rfl
  have hneS : status_line d1 d2 d3 reason ≠ [] := by simp [status_line, http_prefix_eq]
  have hcrS := status_line_no_CR d1 d2 d3 reason h1 h2 h3 hr
  obtain ⟨s1, hfirst, hflc, hsame, hcomp⟩ :=
    parse_first_line_accept (status_line d1 d2 d3 reason) s hresp
  have hp1 : s1._partial_content = true := by rw [hsame.2.2.2.2.2.2.1, hp]
  have hcl1 : client_download_int s1 = client_download_int s := by
    unfold client_download_int
    rw [hsame.2.2.2.2.2.2.2.1, hsame.2.2.2.2.2.2.2.2]
  have hc1 : s1._header_is_complete = false := by rw [hcomp, hc]
  generalize hS : status_line d1 d2 d3 reason = S at *
  obtain ⟨B, hB⟩ : ∃ B, B = S ++ CRLF ++ header_lines pre ++ content_length_line n
      ++ CRLF ++ header_lines post ++ CRLF ++ payload := ⟨_, rfl⟩
  rw [← hB] at hbuf
  have hlen : s._bytes_in_buffer = B.length := by rw [← hbuf, read_mem_length]
  have hBlen : B.length = S.length + 2 + (header_lines pre).length
      + (content_length_line n).length + 2 + (header_lines post).length + 2
      + payload.length := by
    rw [hB]; simp [CRLF]; omega
  have hcrlf : CRLF.length = 2 := rfl
  have hlpre := header_lines_length pre
  have hlpost := header_lines_length post
  obtain ⟨F, hF⟩ : ∃ F, B.length = F + 1 + post.length + 1 + pre.length + 1 :=
    ⟨B.length - (post.length + pre.length + 3), by omega⟩
  -- the status line
  have st1 : parse_header_loop B (F + 1 + post.length + 1 + pre.length + 1) 0 false s
      = parse_header_loop B (F + 1 + post.length + 1 + pre.length) (0 + S.length + 2)
          false s1 := by
    have e : B = [] ++ S ++ CRLF
        ++ (header_lines pre ++ content_length_line n ++ CRLF ++ header_lines post ++ CRLF
          ++ payload) := by
      rw [hB]; simp [List.append_assoc]
    rw [e]
    exact parse_header_loop_step [] S _ _ false false s s1 hcrS hneS hfirst
      (parse_field_line_other S s1 (hS ▸ field_name_status_line d1 d2 d3 reason))
  -- the lines before Content-Length
  have st2 : parse_header_loop B (F + 1 + post.length + 1 + pre.length) (0 + S.length + 2)
        false s1
      = parse_header_loop B (F + 1 + post.length + 1)
          ((S ++ CRLF).length + (header_lines pre).length) false s1 := by
    have e : B = (S ++ CRLF) ++ header_lines pre
        ++ (content_length_line n ++ CRLF ++ header_lines post ++ CRLF ++ payload) := by
      rw [hB]; simp [List.append_assoc]
    have ep : 0 + S.length + 2 = (S ++ CRLF).length := by
      simp only [List.length_append]; omega
    rw [ep, e]
    exact parse_header_loop_skip_lines false s1 hflc pre (S ++ CRLF) _ _
      (fun l hl => ⟨(hpre l hl).1, (hpre l hl).2.1,
        parse_field_line_other l s1 (hpre l hl).2.2⟩)
  have hclline := parse_field_line_content_length n s1 hp1
  rw [hcl1] at hclline
  have eCL : B = (S ++ CRLF ++ header_lines pre) ++ content_length_line n ++ CRLF
      ++ (header_lines post ++ CRLF ++ payload) := by
    rw [hB]; simp [List.append_assoc]
  have epCL : (S ++ CRLF).length + (header_lines pre).length
      = (S ++ CRLF ++ header_lines pre).length := by
    simp only [List.length_append]
  unfold parse_header
  rw [if_neg (by simp [hc]), if_neg (by rw [hlen, hBlen]; omega), hbuf]
  simp only []
  rw [hF, st1, st2, epCL]
  constructor
  · intro hmatch
    rw [if_neg (by simpa using hmatch)] at hclline
    -- the Content-Length line agrees with the range
    have st3 : parse_header_loop B (F + 1 + post.length + 1)
          (S ++ CRLF ++ header_lines pre).length false s1
        = parse_header_loop B (F + 1 + post.length)
            ((S ++ CRLF ++ header_lines pre).length + (content_length_line n).length + 2)
            false s1 := by
      rw [eCL]
      exact parse_header_loop_step _ (content_length_line n) _ _ false false s1 s1
        (content_length_line_no_CR n).1 (content_length_line_no_CR n).2
        (parse_first_line_done _ false s1 hflc) hclline
    -- the lines after it
    have st4 : parse_header_loop B (F + 1 + post.length)
          ((S ++ CRLF ++ header_lines pre).length + (content_length_line n).length + 2)
          false s1
        = parse_header_loop B (F + 1)
            ((S ++ CRLF ++ header_lines pre ++ content_length_line n ++ CRLF).length
              + (header_lines post).length) false s1 := by
      have e : B = (S ++ CRLF ++ header_lines pre ++ content_length_line n ++ CRLF)
          ++ header_lines post ++ (CRLF ++ payload) := by
        rw [hB]; simp [List.append_assoc]
      have ep : (S ++ CRLF ++ header_lines pre).length + (content_length_line n).length + 2
          = (S ++ CRLF ++ header_lines pre ++ content_length_line n ++ CRLF).length := by
        simp only [List.length_append]; omega
      rw [ep, e]
      exact parse_header_loop_skip_lines false s1 hflc post _ _ _
        (fun l hl => ⟨(hpost l hl).1, (hpost l hl).2.1,
          parse_field_line_other l s1 (hpost l hl).2.2⟩)
    -- the blank line
    have st5 : parse_header_loop B (F + 1)
          ((S ++ CRLF ++ header_lines pre ++ content_length_line n ++ CRLF).length
            + (header_lines post).length) false s1
        = (some EU_success, strip_header s1
            (S ++ CRLF ++ header_lines pre ++ content_length_line n ++ CRLF
              ++ header_lines post).length) := by
      have e : B = (S ++ CRLF ++ header_lines pre ++ content_length_line n ++ CRLF
          ++ header_lines post) ++ CRLF ++ payload := by
        rw [hB]
      have ep : (S ++ CRLF ++ header_lines pre ++ content_length_line n ++ CRLF).length
            + (header_lines post).length
          = (S ++ CRLF ++ header_lines pre ++ content_length_line n ++ CRLF
              ++ header_lines post).length := by
        simp only [List.length_append]
      rw [ep, e]
      exact parse_header_loop_blank _ payload F s1 (by simp [CRLF]) hflc
    rw [st3, st4, st5]
    exact ⟨rfl, rfl⟩
  · intro hmis
    rw [if_pos hmis] at hclline
    have st3 : parse_header_loop B (F + 1 + post.length + 1)
          (S ++ CRLF ++ header_lines pre).length false s1
        = (some EU_error_abort, s1) := by
      rw [eCL]
      exact parse_header_loop_stop _ (content_length_line n) _ _ false false s1 s1 _
        (content_length_line_no_CR n).1 (content_length_line_no_CR n).2
        (parse_first_line_done _ false s1 hflc) hclline
    rw [st3]
    exact ⟨rfl, hc1⟩

theorem client_download_int_of_fits (s : DownloadStatus)
    (h1 : fits_int (s._last_byte - s._first_byte)) (h2 : fits_int (client_download_bytes s)) :
    client_download_int s = client_download_bytes s := by
  unfold client_download_int client_download_bytes at *
  by_cases h0 : s._first_byte = 0
  · rw [if_pos h0] at h2 ⊢
    rw [if_pos h0, to_int_of_fits _ h1, to_int_of_fits _ h2]
  · rw [if_neg h0, if_neg h0, to_int_of_fits _ h1]
    omega

theorem server_download_int_of_fits (n : Nat) (h : (n : Int) ≤ 2147483647) :
    server_download_int n = (n : Int) := by
  have hf : fits_int (n : Int) := by unfold fits_int; omega
  unfold server_download_int
  rw [clamp_long_of_fits _ hf, to_int_of_fits _ hf]

/-- For a partial-content status whose header is not complete yet and a complete header with
an accepted status line, a line `Content-Length: n` and otherwise only well-formed lines of
other names, `parse_header` succeeds if and only if the two `int` values it compares are
equal: `client_download_int`, the size of the range computed in `int`, and
`server_download_int n`, what `atoi` gives for the numeral of `n`. -/
theorem range_validation_machine (m : Mem) (s : DownloadStatus) (d1 d2 d3 : Char)
    (reason : List Char) (pre post : List (List Char)) (n : Nat) (payload : List Char)
    (hc : s._header_is_complete = false) (hp : s._partial_content = true)
    (h1 : d1.isDigit = true) (h2 : d2.isDigit = true) (h3 : d3.isDigit = true)
    (hcode : 100 * digit_value d1 + 10 * digit_value d2 + digit_value d3 = 200 ∨
      100 * digit_value d1 + 10 * digit_value d2 + digit_value d3 = 202 ∨
      100 * digit_value d1 + 10 * digit_value d2 + digit_value d3 = 206)
    (hr : CR ∉ reason)
    (hpre : ∀ l ∈ pre, OtherHeaderLine l) (hpost : ∀ l ∈ post, OtherHeaderLine l)
    (hbuf : read_mem m s._start s._bytes_in_buffer
      = status_line d1 d2 d3 reason ++ CRLF ++ header_lines pre ++ content_length_line n
          ++ CRLF ++ header_lines post ++ CRLF ++ payload) :
    ((parse_header m s).1 = some EU_success ↔ server_download_int n = client_download_int s) ∧
    (server_download_int n ≠ client_download_int s →
      (parse_header m s).1 = some EU_error_abort ∧
      (parse_header m s).2._header_is_complete = false) := by
  obtain ⟨hyes, hno⟩ := parse_header_range m s d1 d2 d3 reason pre post n payload hc hp
    h1 h2 h3 hcode hr hpre hpost hbuf
  refine ⟨⟨?_, fun h => (hyes h.symm).1⟩, fun h => hno (fun h' => h h'.symm)⟩
  intro hs
  by_contra hne
  have := (hno (fun h' => hne h'.symm)).1
  rw [hs] at this
  cases this

/-- Range validation for sizes that fit an `int`: for a partial-content status whose header
is not complete yet, with a range whose size fits an `int`, and a complete header with an
accepted status line, a line `Content-Length: n` with `n` at most `INT_MAX` and otherwise
only well-formed lines of other names, `parse_header` succeeds if and only if
`n == last_byte - first_byte + (1 if first_byte == 0 else 0)`; on a mismatch it returns the
error `EU_error_abort` (from the size comparison) and `header_complete` stays false. -/
theorem range_validation (m : Mem) (s : DownloadStatus) (d1 d2 d3 : Char)
    (reason : List Char) (pre post : List (List Char)) (n : Nat) (payload : List Char)
    (hc : s._header_is_complete = false) (hp : s._partial_content = true)
    (h1 : d1.isDigit = true) (h2 : d2.isDigit = true) (h3 : d3.isDigit = true)
    (hcode : 100 * digit_value d1 + 10 * digit_value d2 + digit_value d3 = 200 ∨
      100 * digit_value d1 + 10 * digit_value d2 + digit_value d3 = 202 ∨
      100 * digit_value d1 + 10 * digit_value d2 + digit_value d3 = 206)
    (hr : CR ∉ reason)
    (hpre : ∀ l ∈ pre, OtherHeaderLine l) (hpost : ∀ l ∈ post, OtherHeaderLine l)
    (hbuf : read_mem m s._start s._bytes_in_buffer
      = status_line d1 d2 d3 reason ++ CRLF ++ header_lines pre ++ content_length_line n
          ++ CRLF ++ header_lines post ++ CRLF ++ payload)
    (hn : (n : Int) ≤ 2147483647)
    (hfit1 : fits_int (s._last_byte - s._first_byte))
    (hfit2 : fits_int (s._last_byte - s._first_byte + (if s._first_byte = 0 then 1 else 0))) :
    ((parse_header m s).1 = some EU_success ↔
      (n : Int) = s._last_byte - s._first_byte + (if s._first_byte = 0 then 1 else 0)) ∧
    ((n : Int) ≠ s._last_byte - s._first_byte + (if s._first_byte = 0 then 1 else 0) →
      (parse_header m s).1 = some EU_error_abort ∧
      (parse_header m s).2._header_is_complete = false) := by
  have h := range_validation_machine m s d1 d2 d3 reason pre post n payload hc hp
    h1 h2 h3 hcode hr hpre hpost hbuf
  rw [server_download_int_of_fits n hn, client_download_int_of_fits s hfit1 hfit2] at h
  exact h

/-- The inputs of the specification: with `first_byte = 0` and `last_byte = 999`, a
`Content-Length: 1000` is accepted and a `Content-Length: 999` is rejected. -/
theorem range_validation_witness :
    (parse_header (memory_with 64 (range_response 1000))
      (status_holding 64 (range_response 1000).length 0 999 true)).1 = some EU_success ∧
    (parse_header (memory_with 64 (range_response 999))
      (status_holding 64 (range_response 999).length 0 999 true)).1 = some EU_error_abort :=
  ⟨(range_validation (memory_with 64 (range_response 1000))
      (status_holding 64 (range_response 1000).length 0 999 true) '2' '0' '6'
      "Partial Content".toList ["Server: panda".toList] ["Connection: close".toList] 1000
      "xyz".toList rfl rfl (by decide) (by decide) (by decide) (by decide) (by decide)
      (by decide) (by decide) (by decide) (by decide) (by decide) (by decide)).1.mpr (by decide),
   ((range_validation (memory_with 64 (range_response 999))
      (status_holding 64 (range_response 999).length 0 999 true) '2' '0' '6'
      "Partial Content".toList ["Server: panda".toList] ["Connection: close".toList] 999
      "xyz".toList rfl rfl (by decide) (by decide) (by decide) (by decide) (by decide)
      (by decide) (by decide) (by decide) (by decide) (by decide) (by decide)).2 (by decide)).1⟩

set_option maxRecDepth 1000000 in
/-- C5 (evaluation of the code). The range is `first_byte = 0`, `last_byte = 999`, so the
client expects 1000 bytes. The response carries `Content-Length: 4294968296`, which is
`2 ^ 32 + 1000`: `atoi` leaves 1000 in the `int` variable `server_download_bytes`, the
comparison finds the two sizes equal, and `parse_header` returns `EU_success` and completes
the header although the length is not that of the range. With `Content-Length: 1000` the
header is accepted and with `Content-Length: 999` it is rejected, as the specification
says. -/
theorem content_length_wraps_around :
    read_mem (memory_with 64 (range_response 4294968296)) 64
      (range_response 4294968296).length = range_response 4294968296 ∧
    (4294968296 : Int) ≠ 999 - 0 + 1 ∧
    atoi (decimal 4294968296) = 1000 ∧
    (parse_header (memory_with 64 (range_response 4294968296))
      (status_holding 64 (range_response 4294968296).length 0 999 true)).1
      = some EU_success ∧
    (parse_header (memory_with 64 (range_response 4294968296))
      (status_holding 64 (range_response 4294968296).length 0 999 true)).2._header_is_complete
      = true ∧
    (parse_header (memory_with 64 (range_response 1000))
      (status_holding 64 (range_response 1000).length 0 999 true)).1 = some EU_success ∧
    (parse_header (memory_with 64 (range_response 999))
      (status_holding 64 (range_response 999).length 0 999 true)).1
      = some EU_error_abort := by
  decide

/-! ## Redirects (C6) and flushes of an incomplete header (C9) -/

theorem parse_field_line_cases (component : List Char) (redirect : Bool)
    (status : DownloadStatus) :
    parse_field_line component redirect status = none ∨
    parse_field_line component redirect status = some none ∨
    parse_field_line component redirect status = some (some EU_error_abort) := by
  unfold parse_field_line
  simp only []
  repeat' split
  all_goals simp

theorem parse_header_loop_redirect (bufstr : List Char) :
    ∀ (fuel p : Nat) (status : DownloadStatus),
      status._header_is_complete = false → status._first_line_complete = true →
      ((parse_header_loop bufstr fuel p true status).1 = some EU_error_abort ∨
        (parse_header_loop bufstr fuel p true status).1 = none) ∧
      (parse_header_loop bufstr fuel p true status).2._header_is_complete = false := by
  intro fuel
  induction fuel with
  | zero =>
    intro p status hc _
    simp [parse_header_loop, parse_header_end, hc]
  | succ fuel ih =>
    intro p status hc hfl
    rw [parse_header_loop]
    by_cases hlen : p < bufstr.length
    swap
    · rw [if_pos hlen]
      simp [parse_header_end, hc]
    rw [if_neg (not_not.mpr hlen)]
    cases hfind : find bufstr CRLF (some p) with
    | none => simp [hc]
    | some nl =>
      simp only []
      by_cases h0 : p = 0 ∧ nl = p
      · rw [if_pos h0]; simp [hc]
      rw [if_neg h0]
      cases hsub : substr bufstr (some p) (some (nl - p)) with
      | none => simp [hc]
      | some component =>
        simp only [parse_first_line_done component true status hfl]
        rcases parse_field_line_cases component true status with h | h | h
        · simp only [h]
          by_cases hnl : nl = p
          · rw [if_pos hnl]; simp [hc]
          · rw [if_neg hnl]; exact ih _ _ hc hfl
        · simp only [h]; simp [hc]
        · simp only [h]; simp [hc]

theorem field_name_status_line_location (d1 d2 d3 : Char) (reason : List Char) :
    field_name (status_line d1 d2 d3 reason) ≠ "Location".toList := by
  have hname : "Location".toList = ['L', 'o', 'c', 'a', 't', 'i', 'o', 'n'] := by decide
  simp [field_name, status_line, http_prefix_eq, hname, List.takeWhile]

/-- Redirects are never accepted: on a fresh status whose buffer starts with a status line of
code 302, `parse_header` never returns success and never sets `header_complete`; it returns
`EU_error_abort` unless it is left by an exception. -/
theorem redirect_never_accepted (m : Mem) (s : DownloadStatus) (reason tail : List Char)
    (hfl : s._first_line_complete = false) (hc : s._header_is_complete = false)
    (hr : CR ∉ reason)
    (hbuf : read_mem m s._start s._bytes_in_buffer
      = status_line '3' '0' '2' reason ++ CRLF ++ tail) :
    ((parse_header m s).1 = some EU_error_abort ∨ (parse_header m s).1 = none) ∧
    (parse_header m s).2._header_is_complete = false := by
  have hresp : parse_http_response (status_line '3' '0' '2' reason) = some EU_http_redirect := by
    rw [parse_http_response_status_line '3' '0' '2' reason (by decide) (by decide) (by decide)]
    rfl
  have hcrS := status_line_no_CR '3' '0' '2' reason (by decide) (by decide) (by decide) hr
  have hneS : status_line '3' '0' '2' reason ≠ [] := by simp [status_line, http_prefix_eq]
  have hfirst : parse_first_line (status_line '3' '0' '2' reason) false s
      = (none, true, { s with _first_line_complete := true, _header_is_valid := true }) := by
    simp [parse_first_line, hfl, hresp]
  have hfield : parse_field_line (status_line '3' '0' '2' reason) true
      { s with _first_line_complete := true, _header_is_valid := true } = none := by
    unfold parse_field_line
    simp only [field_name_eq]
    rw [if_neg (fun hh => field_name_status_line '3' '0' '2' reason hh.2),
      if_neg (fun hh => field_name_status_line_location '3' '0' '2' reason hh.2)]
  generalize status_line '3' '0' '2' reason = S at *
  have hlen : s._bytes_in_buffer = (S ++ CRLF ++ tail).length := by
    rw [← hbuf, read_mem_length]
  have hcrlf : CRLF.length = 2 := rfl
  unfold parse_header
  rw [if_neg (by simp [hc]),
    if_neg (by rw [hlen]; simp only [List.length_append]; omega), hbuf]
  simp only []
  have e : S ++ CRLF ++ tail = [] ++ S ++ CRLF ++ tail := by simp
  have hl2 : (S ++ CRLF ++ tail).length = (S ++ CRLF ++ tail).length - 1 + 1 := by
    simp only [List.length_append]; omega
  have st1 : parse_header_loop ([] ++ S ++ CRLF ++ tail)
        (([] ++ S ++ CRLF ++ tail).length - 1 + 1) 0 false s
      = parse_header_loop ([] ++ S ++ CRLF ++ tail) (([] ++ S ++ CRLF ++ tail).length - 1)
          (0 + S.length + 2) true
          { s with _first_line_complete := true, _header_is_valid := true } :=
    parse_header_loop_step [] S tail _ false true s _ hcrS hneS hfirst hfield
  rw [hl2, e, st1]
  exact parse_header_loop_redirect _ _ _ _ hc rfl

/-- C6, the failing input: a fresh status holds a 302 response whose `Location` line has
nothing after the colon. The line is a `Location` line of a redirect, yet `parse_header`
returns no error code: it is left by the `std::out_of_range` of
`component.substr(cpos + 2, string::npos)`. -/
theorem redirect_location_throws :
    (status_holding 64 33 0 0 false)._first_line_complete = false ∧
    read_mem (memory_with 64 redirect_response) (status_holding 64 33 0 0 false)._start
      (status_holding 64 33 0 0 false)._bytes_in_buffer = redirect_response ∧
    (parse_header (memory_with 64 redirect_response) (status_holding 64 33 0 0 false)).1
      = none := by
  decide

theorem write_to_disk_incomplete (m : Mem) (s : DownloadStatus) (dest : List Char)
    (hc : s._header_is_complete = false)
    (hno : ∀ k, ¬ OccursAt CRLFCRLF (read_mem m s._start s._bytes_in_buffer) k) :
    ((write_to_disk m s dest).1 = some EU_error_abort ∨ (write_to_disk m s dest).1 = none) ∧
    (write_to_disk m s dest).2.2 = dest ∧
    SameCursors s (write_to_disk m s dest).2.1 := by
  unfold write_to_disk
  rcases parse_header_spec m s hc with ⟨h1, h2, _⟩ | ⟨_, k, _, hk, _⟩
  · rcases hp : parse_header m s with ⟨r, s1⟩
    rw [hp] at h1 h2
    simp only [] at h1 h2
    cases r with
    | none => exact ⟨Or.inr rfl, rfl, h1⟩
    | some c =>
      simp only [h2, if_true]
      exact ⟨Or.inl trivial, trivial, h1⟩
  · exact absurd hk.1 (hno k)

/-- C9, the failing input: a fresh status holds a first line without a space and no blank
line. The header is incomplete, yet `write_to_disk` and `write_to_ram` return no error code:
they are left by the `std::out_of_range` of `resp.substr(ws, ws2)` in
`parse_http_response`. -/
theorem flush_incomplete_header_throws :
    (status_holding 64 7 0 0 false)._header_is_complete = false ∧
    read_mem (memory_with 64 garbled_response) (status_holding 64 7 0 0 false)._start
      (status_holding 64 7 0 0 false)._bytes_in_buffer = garbled_response ∧
    ¬ (CRLFCRLF <:+: garbled_response) ∧
    (write_to_disk (memory_with 64 garbled_response) (status_holding 64 7 0 0 false) []).1
      = none ∧
    (write_to_ram (memory_with 64 garbled_response) (status_holding 64 7 0 0 false) []).1
      = none := by
  decide

/-! ## The buffer recompute (C10) -/

theorem run_prepare_recompute (d : Engine) (s : DownloadStatus) (env : TickEnv)
    (hrec : d._recompute_buffer = true) (hc : s._header_is_complete = true)
    (hpos : 0 < s._bytes_in_buffer) :
    ∃ d1 s1, run_prepare d s env = Prepared.go_on EU_write d1 s1 ∧
      d1._dest_stream = d._dest_stream ++ read_mem d.memory s._start s._bytes_in_buffer ∧
      d1._dest_string_stream = d._dest_string_stream ∧
      RecomputedFrom d env.new_buffer d1 s1 := by
  unfold run_prepare write_to_disk_stream
  rw [if_pos hrec, if_pos hpos, write_to_disk_complete d.memory s d._dest_stream hc]
  simp only [ErrorUtilCode.neg, Bool.false_eq_true, if_false]
  exact ⟨_, _, rfl, rfl, rfl, rfl, rfl, rfl, rfl, rfl, rfl, rfl, rfl, rfl, rfl, rfl, rfl⟩

theorem run_to_ram_prepare_recompute (d : Engine) (s : DownloadStatus) (env : TickEnv)
    (acc : List Char) (hacc : d._dest_string_stream = some acc)
    (hrec : d._recompute_buffer = true) (hc : s._header_is_complete = true)
    (hpos : 0 < s._bytes_in_buffer) :
    ∃ d1 s1, run_to_ram_prepare d s env = Prepared.go_on EU_write_ram d1 s1 ∧
      d1._dest_string_stream = some (acc ++ read_mem d.memory s._start s._bytes_in_buffer) ∧
      d1._dest_stream = d._dest_stream ∧
      RecomputedFrom d env.new_buffer d1 s1 := by
  unfold run_to_ram_prepare write_to_ram_stream
  rw [if_pos hrec, if_pos hpos, hacc, write_to_ram_eq_write_to_disk]
  simp only []
  rw [write_to_disk_complete d.memory s acc hc]
  simp only [ErrorUtilCode.neg, Bool.false_eq_true, if_false]
  exact ⟨_, _, rfl, rfl, rfl, rfl, rfl, rfl, rfl, rfl, rfl, rfl, rfl, rfl, rfl, rfl, rfl⟩

theorem recomputedFrom_congr {d d' d1 : Engine} {s1 : DownloadStatus} {nb : Nat}
    (h : RecomputedFrom d' nb d1 s1) (h1 : d'._frequency = d._frequency)
    (h2 : d'._byte_rate = d._byte_rate)
    (h3 : d'._disk_write_frequency = d._disk_write_frequency)
    (h4 : d'.inbound = d.inbound) (h5 : d'._got_any_data = d._got_any_data) :
    RecomputedFrom d nb d1 s1 := by
  unfold RecomputedFrom at *
  rw [← h1, ← h2, ← h3, ← h4, ← h5]
  exact h

theorem connect_to_server_connected (d : Engine) (ev : ConnectEvent)
    (h : d._connected = true) : connect_to_server d ev = (EU_success, d) := by
  simp [connect_to_server, h]

/-- C10. Buffer recompute loses no bytes: in an initiated, connected download whose header is
complete, with `n > 0` buffered payload bytes and the recompute flag set, an eligible tick of
`run` (disk) or `run_to_ram` (memory) starts its receive attempts from an engine in which
exactly those `n` bytes were appended to the sink, the arena was replaced by one of capacity
`receive_chunk_size × flush_interval_polls` computed from the current tunables, `start` and
`write_cursor` point to the new arena, `bytes_buffered` and `session_bytes_received` are 0,
and the flag is cleared. -/
theorem recompute_loses_no_bytes (d : Engine) (s : DownloadStatus) (env : TickEnv) (n : Nat)
    (hinit : d._initiated = true) (hs : d._current_status = some s)
    (hconn : d._connected = true)
    (helig : ¬ (env.t0 - d._tlast < (d._frequency : Int)))
    (hrec : d._recompute_buffer = true) (hc : s._header_is_complete = true)
    (hn : s._bytes_in_buffer = n) (hpos : 0 < n) :
    (d._download_to_ram = false →
      ∃ d1 s1, run d env = run_receive EU_write d1 s1 env ∧
        d1._dest_stream = d._dest_stream ++ read_mem d.memory s._start n ∧
        RecomputedFrom d env.new_buffer d1 s1) ∧
    (d._download_to_ram = true → ∀ acc, d._dest_string_stream = some acc →
      ∃ d1 s1, run d env = run_to_ram_receive EU_write_ram d1 s1 env ∧
        d1._dest_string_stream = some (acc ++ read_mem d.memory s._start n) ∧
        RecomputedFrom d env.new_buffer d1 s1) := by
  subst hn
  constructor
  · intro hram
    unfold run
    rw [if_neg (by simp [hinit]), hs]
    simp only [connect_to_server_connected d env.connect hconn, ErrorUtilCode.neg,
      Bool.false_eq_true, if_false, hram]
    unfold run_to_disk
    by_cases ht : d._tfirst = 0
    · simp only [ht, if_true]
      rw [if_neg helig]
      obtain ⟨d1, s1, h1, h2, _, h4⟩ :=
        run_prepare_recompute { { d with _tfirst := env.t0 } with _tlast := env.t1 } s env
          hrec hc hpos
      rw [h1]
      exact ⟨d1, s1, rfl, h2, recomputedFrom_congr h4 rfl rfl rfl rfl rfl⟩
    · simp only [ht, if_false]
      rw [if_neg helig]
      obtain ⟨d1, s1, h1, h2, _, h4⟩ :=
        run_prepare_recompute { d with _tlast := env.t1 } s env hrec hc hpos
      rw [h1]
      exact ⟨d1, s1, rfl, h2, recomputedFrom_congr h4 rfl rfl rfl rfl rfl⟩
  · intro hram acc hacc
    unfold run
    rw [if_neg (by simp [hinit]), hs]
    simp only [connect_to_server_connected d env.connect hconn, ErrorUtilCode.neg,
      Bool.false_eq_true, if_false, hram, if_true]
    unfold run_to_ram
    by_cases ht : d._tfirst = 0
    · simp only [ht, if_true]
      rw [if_neg helig]
      obtain ⟨d1, s1, h1, h2, _, h4⟩ :=
        run_to_ram_prepare_recompute { { d with _tfirst := env.t0 } with _tlast := env.t1 }
          s env acc hacc hrec hc hpos
      rw [h1]
      exact ⟨d1, s1, rfl, h2, recomputedFrom_congr h4 rfl rfl rfl rfl rfl⟩
    · simp only [ht, if_false]
      rw [if_neg helig]
      obtain ⟨d1, s1, h1, h2, _, h4⟩ :=
        run_to_ram_prepare_recompute { d with _tlast := env.t1 } s env acc hacc hrec hc hpos
      rw [h1]
      exact ⟨d1, s1, rfl, h2, recomputedFrom_congr h4 rfl rfl rfl rfl rfl⟩

/-- C10 at the input of the specification: 500 buffered bytes and a changed rate. The tick
hands the 500 bytes to the file before the new arena of `200 × 2` bytes is in place. -/
theorem recompute_loses_no_bytes_witness :
    ¬ (quiet_tick.t0 - (recompute_engine false)._tlast
        < ((recompute_engine false)._frequency : Int)) ∧
    ∃ d1 s1, run (recompute_engine false) quiet_tick = run_receive EU_write d1 s1 quiet_tick ∧
      d1._dest_stream = (recompute_engine false)._dest_stream
        ++ read_mem (recompute_engine false).memory 1000 500 ∧
      RecomputedFrom (recompute_engine false) quiet_tick.new_buffer d1 s1 :=
  ⟨by decide,
   (recompute_loses_no_bytes (recompute_engine false)
     { status_holding 1000 500 0 0 false with
         _first_line_complete := true, _header_is_valid := true,
         _header_is_complete := true }
     quiet_tick 500 rfl rfl rfl (by decide) rfl rfl rfl (by decide)).1 rfl⟩

/-! ## End-to-end delivery (C3) -/

theorem read_mem_append (m : Mem) (a n k : Nat) :
    read_mem m a (n + k) = read_mem m a n ++ read_mem m (a + n) k := by
  apply List.ext_getElem?
  intro i
  by_cases hi : i < n
  · rw [List.getElem?_append_left (by simp [read_mem_length]; exact hi),
      read_mem_getElem? m a (n + k) i (by omega), read_mem_getElem? m a n i hi]
  · by_cases hi2 : i < n + k
    · rw [List.getElem?_append_right (by simp [read_mem_length]; omega), read_mem_length,
        read_mem_getElem? m a (n + k) i hi2, read_mem_getElem? m (a + n) k (i - n) (by omega)]
      congr 2
      omega
    · rw [List.getElem?_eq_none (by simp [read_mem_length]; omega),
        List.getElem?_eq_none (by simp [read_mem_length]; omega)]

theorem read_mem_write_mem_before (m : Mem) (a n b : Nat) (bs : List Char) (h : a + n ≤ b) :
    read_mem (write_mem m b bs) a n = read_mem m a n := by
  apply List.ext_getElem?
  intro i
  by_cases hi : i < n
  · rw [read_mem_getElem? _ a n i hi, read_mem_getElem? _ a n i hi]
    unfold write_mem
    rw [if_neg (by omega)]
  · rw [List.getElem?_eq_none (by simp [read_mem_length]; omega),
      List.getElem?_eq_none (by simp [read_mem_length]; omega)]

theorem read_mem_write_mem_same (m : Mem) (a : Nat) (bs : List Char) :
    read_mem (write_mem m a bs) a bs.length = bs := by
  apply List.ext_getElem?
  intro i
  by_cases hi : i < bs.length
  · rw [read_mem_getElem? _ a _ i hi]
    unfold write_mem
    rw [if_pos (by omega)]
    have e : a + i - a = i := by omega
    rw [e, List.getD_eq_getElem?_getD, List.getElem?_eq_getElem hi]
    rfl
  · rw [List.getElem?_eq_none (by simp [read_mem_length]; omega),
      List.getElem?_eq_none (by omega)]

theorem holding_fast_receive (H P : List Char) (s : DownloadStatus) (m : Mem)
    (dest inbound : List Char) (rec_size : Nat) (ev : SockEvent)
    (h : Holding H P s m dest inbound) (hev : ev ≠ SockEvent.ready 0) :
    Holding H P (fast_receive m inbound s rec_size ev).2.1
      (fast_receive m inbound s rec_size ev).2.2.1 dest
      (fast_receive m inbound s rec_size ev).2.2.2 ∧
    ((fast_receive m inbound s rec_size ev).1 = EU_eof →
      (fast_receive m inbound s rec_size ev).2.2.2 = []) ∧
    (fast_receive m inbound s rec_size ev).1 ≠ EU_ok ∧
    (fast_receive m inbound s rec_size ev).2.1._bytes_in_buffer ≤ s._bytes_in_buffer + rec_size ∧
    s._bytes_in_buffer ≤ (fast_receive m inbound s rec_size ev).2.1._bytes_in_buffer ∧
    (fast_receive m inbound s rec_size ev).2.1._header_is_complete = s._header_is_complete := by
  unfold fast_receive
  by_cases hr : rec_size = 0
  · rw [if_pos hr]
    exact ⟨h, by simp, by simp, by simp, by simp, rfl⟩
  rw [if_neg hr]
  cases ev with
  | no_data => exact ⟨h, by simp, by simp, by simp, by simp, rfl⟩
  | select_error k => exact ⟨h, by simp, by simp, by simp, by simp, rfl⟩
  | recv_error k => exact ⟨h, by simp, by simp, by simp, by simp, rfl⟩
  | ready avail =>
    have hav : avail ≠ 0 := fun h0 => hev (by rw [h0])
    simp only []
    by_cases hd : (List.take (min rec_size avail) inbound).length = 0
    · rw [if_pos hd]
      refine ⟨h, ?_, by simp, by simp, by simp, rfl⟩
      intro _
      have : min rec_size avail ≠ 0 := by omega
      rw [List.length_take] at hd
      have : inbound.length = 0 := by omega
      exact List.length_eq_zero.mp this
    · rw [if_neg hd]
      generalize hdata : List.take (min rec_size avail) inbound = data at *
      have hsplit : data ++ inbound.drop data.length = inbound := by
        rw [← hdata, List.length_take]
        have : List.drop (min (min rec_size avail) inbound.length) inbound
            = List.drop (min rec_size avail) inbound := by
          by_cases hle : min rec_size avail ≤ inbound.length
          · rw [Nat.min_eq_left hle]
          · rw [Nat.min_eq_right (by omega), List.drop_length,
              List.drop_eq_nil_of_le (by omega)]
        rw [this, List.take_append_drop]
      have hlen : data.length ≤ rec_size := by
        rw [← hdata, List.length_take]; omega
      obtain ⟨h1, h2, h3, h4⟩ := h
      have hmem : read_mem (write_mem m s._next_in data) s._start
          (s._bytes_in_buffer + data.length)
          = read_mem m s._start s._bytes_in_buffer ++ data := by
        rw [read_mem_append, read_mem_write_mem_before _ _ _ _ _ (by omega), ← h3,
          read_mem_write_mem_same]
      refine ⟨⟨h1, h2, by simp only []; omega, ?_⟩, by simp, by simp, by simp only []; omega,
        by simp only []; omega, rfl⟩
      rcases h4 with ⟨a1, a2, a3, a4⟩ | ⟨b1, b2⟩
      · left
        refine ⟨a1, a2, a3, ?_⟩
        simp only []
        rw [hmem, List.append_assoc, hsplit, a4]
      · right
        refine ⟨b1, ?_⟩
        simp only []
        rw [hmem, List.append_assoc, List.append_assoc, hsplit, ← List.append_assoc, b2]

theorem recvHolding_receive (H P dest : List Char) (r : RecvState) (rec_size : Nat)
    (h : RecvHolding H P dest r) : RecvHolding H P dest (r.receive rec_size) := by
  obtain ⟨h1, _, h3⟩ := h
  have hev : r.recvs.headD SockEvent.no_data ≠ SockEvent.ready 0 := by
    cases hr : r.recvs with
    | nil => simp
    | cons e es =>
      simp only [List.headD_cons]
      intro he
      apply h3
      rw [hr, he]
      exact List.mem_cons_self _ _
  have := holding_fast_receive H P r.status r.memory dest r.inbound rec_size _ h1 hev
  unfold RecvState.receive
  rcases hf : fast_receive r.memory r.inbound r.status rec_size
    (r.recvs.headD SockEvent.no_data) with ⟨a, b, c, e⟩
  rw [hf] at this
  refine ⟨this.1, this.2.1, ?_⟩
  intro hmem
  exact h3 (List.mem_of_mem_tail hmem)

theorem recvHolding_receive_loop (H P dest : List Char) (repeat_ remain : Nat) :
    ∀ (k i : Nat) (r : RecvState), RecvHolding H P dest r →
      RecvHolding H P dest (receive_loop repeat_ remain k i r) := by
  intro k
  induction k with
  | zero => intro i r h; exact h
  | succ k ih =>
    intro i r h
    rw [receive_loop]
    have h1 : RecvHolding H P dest (if i < repeat_ then r.receive MAX_RECEIVE_BYTES
        else if remain > 0 then r.receive remain else r) := by
      split_ifs
      · exact recvHolding_receive H P dest r _ h
      · exact recvHolding_receive H P dest r _ h
      · exact h
    generalize (if i < repeat_ then r.receive MAX_RECEIVE_BYTES
        else if remain > 0 then r.receive remain else r) = r1 at h1 ⊢
    split_ifs with ha hb
    · exact h1
    · apply ih
      refine ⟨h1.1, ?_, h1.2.2⟩
      intro he
      exact h1.2.1 he
    · exact ih _ _ h1

theorem recvHolding_receive_step (H P dest : List Char) (receive_size : Nat) (r : RecvState)
    (h : RecvHolding H P dest r) : RecvHolding H P dest (receive_step receive_size r) := by
  unfold receive_step
  split_ifs
  · exact recvHolding_receive_loop H P dest _ _ _ _ r h
  · exact recvHolding_receive H P dest r _ h

theorem occursAt_append_left (pat A B : List Char) (j : Nat) (hj : j + pat.length ≤ A.length) :
    OccursAt pat (A ++ B) j ↔ OccursAt pat A j := by
  unfold OccursAt
  rw [List.drop_append_of_le_length (by omega)]
  constructor
  · intro h
    exact List.prefix_of_prefix_length_le h (List.prefix_append _ _) (by simp; omega)
  · intro h
    exact h.trans (List.prefix_append _ _)

theorem occursAt_bound (pat s : List Char) (j : Nat) (h : OccursAt pat s j) :
    pat = [] ∨ j + pat.length ≤ s.length := by
  unfold OccursAt at h
  have := h.length_le
  rw [List.length_drop] at this
  by_cases hp : pat = []
  · exact Or.inl hp
  · right
    have : 0 < pat.length := List.length_pos.mpr hp
    omega

theorem firstOccurrence_prefix (A B : List Char) (k : Nat)
    (h : FirstOccurrence CRLFCRLF (A ++ B) k) (hk : k + 4 ≤ A.length) :
    FirstOccurrence CRLFCRLF A k := by
  have hlen : CRLFCRLF.length = 4 := rfl
  refine ⟨(occursAt_append_left CRLFCRLF A B k (by omega)).mp h.1, ?_⟩
  intro j hj hocc
  exact h.2 j hj ((occursAt_append_left CRLFCRLF A B j (by omega)).mpr hocc)

theorem holding_write_to_disk (H P ln : List Char) (k : Nat) (s : DownloadStatus) (m : Mem)
    (dest inbound : List Char) (hh : AcceptedHeader H P ln k)
    (h : Holding H P s m dest inbound)
    (hfit : s._header_is_complete = false → H.length ≤ s._bytes_in_buffer) :
    ∃ s1 dest1, write_to_disk m s dest = (some EU_success, s1, dest1) ∧
      Holding H P s1 m dest1 inbound ∧ s1._bytes_in_buffer = 0 ∧
      s1._header_is_complete = true := by
  obtain ⟨hline, hcr, hne, hresp, hk, hH⟩ := hh
  obtain ⟨h1, h2, h3, h4⟩ := h
  rcases h4 with ⟨a1, a2, a3, a4⟩ | ⟨b1, b2⟩
  · have hfit' := hfit a1
    subst a3
    generalize hB : read_mem m s._start s._bytes_in_buffer = Bf at a4
    have hBlen : Bf.length = s._bytes_in_buffer := by rw [← hB, read_mem_length]
    have hBf : Bf = H ++ (P.take (Bf.length - H.length)) := by
      have e1 : Bf = (Bf ++ inbound).take Bf.length := by simp
      rw [a4, List.take_append_eq_append_take, List.take_of_length_le (by omega)] at e1
      exact e1
    have hP : P = P.take (Bf.length - H.length) ++ inbound := by
      have e2 : Bf ++ inbound = H ++ (P.take (Bf.length - H.length) ++ inbound) := by
        rw [← List.append_assoc, ← hBf]
      rw [a4] at e2
      exact List.append_cancel_left e2
    generalize P.take (Bf.length - H.length) = P1 at hBf hP
    obtain ⟨t0, ht0⟩ := hline
    have hform : Bf = ln ++ CRLF ++ (t0 ++ P1) := by
      rw [hBf, ← ht0]; simp [List.append_assoc]
    have hk1 : FirstOccurrence CRLFCRLF (ln ++ CRLF ++ (t0 ++ P1)) k := by
      rw [← hform, hBf]
      have : H ++ P = (H ++ P1) ++ inbound := by rw [hP]; simp [List.append_assoc]
      rw [this] at hk
      exact firstOccurrence_prefix (H ++ P1) inbound k hk (by simp; omega)
    have hw := write_to_disk_fresh_no_range m s [] ln (t0 ++ P1) k a2 a1 h1
      (hB.trans hform) hcr hne hresp hk1
    have hdrop : (ln ++ CRLF ++ (t0 ++ P1)).drop (k + 4) = P1 := by
      rw [← hform, hBf, ← hH, List.drop_left]
    rw [hdrop] at hw
    refine ⟨_, _, hw, ⟨h1, rfl, rfl, Or.inr ⟨rfl, ?_⟩⟩, rfl, rfl⟩
    simp only [DownloadStatus.reset, read_mem_zero, List.nil_append, List.append_nil]
    exact hP.symm
  · have hw := write_to_disk_complete m s dest b1
    refine ⟨_, _, hw, ⟨h1, rfl, rfl, Or.inr ⟨b1, ?_⟩⟩, rfl, b1⟩
    simp only [DownloadStatus.reset, read_mem_zero, List.append_nil]
    exact b2

theorem cleanup_spec (d : Engine) (s : DownloadStatus) (hi : d._initiated = true)
    (hs : d._current_status = some s) :
    (cleanup d)._initiated = false ∧ (cleanup d)._dest_stream = d._dest_stream := by
  unfold cleanup
  rw [if_neg (by simp [hi]), hs]
  exact ⟨rfl, rfl⟩

theorem acceptedHeader_length (H P ln : List Char) (k : Nat) (hh : AcceptedHeader H P ln k) :
    2 ≤ H.length := by
  obtain ⟨⟨t, ht⟩, _⟩ := hh
  rw [← ht]
  simp [CRLF]
  omega

theorem run_receive_delivering (H P ln : List Char) (k rs cap : Nat) (ret : ErrorUtilCode)
    (d : Engine) (s : DownloadStatus) (env : TickEnv)
    (hh : AcceptedHeader H P ln k) (hret : ret ≠ EU_success)
    (hrun : Running rs cap d)
    (hold : Holding H P s d.memory d._dest_stream d.inbound)
    (henv : SockEvent.ready 0 ∉ env.recvs) :
    Settled H P rs cap (run_receive ret d s env).2 ∧
    ((run_receive ret d s env).1 = some EU_success →
      (run_receive ret d s env).2._dest_stream = P) := by
  have h0 : RecvHolding H P d._dest_stream (before_receive d s env) :=
    ⟨hold, by simp [before_receive], henv⟩
  have hr := recvHolding_receive_step H P d._dest_stream d._receive_size _ h0
  unfold run_receive
  generalize receive_step d._receive_size (before_receive d s env) = r at hr
  obtain ⟨hr1, hr2, _⟩ := hr
  obtain ⟨i1, i2, i3, i4, i5, i6⟩ := hrun
  have hrun1 : Running rs cap (after_receive d r) := ⟨i1, i2, i3, i4, i5, i6⟩
  have hdel1 : Delivering H P rs cap (after_receive d r) := ⟨hrun1, r.status, rfl, hr1⟩
  simp only []
  by_cases heof : r.fret = EU_eof
  · rw [if_pos heof]
    have hin := hr2 heof
    by_cases hgot : (after_receive d r)._got_any_data = true
    · rw [if_pos hgot]
      by_cases hb : r.status._bytes_in_buffer > 0
      · rw [if_pos hb]
        have hfit : r.status._header_is_complete = false →
            H.length ≤ r.status._bytes_in_buffer := by
          intro hc
          obtain ⟨_, _, _, h4⟩ := hr1
          rcases h4 with ⟨_, _, _, a4⟩ | ⟨b1, _⟩
          · rw [hin, List.append_nil] at a4
            have := congrArg List.length a4
            rw [read_mem_length, List.length_append] at this
            omega
          · rw [b1] at hc; cases hc
        obtain ⟨s1, dest1, hw, hold1, hz, _⟩ :=
          holding_write_to_disk H P ln k r.status r.memory d._dest_stream r.inbound hh hr1 hfit
        have hws : write_to_disk_stream (after_receive d r) r.status
            = (some EU_success, s1,
               { after_receive d r with _current_status := some s1, _dest_stream := dest1 }) := by
          unfold write_to_disk_stream
          show (match write_to_disk r.memory r.status d._dest_stream with
            | (code, status1, dest1) =>
              (code, status1, { after_receive d r with
                _current_status := some status1, _dest_stream := dest1 })) = _
          rw [hw]
        rw [hws]
        simp only [ErrorUtilCode.neg, Bool.false_eq_true, if_false]
        have hcl := cleanup_spec
          { after_receive d r with _current_status := some s1, _dest_stream := dest1 } s1 i1 rfl
        refine ⟨Or.inl hcl.1, fun _ => ?_⟩
        rw [hcl.2]
        obtain ⟨_, _, _, h4⟩ := hold1
        rcases h4 with ⟨a1, _⟩ | ⟨_, b2⟩
        · rw [‹s1._header_is_complete = true›] at a1; cases a1
        · rw [hz, read_mem_zero, hin, List.append_nil, List.append_nil] at b2
          exact b2
      · rw [if_neg hb]
        have hcl := cleanup_spec (after_receive d r) r.status i1 rfl
        refine ⟨Or.inl hcl.1, fun _ => ?_⟩
        rw [hcl.2]
        have hz : r.status._bytes_in_buffer = 0 := by omega
        obtain ⟨_, _, _, h4⟩ := hr1
        rcases h4 with ⟨_, _, _, a4⟩ | ⟨_, b2⟩
        · rw [hz, read_mem_zero, hin] at a4
          have := congrArg List.length a4
          have h2 := acceptedHeader_length H P ln k hh
          simp at this
          omega
        · rw [hz, read_mem_zero, hin, List.append_nil, List.append_nil] at b2
          exact b2
    · rw [if_neg hgot]
      exact ⟨Or.inr hdel1, fun h => absurd (Option.some.inj h) hret⟩
  · rw [if_neg heof]
    by_cases hnd : r.fret = EU_network_no_data
    · rw [if_pos hnd]
      exact ⟨Or.inr hdel1, fun h => absurd (Option.some.inj h) hret⟩
    · rw [if_neg hnd]
      by_cases hneg : r.fret.neg = true
      · rw [if_pos hneg]
        refine ⟨Or.inr hdel1, fun h => ?_⟩
        rw [Option.some.inj h] at hneg
        cases hneg
      · rw [if_neg hneg]
        exact ⟨Or.inr ⟨⟨i1, i2, i3, i4, i5, i6⟩, r.status, rfl, hr1⟩,
          fun h => absurd (Option.some.inj h) hret⟩

theorem run_to_disk_delivering (H P ln : List Char) (k rs cap : Nat)
    (d : Engine) (s : DownloadStatus) (env : TickEnv)
    (hh : AcceptedHeader H P ln k) (hcap : H.length ≤ cap - rs)
    (hrun : Running rs cap d) (hs : d._current_status = some s)
    (hold : Holding H P s d.memory d._dest_stream d.inbound)
    (henv : SockEvent.ready 0 ∉ env.recvs) :
    Settled H P rs cap (run_to_disk d s env).2 ∧
    ((run_to_disk d s env).1 = some EU_success → (run_to_disk d s env).2._dest_stream = P) := by
  obtain ⟨i1, i2, i3, i4, i5, i6⟩ := hrun
  have hH2 := acceptedHeader_length H P ln k hh
  -- the engine once `_tfirst` and `_tlast` are set
  have key : ∀ d2 : Engine, Running rs cap d2 → d2._current_status = some s →
      d2.memory = d.memory → d2._dest_stream = d._dest_stream → d2.inbound = d.inbound →
      Settled H P rs cap
        (match run_prepare d2 s env with
          | Prepared.returned code d3 => (code, d3)
          | Prepared.go_on ret d3 status3 => run_receive ret d3 status3 env).2 ∧
      ((match run_prepare d2 s env with
          | Prepared.returned code d3 => (code, d3)
          | Prepared.go_on ret d3 status3 => run_receive ret d3 status3 env).1
          = some EU_success →
        (match run_prepare d2 s env with
          | Prepared.returned code d3 => (code, d3)
          | Prepared.go_on ret d3 status3 => run_receive ret d3 status3 env).2._dest_stream
          = P) := by
    intro d2 hrun2 hs2 hm2 hd2 hi2
    have hold2 : Holding H P s d2.memory d2._dest_stream d2.inbound := by
      rw [hm2, hd2, hi2]; exact hold
    obtain ⟨j1, j2, j3, j4, j5, j6⟩ := hrun2
    unfold run_prepare
    rw [if_neg (by simp [j4])]
    by_cases hov : s._bytes_in_buffer + d2._receive_size > d2._disk_buffer_size
    · rw [if_pos hov]
      have hfit : s._header_is_complete = false → H.length ≤ s._bytes_in_buffer := by
        intro _
        rw [j5, j6] at hov
        omega
      obtain ⟨s1, dest1, hw, hold1, _, _⟩ :=
        holding_write_to_disk H P ln k s d2.memory d2._dest_stream d2.inbound hh hold2 hfit
      have hws : write_to_disk_stream d2 s
          = (some EU_success, s1,
             { d2 with _current_status := some s1, _dest_stream := dest1 }) := by
        unfold write_to_disk_stream
        rw [hw]
      rw [hws]
      simp only [ErrorUtilCode.neg, Bool.false_eq_true, if_false]
      exact run_receive_delivering H P ln k rs cap EU_write _ s1 env hh (by decide)
        ⟨j1, j2, j3, j4, j5, j6⟩ hold1 henv
    · rw [if_neg hov]
      exact run_receive_delivering H P ln k rs cap EU_ok d2 s env hh (by decide)
        ⟨j1, j2, j3, j4, j5, j6⟩ hold2 henv
  unfold run_to_disk
  simp only []
  by_cases ht : d._tfirst = 0
  · simp only [ht, if_true]
    by_cases hthr : env.t0 - d._tlast < (d._frequency : Int)
    · rw [if_pos hthr]
      exact ⟨Or.inr ⟨⟨i1, i2, i3, i4, i5, i6⟩, s, hs, hold⟩, fun h => by cases h⟩
    · rw [if_neg hthr]
      exact key _ ⟨i1, i2, i3, i4, i5, i6⟩ hs rfl rfl rfl
  · simp only [ht, if_false]
    by_cases hthr : env.t0 - d._tlast < (d._frequency : Int)
    · rw [if_pos hthr]
      exact ⟨Or.inr ⟨⟨i1, i2, i3, i4, i5, i6⟩, s, hs, hold⟩, fun h => by cases h⟩
    · rw [if_neg hthr]
      exact key _ ⟨i1, i2, i3, i4, i5, i6⟩ hs rfl rfl rfl

theorem run_settled (H P ln : List Char) (k rs cap : Nat) (d : Engine) (env : TickEnv)
    (hh : AcceptedHeader H P ln k) (hcap : H.length ≤ cap - rs)
    (hd : Settled H P rs cap d) (henv : SockEvent.ready 0 ∉ env.recvs) :
    Settled H P rs cap (run d env).2 ∧
    ((run d env).1 = some EU_success → (run d env).2._dest_stream = P) := by
  rcases hd with hni | ⟨hrun, s, hs, hold⟩
  · unfold run
    rw [if_pos hni]
    exact ⟨Or.inl hni, fun h => by cases h⟩
  · unfold run
    rw [if_neg (by simp [hrun.1]), hs]
    simp only [connect_to_server_connected d env.connect hrun.2.1, ErrorUtilCode.neg,
      Bool.false_eq_true, if_false, hrun.2.2.1]
    exact run_to_disk_delivering H P ln k rs cap d s env hh hcap hrun hs hold henv

theorem run_ticks_settled (H P ln : List Char) (k rs cap : Nat)
    (hh : AcceptedHeader H P ln k) (hcap : H.length ≤ cap - rs) :
    ∀ (envs : List TickEnv) (d : Engine), Settled H P rs cap d →
      (∀ env ∈ envs, SockEvent.ready 0 ∉ env.recvs) →
      Settled H P rs cap (run_ticks d envs) := by
  intro envs
  induction envs with
  | nil => intro d hd _; exact hd
  | cons env envs ih =>
    intro d hd henvs
    rw [run_ticks]
    apply ih
    · exact (run_settled H P ln k rs cap d env hh hcap hd
        (henvs env (List.mem_cons_self _ _))).1
    · intro e he
      exact henvs e (List.mem_cons_of_mem _ he)

/-- C3. End-to-end delivery: take the engine right after the `initiate` of a non-partial disk
download (fresh status, empty destination, no recompute pending) whose connection will
deliver `H ++ P`, where `H` starts with a status line of code 200, ends with the first
`CRLF CRLF` of the stream and is at most `buffer_capacity - receive_chunk_size` long. Run any
number of ticks, with any clock readings and any answers of the socket in which no read
reports an end of stream by itself (an end of stream is seen only once the stream is used
up). If a tick then returns `EU_success` (finished), the destination holds exactly `P`. -/
theorem end_to_end_delivery (d0 : Engine) (reason H P : List Char) (k : Nat)
    (envs : List TickEnv) (env : TickEnv)
    (hinit : d0._initiated = true) (hconn : d0._connected = true)
    (hdisk : d0._download_to_ram = false) (hrec : d0._recompute_buffer = false)
    (hs0 : d0._current_status = some (DownloadStatus.new d0._buffer._buffer 0 0 0 false))
    (hdest : d0._dest_stream = []) (hin : d0.inbound = H ++ P)
    (hr : CR ∉ reason) (hline : status_line '2' '0' '0' reason ++ CRLF <+: H)
    (hk : FirstOccurrence CRLFCRLF (H ++ P) k) (hH : H.length = k + 4)
    (hfit : H.length ≤ d0._disk_buffer_size - d0._receive_size)
    (hsched : ∀ e ∈ envs ++ [env], SockEvent.ready 0 ∉ e.recvs)
    (hfin : (run (run_ticks d0 envs) env).1 = some EU_success) :
    (run (run_ticks d0 envs) env).2._dest_stream = P := by
  have hh : AcceptedHeader H P (status_line '2' '0' '0' reason) k := by
    refine ⟨hline, status_line_no_CR _ _ _ reason (by decide) (by decide) (by decide) hr,
      by simp [status_line, http_prefix_eq], ?_, hk, hH⟩
    rw [parse_http_response_status_line _ _ _ reason (by decide) (by decide) (by decide)]
    rfl
  have h0 : Settled H P d0._receive_size d0._disk_buffer_size d0 := by
    refine Or.inr ⟨⟨hinit, hconn, hdisk, hrec, rfl, rfl⟩, _, hs0, rfl, rfl, rfl, Or.inl ?_⟩
    refine ⟨rfl, rfl, hdest, ?_⟩
    rw [hin]
    simp [DownloadStatus.new, DownloadStatus.reset, read_mem_zero]
  have h1 := run_ticks_settled H P _ k _ _ hh hfit envs d0 h0
    (fun e he => hsched e (List.mem_append_left _ he))
  exact (run_settled H P _ k _ _ (run_ticks d0 envs) env hh hfit h1
    (hsched env (List.mem_append_right _ (List.mem_singleton_self _)))).2 hfin

set_option maxRecDepth 1000000 in
/-- C3 at the input of the specification: poll interval 0.1 s, byte rate 1000, a flush every
2 polls, a header `200 OK` with `Content-Length: 250` and 250 payload bytes. The seventh tick
finds the end of the stream and returns finished; the file then holds the 250 bytes. -/
theorem end_to_end_delivery_witness :
    delivery_header.length ≤ delivery_engine._disk_buffer_size - delivery_engine._receive_size ∧
    (run (run_ticks delivery_engine delivery_ticks) (tick_at 1500000 (SockEvent.ready 100))).1
      = some EU_success ∧
    (run (run_ticks delivery_engine delivery_ticks)
      (tick_at 1500000 (SockEvent.ready 100))).2._dest_stream = delivery_payload ∧
    delivery_payload.length = 250 :=
  ⟨by decide, by decide,
   end_to_end_delivery delivery_engine "OK".toList delivery_header delivery_payload 36
     delivery_ticks (tick_at 1500000 (SockEvent.ready 100)) rfl rfl rfl rfl rfl rfl rfl
     (by decide) (by decide) (by decide) (by decide) (by decide) (by decide) (by decide),
   by decide⟩

/-! ## The progress counter (C11) -/

theorem total_written_fast_receive (m : Mem) (inbound : List Char) (s : DownloadStatus)
    (rec_size : Nat) (ev : SockEvent) :
    (fast_receive m inbound s rec_size ev).2.1._total_bytes_written = s._total_bytes_written := by
  unfold fast_receive
  split_ifs
  · rfl
  · cases ev with
    | no_data => rfl
    | select_error k => rfl
    | recv_error k => rfl
    | ready avail =>
      simp only []
      split_ifs <;> rfl

theorem total_written_parse_header (m : Mem) (s : DownloadStatus) :
    (parse_header m s).2._total_bytes_written = s._total_bytes_written := by
  cases hc : s._header_is_complete with
  | true => rw [parse_header_complete m s hc]
  | false =>
    rcases parse_header_spec m s hc with ⟨h1, _, _⟩ | ⟨_, k, s1, _, _, h3, _, h5⟩
    · exact h1.2.2.2.2.1
    · rw [h5]
      exact h3.2.2.2.2.1

theorem total_written_write_to_disk (m : Mem) (s : DownloadStatus) (dest : List Char) :
    s._total_bytes_written ≤ (write_to_disk m s dest).2.1._total_bytes_written := by
  have h := total_written_parse_header m s
  unfold write_to_disk
  rcases hp : parse_header m s with ⟨r, s1⟩
  rw [hp] at h
  simp only [] at h
  cases r with
  | none => exact le_of_eq h.symm
  | some c =>
    simp only []
    split_ifs
    · exact le_of_eq h.symm
    · exact le_of_eq h.symm
    · show s._total_bytes_written ≤ s1._total_bytes_written + (s1._bytes_in_buffer : Int)
      rw [h]
      omega
    · exact le_of_eq h.symm

theorem total_written_apply (s : DownloadStatus) (op : StatusOp) :
    s._total_bytes_written ≤ (op.apply s)._total_bytes_written := by
  cases op with
  | receive m inbound rec_size ev => exact le_of_eq (total_written_fast_receive m inbound s rec_size ev).symm
  | parse m => exact le_of_eq (total_written_parse_header m s).symm
  | flush_disk m dest => exact total_written_write_to_disk m s dest
  | flush_ram m dest =>
    show s._total_bytes_written ≤ (write_to_ram m s dest).2.1._total_bytes_written
    rw [write_to_ram_eq_write_to_disk]
    exact total_written_write_to_disk m s dest
  | reset => exact le_refl _
  | recompute d t0 nb => exact le_refl _

theorem total_written_foldl (ops : List StatusOp) :
    ∀ s : DownloadStatus,
      s._total_bytes_written ≤ (ops.foldl StatusOp.apply s)._total_bytes_written := by
  induction ops with
  | nil => intro s; exact le_refl _
  | cons op ops ih =>
    intro s
    rw [List.foldl_cons]
    exact le_trans (total_written_apply s op) (ih _)

/-- C11. Progress counter: a Download Status created with `first_byte = F` starts with
`total_bytes_written = F`, and over every sequence of operations on it (receive, parse,
flush to disk or to memory, reset, recompute) `total_bytes_written` never decreases: its
value after the operations `earlier` is at most its value after `earlier ++ later`. -/
theorem progress_counter_monotone :
    (∀ (buffer : Nat) (F last_byte total_bytes : Int) (partial_content : Bool),
      (DownloadStatus.new buffer F last_byte total_bytes partial_content)._total_bytes_written
        = F) ∧
    (∀ (s : DownloadStatus) (earlier later : List StatusOp),
      (earlier.foldl StatusOp.apply s)._total_bytes_written
        ≤ ((earlier ++ later).foldl StatusOp.apply s)._total_bytes_written) := by
  refine ⟨fun _ _ _ _ _ => rfl, ?_⟩
  intro s earlier later
  rw [List.foldl_append]
  exact total_written_foldl later _

/-! ## The throttle (C15) -/

/-- C15. Throttle no-op: for an initiated, connected download and a clock reading `t0` with
`t0 - t_last < poll_interval`, `run` returns the idle code `EU_ok` and leaves the engine as it
was, except that `_tfirst` is set to `t0` if it was still 0: the Download Status, the memory
of the arena and the arena itself, the inbound stream (nothing was received), the
destinations (nothing was flushed), the recompute flag and `t_last` are unchanged. -/
theorem throttle_no_op (d : Engine) (s : DownloadStatus) (env : TickEnv)
    (hinit : d._initiated = true) (hs : d._current_status = some s)
    (hconn : d._connected = true)
    (hthr : env.t0 - d._tlast < (d._frequency : Int)) :
    run d env = (some EU_ok, { d with _tfirst := if d._tfirst = 0 then env.t0 else d._tfirst }) ∧
    (run d env).2._current_status = d._current_status ∧
    (run d env).2.memory = d.memory ∧ (run d env).2._buffer = d._buffer ∧
    (run d env).2.inbound = d.inbound ∧
    (run d env).2._dest_stream = d._dest_stream ∧
    (run d env).2._dest_string_stream = d._dest_string_stream ∧
    (run d env).2._recompute_buffer = d._recompute_buffer ∧
    (run d env).2._tlast = d._tlast := by
  have key : run d env
      = (some EU_ok, { d with _tfirst := if d._tfirst = 0 then env.t0 else d._tfirst }) := by
    unfold run
    rw [if_neg (by simp [hinit]), hs]
    simp only [connect_to_server_connected d env.connect hconn, ErrorUtilCode.neg,
      Bool.false_eq_true, if_false]
    by_cases hram : d._download_to_ram = true
    · rw [if_pos hram]
      unfold run_to_ram
      by_cases ht : d._tfirst = 0
      · simp only [ht, if_true]
        rw [if_pos hthr, hs]
      · simp only [ht, if_false]
        rw [if_pos hthr, ← hs]
    · rw [if_neg hram]
      unfold run_to_disk
      by_cases ht : d._tfirst = 0
      · simp only [ht, if_true]
        rw [if_pos hthr, hs]
      · simp only [ht, if_false]
        rw [if_pos hthr, ← hs]
  rw [key]
  exact ⟨rfl, rfl, rfl, rfl, rfl, rfl, rfl, rfl, rfl⟩

/-- C15 at a concrete input: a tick 0.05 s after the last one, with a poll interval of
0.1 s, on an engine that holds 500 bytes. -/
theorem throttle_no_op_witness :
    (tick_at 5050000 (SockEvent.ready 100)).t0 - (recompute_engine false)._tlast
      < ((recompute_engine false)._frequency : Int) ∧
    (run (recompute_engine false) (tick_at 5050000 (SockEvent.ready 100))).1 = some EU_ok ∧
    (run (recompute_engine false) (tick_at 5050000 (SockEvent.ready 100))).2.inbound
      = (recompute_engine false).inbound :=
  ⟨by decide,
   congrArg Prod.fst (throttle_no_op (recompute_engine false) _
     (tick_at 5050000 (SockEvent.ready 100)) rfl rfl rfl (by decide)).1,
   (throttle_no_op (recompute_engine false) _
     (tick_at 5050000 (SockEvent.ready 100)) rfl rfl rfl (by decide)).2.2.2.2.1⟩

/-! ## The rate governor (C17) -/

theorem bit_length_fuel_zero (fuel : Nat) : bit_length_fuel fuel 0 = 0 := by
  cases fuel <;> simp [bit_length_fuel]

theorem bit_length_fuel_spec : ∀ (fuel n : Nat), n ≤ fuel → 0 < n →
    0 < bit_length_fuel fuel n ∧ 2 ^ (bit_length_fuel fuel n - 1) ≤ n ∧
      n < 2 ^ bit_length_fuel fuel n
  | 0, n, h, hn => by omega
  | fuel + 1, n, h, hn => by
    have hne : n ≠ 0 := by omega
    simp only [bit_length_fuel, if_neg hne, Nat.add_sub_cancel]
    by_cases h2 : n / 2 = 0
    · rw [h2, bit_length_fuel_zero]
      have : n = 1 := by omega
      subst this
      decide
    · obtain ⟨hb, hlo, hhi⟩ := bit_length_fuel_spec fuel (n / 2) (by omega) (by omega)
      refine ⟨by omega, ?_, ?_⟩
      · have e : bit_length_fuel fuel (n / 2) = (bit_length_fuel fuel (n / 2) - 1) + 1 := by omega
        rw [e, pow_succ]
        omega
      · rw [pow_succ]
        omega

/-- The number of binary digits: `2 ^ (bit_length n - 1) ≤ n < 2 ^ bit_length n`. -/
theorem bit_length_spec (n : Nat) (h : 0 < n) :
    0 < bit_length n ∧ 2 ^ (bit_length n - 1) ≤ n ∧ n < 2 ^ bit_length n :=
  bit_length_fuel_spec n n (Nat.le_refl n) h

/-- Rounding a fraction to an integer: the result is within one half, and even on a tie. -/
theorem round_half_even_nearest (n d : Nat) (hd : 0 < d) :
    2 * (round_half_even n d * d) ≤ 2 * n + d ∧
    2 * n ≤ 2 * (round_half_even n d * d) + d ∧
    ((2 * (round_half_even n d * d) = 2 * n + d ∨ 2 * n = 2 * (round_half_even n d * d) + d) →
      round_half_even n d % 2 = 0) := by
  have hn : n = d * (n / d) + n % d := (Nat.div_add_mod n d).symm
  have hr : n % d < d := Nat.mod_lt n hd
  generalize n / d = k at hn
  generalize n % d = r at hn hr
  unfold round_half_even
  simp only []
  have hn2 : n / d = k := by
    subst hn
    rw [Nat.mul_add_div hd, Nat.div_eq_of_lt hr, Nat.add_zero]
  have hn3 : n % d = r := by
    subst hn
    rw [Nat.mul_add_mod, Nat.mod_eq_of_lt hr]
  rw [hn2, hn3]
  have e1 : (k + 1) * d = d * k + d := by ring
  have e2 : k * d = d * k := Nat.mul_comm _ _
  generalize d * k = m at hn e1 e2
  split_ifs with hc
  · rw [e1]
    omega
  · rw [e2]
    omega

theorem scaled_den_pos (p q up down : Nat) (hq : 0 < q) : 0 < (scaled p q up down).2 := by
  unfold scaled
  split_ifs
  · exact hq
  · exact Nat.mul_pos hq (Nat.pos_pow_of_pos _ (by decide))

/-- The scaling is by a power of two: the fraction `scaled p q up down` is
`p / q * 2 ^ up / 2 ^ down`. -/
theorem scaled_value (p q up down : Nat) :
    (scaled p q up down).1 * q * 2 ^ down = p * (scaled p q up down).2 * 2 ^ up := by
  unfold scaled
  split_ifs with h
  · show p * 2 ^ (up - down) * q * 2 ^ down = p * q * 2 ^ up
    have e : 2 ^ up = 2 ^ (up - down) * 2 ^ down := by
      rw [← pow_add]
      congr 1
      omega
    rw [e]
    ring
  · show p * q * 2 ^ down = p * (q * 2 ^ (down - up)) * 2 ^ up
    have e : 2 ^ down = 2 ^ (down - up) * 2 ^ up := by
      rw [← pow_add]
      congr 1
      omega
    rw [e]
    ring

/-- The value of `unscaled k up down` is `k * 2 ^ down / 2 ^ up`. -/
theorem unscaled_value (k up down : Nat) :
    (unscaled k up down).num * 2 ^ up = k * (unscaled k up down).den * 2 ^ down := by
  unfold unscaled
  split_ifs with h
  · show k * 2 ^ up = k * 2 ^ (up - down) * 2 ^ down
    have e : 2 ^ up = 2 ^ (up - down) * 2 ^ down := by
      rw [← pow_add]
      congr 1
      omega
    rw [e]
    ring
  · show k * 2 ^ (down - up) * 2 ^ up = k * 1 * 2 ^ down
    have e : 2 ^ down = 2 ^ (down - up) * 2 ^ up := by
      rw [← pow_add]
      congr 1
      omega
    rw [e]
    ring

theorem scaled_succ (p q up down : Nat) :
    ((scaled p q up (down + 1)).1 * 2 = (scaled p q up down).1 ∧
      (scaled p q up (down + 1)).2 = (scaled p q up down).2) ∨
    ((scaled p q up (down + 1)).1 = (scaled p q up down).1 ∧
      (scaled p q up (down + 1)).2 = 2 * (scaled p q up down).2) := by
  unfold scaled
  by_cases h1 : up ≥ down + 1
  · left
    rw [if_pos h1, if_pos (by omega)]
    refine ⟨?_, rfl⟩
    show p * 2 ^ (up - (down + 1)) * 2 = p * 2 ^ (up - down)
    have e : up - down = (up - (down + 1)) + 1 := by omega
    rw [e, pow_succ]
    ring
  · right
    rw [if_neg h1]
    by_cases h2 : up ≥ down
    · rw [if_pos h2]
      have e : up = down := by omega
      subst e
      show p = p * 2 ^ (up - up) ∧ q * 2 ^ (up + 1 - up) = 2 * q
      rw [Nat.sub_self, Nat.add_sub_cancel_left]
      constructor
      · simp
      · ring
    · rw [if_neg h2]
      refine ⟨rfl, ?_⟩
      show q * 2 ^ (down + 1 - up) = 2 * (q * 2 ^ (down - up))
      have e : down + 1 - up = (down - up) + 1 := by omega
      rw [e, pow_succ]
      ring

theorem scaled_range (p q : Nat) (hp : 0 < p) (hq : 0 < q) :
    8388608 * (scaled p q (24 + bit_length q) (bit_length p)).2
      ≤ (scaled p q (24 + bit_length q) (bit_length p)).1 ∧
    (scaled p q (24 + bit_length q) (bit_length p)).1
      < 33554432 * (scaled p q (24 + bit_length q) (bit_length p)).2 := by
  obtain ⟨hp0, hp1, hp2⟩ := bit_length_spec p hp
  obtain ⟨hq0, hq1, hq2⟩ := bit_length_spec q hq
  generalize bit_length p = lp at *
  generalize bit_length q = lq at *
  unfold scaled
  by_cases h : 24 + lq ≥ lp
  · rw [if_pos h]
    show 8388608 * q ≤ p * 2 ^ (24 + lq - lp) ∧ p * 2 ^ (24 + lq - lp) < 33554432 * q
    have epos : 0 < 2 ^ (24 + lq - lp) := Nat.pos_pow_of_pos _ (by decide)
    constructor
    · have e : 2 ^ (lp - 1) * 2 ^ (24 + lq - lp) = 8388608 * 2 ^ lq := by
        rw [← pow_add, show (8388608 : Nat) = 2 ^ 23 by norm_num, ← pow_add]
        congr 1
        omega
      have : 2 ^ (lp - 1) * 2 ^ (24 + lq - lp) ≤ p * 2 ^ (24 + lq - lp) :=
        Nat.mul_le_mul_right _ hp1
      omega
    · have e : 2 ^ lp * 2 ^ (24 + lq - lp) = 33554432 * 2 ^ (lq - 1) := by
        rw [← pow_add, show (33554432 : Nat) = 2 ^ 25 by norm_num, ← pow_add]
        congr 1
        omega
      have : p * 2 ^ (24 + lq - lp) < 2 ^ lp * 2 ^ (24 + lq - lp) :=
        Nat.mul_lt_mul_of_pos_right hp2 epos
      omega
  · rw [if_neg h]
    show 8388608 * (q * 2 ^ (lp - (24 + lq))) ≤ p ∧ p < 33554432 * (q * 2 ^ (lp - (24 + lq)))
    have epos : 0 < 2 ^ (lp - (24 + lq)) := Nat.pos_pow_of_pos _ (by decide)
    constructor
    · have e : 8388608 * (2 ^ lq * 2 ^ (lp - (24 + lq))) = 2 ^ (lp - 1) := by
        rw [show (8388608 : Nat) = 2 ^ 23 by norm_num, ← pow_add, ← pow_add]
        congr 1
        omega
      have : q * 2 ^ (lp - (24 + lq)) ≤ 2 ^ lq * 2 ^ (lp - (24 + lq)) :=
        Nat.mul_le_mul_right _ (Nat.le_of_lt hq2)
      omega
    · have e : 33554432 * (2 ^ (lq - 1) * 2 ^ (lp - (24 + lq))) = 2 ^ lp := by
        rw [show (33554432 : Nat) = 2 ^ 25 by norm_num, ← pow_add, ← pow_add]
        congr 1
        omega
      have : 2 ^ (lq - 1) * 2 ^ (lp - (24 + lq)) ≤ q * 2 ^ (lp - (24 + lq)) :=
        Nat.mul_le_mul_right _ hq1
      omega

/-- The rounding to single precision is to a nearest number with a significand of 24 bits:
for a fraction `p / q` above zero, `Float32.round p q` is `k * 2 ^ down / 2 ^ up`
(`unscaled_value`) for exponents `up`, `down` that bring `p / q * 2 ^ up / 2 ^ down`
(`scaled_value`) into the range from `2 ^ 23` to `2 ^ 24`, and `k` is an integer within one
half of that number, the even one of the two when it lies half way. -/
theorem float32_round_nearest (p q : Nat) (hp : 0 < p) (hq : 0 < q) :
    ∃ k up down, Float32.round p q = unscaled k up down ∧
      0 < (scaled p q up down).2 ∧
      8388608 * (scaled p q up down).2 ≤ (scaled p q up down).1 ∧
      (scaled p q up down).1 < 16777216 * (scaled p q up down).2 ∧
      2 * (k * (scaled p q up down).2) ≤ 2 * (scaled p q up down).1 + (scaled p q up down).2 ∧
      2 * (scaled p q up down).1 ≤ 2 * (k * (scaled p q up down).2) + (scaled p q up down).2 ∧
      ((2 * (k * (scaled p q up down).2)
          = 2 * (scaled p q up down).1 + (scaled p q up down).2 ∨
        2 * (scaled p q up down).1
          = 2 * (k * (scaled p q up down).2) + (scaled p q up down).2) → k % 2 = 0) := by
  have hne : ¬ (p = 0 ∨ q = 0) := by omega
  obtain ⟨hlo, hhi⟩ := scaled_range p q hp hq
  have hd0 := scaled_den_pos p q (24 + bit_length q) (bit_length p) hq
  have hd1 := scaled_den_pos p q (24 + bit_length q) (bit_length p + 1) hq
  have hs := scaled_succ p q (24 + bit_length q) (bit_length p)
  unfold Float32.round
  rw [if_neg hne]
  simp only [show (2 : Nat) ^ 24 = 16777216 by norm_num]
  by_cases hbig : (scaled p q (24 + bit_length q) (bit_length p)).1
      ≥ 16777216 * (scaled p q (24 + bit_length q) (bit_length p)).2
  · rw [if_pos hbig]
    refine ⟨_, 24 + bit_length q, bit_length p + 1, rfl, hd1, ?_, ?_,
      round_half_even_nearest _ _ hd1⟩
    · omega
    · omega
  · rw [if_neg hbig]
    refine ⟨_, 24 + bit_length q, bit_length p, rfl, hd0, hlo, by omega,
      round_half_even_nearest _ _ hd0⟩

/-- A whole number below `2 ^ 24` is a `float`: the rounding keeps its value. -/
theorem float32_round_exact (n : Nat) (h : n < 16777216) :
    (Float32.round n 1).num = n * (Float32.round n 1).den := by
  by_cases h0 : n = 0
  · subst h0
    rfl
  · obtain ⟨k, up, down, hr, -, hlo, hhi, h1, h2, -⟩ :=
      float32_round_nearest n 1 (by omega) Nat.one_pos
    rw [hr]
    unfold scaled at hlo hhi h1 h2
    unfold unscaled
    by_cases hc : up ≥ down
    · rw [if_pos hc] at hlo hhi h1 h2
      rw [if_pos hc]
      simp only [Nat.mul_one] at h1 h2
      show k = n * 2 ^ (up - down)
      omega
    · rw [if_neg hc] at hlo hhi
      exfalso
      have e : down - up = (down - up - 1) + 1 := by omega
      have : 0 < 2 ^ (down - up - 1) := Nat.pos_pow_of_pos _ (by decide)
      simp only [Nat.one_mul] at hlo hhi
      rw [e, pow_succ] at hlo
      omega

/-- The receive chunk the source computes for a poll interval of 0.033333 s and a byte rate
of 100021 is 3334, where the product of the two decimal numbers is 3333.99...; for a poll
interval of 1 s and a byte rate of 16777217, which single precision cannot hold, it is
16777216. -/
theorem compute_receive_size_rounds :
    compute_receive_size 33333 100021 = 3334 ∧ 33333 * 100021 / 1000000 = 3333 ∧
    compute_receive_size 1000000 16777217 = 16777216 ∧
    Float32.round 100000 1000000 = { num := 13421773, den := 134217728 } := by
  decide

/-! ## Error codes of a flush and of a tick (C14, C12) -/

theorem write_to_disk_code (m : Mem) (s : DownloadStatus) (dest : List Char) :
    (write_to_disk m s dest).1 = none ∨ (write_to_disk m s dest).1 = some EU_error_abort ∨
      (write_to_disk m s dest).1 = some EU_success := by
  by_cases hc : s._header_is_complete = true
  · rw [write_to_disk_complete m s dest hc]
    exact Or.inr (Or.inr rfl)
  · have hc2 : s._header_is_complete = false := by simpa using hc
    unfold write_to_disk
    rcases hp : parse_header m s with ⟨r, s1⟩
    cases r with
    | none => exact Or.inl rfl
    | some c =>
      simp only []
      by_cases h1 : s1._header_is_complete = false
      · rw [if_pos h1]
        exact Or.inr (Or.inl rfl)
      · rw [if_neg h1]
        rcases parse_header_spec m s hc2 with ⟨_, h2, _⟩ | ⟨h2, _⟩
        · rw [hp] at h2
          exact absurd h2 h1
        · rw [hp] at h2
          simp only [Option.some.injEq] at h2
          subst h2
          simp [ErrorUtilCode.neg]

theorem write_to_ram_code (m : Mem) (s : DownloadStatus) (dest : List Char) :
    (write_to_ram m s dest).1 = none ∨ (write_to_ram m s dest).1 = some EU_error_abort ∨
      (write_to_ram m s dest).1 = some EU_success := by
  rw [write_to_ram_eq_write_to_disk]
  exact write_to_disk_code m s dest

set_option maxRecDepth 1000000 in
/-- C14 (evaluation of the code). The arena holds `HTTP/1.1 503 Error`, the end of the line
and the blank line, not parsed yet. `parse_header` returns the service-unavailable code, but
`write_to_disk` and `write_to_ram` return `EU_error_abort`, and so does the tick of `run`
that flushes this response at the end of the stream. The same holds for the codes 408 and
504. -/
theorem http_error_replaced_by_abort :
    read_mem (memory_with 64 (error_response '5' '0' '3')) 64 22 = error_response '5' '0' '3' ∧
    (parse_header (memory_with 64 (error_response '5' '0' '3'))
      (status_holding 64 22 0 0 false)).1 = some EU_error_http_service_unavailable ∧
    (write_to_disk (memory_with 64 (error_response '5' '0' '3'))
      (status_holding 64 22 0 0 false) []).1 = some EU_error_abort ∧
    (write_to_ram (memory_with 64 (error_response '5' '0' '3'))
      (status_holding 64 22 0 0 false) []).1 = some EU_error_abort ∧
    (parse_header (memory_with 64 (error_response '4' '0' '8'))
      (status_holding 64 22 0 0 false)).1 = some EU_error_http_server_timeout ∧
    (write_to_disk (memory_with 64 (error_response '4' '0' '8'))
      (status_holding 64 22 0 0 false) []).1 = some EU_error_abort ∧
    (parse_header (memory_with 64 (error_response '5' '0' '4'))
      (status_holding 64 22 0 0 false)).1 = some EU_error_http_gateway_timeout ∧
    (write_to_disk (memory_with 64 (error_response '5' '0' '4'))
      (status_holding 64 22 0 0 false) []).1 = some EU_error_abort ∧
    (run refused_engine (tick_at 1000000 (SockEvent.ready 100))).1 = some EU_ok ∧
    (run (run refused_engine (tick_at 1000000 (SockEvent.ready 100))).2
      (tick_at 1100000 (SockEvent.ready 100))).1 = some EU_error_abort := by
  decide

theorem write_to_disk_stream_open (d : Engine) (s : DownloadStatus) :
    StillOpen d (write_to_disk_stream d s).2.2 :=
  ⟨rfl, rfl, rfl, rfl⟩

theorem write_to_ram_stream_open (d : Engine) (s : DownloadStatus)
    (hs : d._current_status.isSome = true) :
    StillOpen d (write_to_ram_stream d s).2.2 := by
  unfold write_to_ram_stream
  cases d._dest_string_stream with
  | none => exact ⟨rfl, hs, rfl, rfl⟩
  | some dest => exact ⟨rfl, rfl, rfl, rfl⟩

theorem recompute_buffer_open (d : Engine) (s : DownloadStatus) (t0 : Int) (nb : Nat) :
    StillOpen d (recompute_buffer d s t0 nb).1 :=
  ⟨rfl, rfl, rfl, rfl⟩

theorem stillOpen_chain {a b c : Engine} (h1 : StillOpen a b) (h2 : StillOpen b c) :
    StillOpen a c :=
  ⟨h2.1.trans h1.1, h2.2.1, h2.2.2.1.trans h1.2.2.1, h2.2.2.2.trans h1.2.2.2⟩

theorem run_prepare_open (d : Engine) (s : DownloadStatus) (env : TickEnv)
    (hs : d._current_status.isSome = true) :
    StillOpen d (run_prepare d s env).engine := by
  have hw := write_to_disk_stream_open d s
  unfold run_prepare
  rcases hws : write_to_disk_stream d s with ⟨c, s1, d1⟩
  rw [hws] at hw
  simp only [] at hw
  by_cases h1 : d._recompute_buffer = true
  · rw [if_pos h1]
    by_cases h2 : s._bytes_in_buffer > 0
    · rw [if_pos h2]
      cases c with
      | none => exact hw
      | some c =>
        simp only []
        by_cases h3 : c.neg = true
        · rw [if_pos h3]; exact hw
        · rw [if_neg h3]
          exact stillOpen_chain hw (recompute_buffer_open d1 s1 env.t0 env.new_buffer)
    · rw [if_neg h2]
      exact recompute_buffer_open d s env.t0 env.new_buffer
  · rw [if_neg h1]
    by_cases h2 : s._bytes_in_buffer + d._receive_size > d._disk_buffer_size
    · rw [if_pos h2]
      cases c with
      | none => exact hw
      | some c =>
        simp only []
        by_cases h3 : c.neg = true
        · rw [if_pos h3]; exact hw
        · rw [if_neg h3]; exact hw
    · rw [if_neg h2]
      exact ⟨rfl, hs, rfl, rfl⟩

theorem run_to_ram_prepare_open (d : Engine) (s : DownloadStatus) (env : TickEnv)
    (hs : d._current_status.isSome = true) :
    StillOpen d (run_to_ram_prepare d s env).engine := by
  have hw := write_to_ram_stream_open d s hs
  unfold run_to_ram_prepare
  rcases hws : write_to_ram_stream d s with ⟨c, s1, d1⟩
  rw [hws] at hw
  simp only [] at hw
  by_cases h1 : d._recompute_buffer = true
  · rw [if_pos h1]
    by_cases h2 : s._bytes_in_buffer > 0
    · rw [if_pos h2]
      cases c with
      | none => exact hw
      | some c =>
        simp only []
        by_cases h3 : c.neg = true
        · rw [if_pos h3]; exact hw
        · rw [if_neg h3]
          exact stillOpen_chain hw (recompute_buffer_open d1 s1 env.t0 env.new_buffer)
    · rw [if_neg h2]
      exact recompute_buffer_open d s env.t0 env.new_buffer
  · rw [if_neg h1]
    by_cases h2 : s._bytes_in_buffer + d._receive_size > d._disk_buffer_size
    · rw [if_pos h2]
      cases c with
      | none => exact hw
      | some c =>
        simp only []
        by_cases h3 : c.neg = true
        · rw [if_pos h3]; exact hw
        · rw [if_neg h3]; exact hw
    · rw [if_neg h2]
      exact ⟨rfl, hs, rfl, rfl⟩

theorem after_receive_open (d : Engine) (r : RecvState) : StillOpen d (after_receive d r) :=
  ⟨rfl, rfl, rfl, rfl⟩

theorem run_receive_error_open (ret : ErrorUtilCode) (d : Engine) (s : DownloadStatus)
    (env : TickEnv) (hne : (run_receive ret d s env).1 ≠ some EU_success) :
    StillOpen d (run_receive ret d s env).2 := by
  revert hne
  unfold run_receive
  simp only []
  generalize receive_step d._receive_size (before_receive d s env) = r
  have ha := after_receive_open d r
  have hw := write_to_disk_stream_open (after_receive d r) r.status
  rcases hws : write_to_disk_stream (after_receive d r) r.status with ⟨c, s1, d1⟩
  rw [hws] at hw
  simp only [] at hw
  intro hne
  by_cases h1 : r.fret = EU_eof
  · rw [if_pos h1] at hne ⊢
    by_cases h2 : (after_receive d r)._got_any_data = true
    · rw [if_pos h2] at hne ⊢
      by_cases h3 : r.status._bytes_in_buffer > 0
      · rw [if_pos h3] at hne ⊢
        cases c with
        | none => exact stillOpen_chain ha hw
        | some c =>
          simp only [] at hne ⊢
          by_cases h4 : c.neg = true
          · rw [if_pos h4]; exact stillOpen_chain ha hw
          · rw [if_neg h4] at hne
            exact absurd rfl hne
      · rw [if_neg h3] at hne
        exact absurd rfl hne
    · rw [if_neg h2]; exact ha
  · rw [if_neg h1]
    by_cases h2 : r.fret = EU_network_no_data
    · rw [if_pos h2]; exact ha
    · rw [if_neg h2]
      by_cases h3 : r.fret.neg = true
      · rw [if_pos h3]; exact ha
      · rw [if_neg h3]; exact ⟨rfl, rfl, rfl, rfl⟩

theorem run_to_ram_receive_error_open (ret : ErrorUtilCode) (d : Engine) (s : DownloadStatus)
    (env : TickEnv) (hne : (run_to_ram_receive ret d s env).1 ≠ some EU_success) :
    StillOpen d (run_to_ram_receive ret d s env).2 := by
  revert hne
  unfold run_to_ram_receive
  simp only []
  generalize receive_step d._receive_size (before_receive d s env) = r
  have ha := after_receive_open d r
  have hw := write_to_ram_stream_open (after_receive d r) r.status rfl
  rcases hws : write_to_ram_stream (after_receive d r) r.status with ⟨c, s1, d1⟩
  rw [hws] at hw
  simp only [] at hw
  intro hne
  by_cases h1 : r.fret = EU_eof
  · rw [if_pos h1] at hne ⊢
    by_cases h2 : (after_receive d r)._got_any_data = true
    · rw [if_pos h2] at hne ⊢
      by_cases h3 : r.status._bytes_in_buffer > 0
      · rw [if_pos h3] at hne ⊢
        cases c with
        | none => exact stillOpen_chain ha hw
        | some c =>
          simp only [] at hne ⊢
          by_cases h4 : c.neg = true
          · rw [if_pos h4]; exact stillOpen_chain ha hw
          · rw [if_neg h4] at hne
            exact absurd rfl hne
      · rw [if_neg h3] at hne
        exact absurd rfl hne
    · rw [if_neg h2]; exact ha
  · rw [if_neg h1]
    by_cases h2 : r.fret = EU_network_no_data
    · rw [if_pos h2]; exact ha
    · rw [if_neg h2]
      by_cases h3 : r.fret.neg = true
      · rw [if_pos h3]; exact ha
      · rw [if_neg h3]; exact ⟨rfl, rfl, rfl, rfl⟩

theorem connect_to_server_initiated (d : Engine) (ev : ConnectEvent) :
    (connect_to_server d ev).2._initiated = d._initiated ∧
    (connect_to_server d ev).2._current_status = d._current_status ∧
    (connect_to_server d ev).2._dest_stream_open = d._dest_stream_open := by
  unfold connect_to_server
  split_ifs
  · exact ⟨rfl, rfl, rfl⟩
  · cases ev <;> exact ⟨rfl, rfl, rfl⟩

theorem run_to_disk_error_open (d : Engine) (s : DownloadStatus) (env : TickEnv)
    (hs : d._current_status.isSome = true)
    (hne : (run_to_disk d s env).1 ≠ some EU_success) :
    StillOpen d (run_to_disk d s env).2 := by
  revert hne
  unfold run_to_disk
  simp only []
  have h1 : StillOpen d (if d._tfirst = 0 then { d with _tfirst := env.t0 } else d) := by
    split_ifs
    · exact ⟨rfl, hs, rfl, rfl⟩
    · exact ⟨rfl, hs, rfl, rfl⟩
  generalize (if d._tfirst = 0 then { d with _tfirst := env.t0 } else d) = d1 at h1 ⊢
  intro hne
  by_cases ht : env.t0 - d1._tlast < (d1._frequency : Int)
  · rw [if_pos ht]; exact h1
  · rw [if_neg ht] at hne ⊢
    have h2 : StillOpen d { d1 with _tlast := env.t1 } := ⟨h1.1, h1.2.1, h1.2.2.1, h1.2.2.2⟩
    have h3 := run_prepare_open { d1 with _tlast := env.t1 } s env h2.2.1
    rcases hp : run_prepare { d1 with _tlast := env.t1 } s env with ⟨code, d3⟩ | ⟨ret, d3, s3⟩
    · rw [hp] at h3
      exact stillOpen_chain h2 h3
    · rw [hp] at h3 hne
      simp only [] at hne ⊢
      exact stillOpen_chain h2 (stillOpen_chain h3 (run_receive_error_open ret d3 s3 env hne))

theorem run_to_ram_error_open (d : Engine) (s : DownloadStatus) (env : TickEnv)
    (hs : d._current_status.isSome = true)
    (hne : (run_to_ram d s env).1 ≠ some EU_success) :
    StillOpen d (run_to_ram d s env).2 := by
  revert hne
  unfold run_to_ram
  simp only []
  have h1 : StillOpen d (if d._tfirst = 0 then { d with _tfirst := env.t0 } else d) := by
    split_ifs
    · exact ⟨rfl, hs, rfl, rfl⟩
    · exact ⟨rfl, hs, rfl, rfl⟩
  generalize (if d._tfirst = 0 then { d with _tfirst := env.t0 } else d) = d1 at h1 ⊢
  intro hne
  by_cases ht : env.t0 - d1._tlast < (d1._frequency : Int)
  · rw [if_pos ht]; exact h1
  · rw [if_neg ht] at hne ⊢
    have h2 : StillOpen d { d1 with _tlast := env.t1 } := ⟨h1.1, h1.2.1, h1.2.2.1, h1.2.2.2⟩
    have h3 := run_to_ram_prepare_open { d1 with _tlast := env.t1 } s env h2.2.1
    rcases hp : run_to_ram_prepare { d1 with _tlast := env.t1 } s env
      with ⟨code, d3⟩ | ⟨ret, d3, s3⟩
    · rw [hp] at h3
      exact stillOpen_chain h2 h3
    · rw [hp] at h3 hne
      simp only [] at hne ⊢
      exact stillOpen_chain h2 (stillOpen_chain h3 (run_to_ram_receive_error_open ret d3 s3 env hne))

/-- A tick of an initiated download that returns anything but `EU_success` (an error code in
particular) leaves the download open: the engine is still initiated and still holds its
status, the destination file was not closed, a connected socket was not closed, and the
next `initiate` is rejected with `EU_error_abort`. -/
theorem run_error_keeps_download (d : Engine) (s : DownloadStatus) (env : TickEnv)
    (hinit : d._initiated = true) (hs : d._current_status = some s)
    (hne : (run d env).1 ≠ some EU_success) :
    (run d env).2._initiated = true ∧
    (run d env).2._current_status.isSome = true ∧
    (run d env).2._dest_stream_open = d._dest_stream_open ∧
    (d._connected = true → (run d env).2._connected = true) ∧
    (∀ file first_byte last_byte total_bytes partial_content ienv,
      initiate (run d env).2 file first_byte last_byte total_bytes partial_content ienv
        = (EU_error_abort, (run d env).2)) ∧
    (∀ file ienv, initiate_ram (run d env).2 file ienv = (EU_error_abort, (run d env).2)) := by
  have key : (run d env).2._initiated = true ∧
      (run d env).2._current_status.isSome = true ∧
      (run d env).2._dest_stream_open = d._dest_stream_open ∧
      (d._connected = true → (run d env).2._connected = true) := by
    revert hne
    unfold run
    rw [if_neg (by simp [hinit]), hs]
    simp only []
    have hsome : d._current_status.isSome = true := by rw [hs]; rfl
    by_cases hconn : d._connected = true
    · rw [connect_to_server_connected d env.connect hconn]
      simp only [ErrorUtilCode.neg, Bool.false_eq_true, if_false]
      intro hne
      by_cases hram : d._download_to_ram = true
      · rw [if_pos hram] at hne ⊢
        have h := run_to_ram_error_open d s env hsome hne
        exact ⟨h.1.trans hinit, h.2.1, h.2.2.2, fun _ => h.2.2.1.trans hconn⟩
      · rw [if_neg hram] at hne ⊢
        have h := run_to_disk_error_open d s env hsome hne
        exact ⟨h.1.trans hinit, h.2.1, h.2.2.2, fun _ => h.2.2.1.trans hconn⟩
    · have hc := connect_to_server_initiated d env.connect
      rcases hcs : connect_to_server d env.connect with ⟨cr, d1⟩
      rw [hcs] at hc
      simp only [] at hc ⊢
      intro hne
      have hsome1 : d1._current_status.isSome = true := by rw [hc.2.1]; exact hsome
      by_cases hneg : cr.neg = true
      · rw [if_pos hneg]
        exact ⟨hc.1.trans hinit, hsome1, hc.2.2, fun h => absurd h hconn⟩
      · rw [if_neg hneg] at hne ⊢
        by_cases hram : d1._download_to_ram = true
        · rw [if_pos hram] at hne ⊢
          have h := run_to_ram_error_open d1 s env hsome1 hne
          exact ⟨h.1.trans (hc.1.trans hinit), h.2.1, h.2.2.2.trans hc.2.2,
            fun h => absurd h hconn⟩
        · rw [if_neg hram] at hne ⊢
          have h := run_to_disk_error_open d1 s env hsome1 hne
          exact ⟨h.1.trans (hc.1.trans hinit), h.2.1, h.2.2.2.trans hc.2.2,
            fun h => absurd h hconn⟩
  refine ⟨key.1, key.2.1, key.2.2.1, key.2.2.2, ?_, ?_⟩
  · intro file fb lb tb pc ienv
    unfold initiate
    rw [if_pos key.1]
  · intro file ienv
    unfold initiate_ram
    rw [if_pos key.1]

set_option maxRecDepth 1000000 in
/-- C12 (evaluation of the code). A tick in which `recv()` fails returns the network error
and a tick whose final flush meets a `503` response returns `EU_error_abort`; after either
the engine is still initiated, still connected, still holds its Download Status and its
destination is still open, and the next `initiate` is rejected with `EU_error_abort`. -/
theorem error_tick_skips_cleanup :
    delivery_engine._initiated = true ∧
    (run delivery_engine (tick_at 1000000 (SockEvent.recv_error 7))).1
      = some (EU_error_network 7) ∧
    (run delivery_engine (tick_at 1000000 (SockEvent.recv_error 7))).2._initiated = true ∧
    (run delivery_engine (tick_at 1000000 (SockEvent.recv_error 7))).2._connected = true ∧
    (run delivery_engine (tick_at 1000000 (SockEvent.recv_error 7))).2._dest_stream_open
      = true ∧
    (run delivery_engine
      (tick_at 1000000 (SockEvent.recv_error 7))).2._current_status.isSome = true ∧
    (initiate_file (run delivery_engine (tick_at 1000000 (SockEvent.recv_error 7))).2
      "/next".toList (smooth_init 100)).1 = EU_error_abort ∧
    (run (run refused_engine (tick_at 1000000 (SockEvent.ready 100))).2
      (tick_at 1100000 (SockEvent.ready 100))).1 = some EU_error_abort ∧
    (run (run refused_engine (tick_at 1000000 (SockEvent.ready 100))).2
      (tick_at 1100000 (SockEvent.ready 100))).2._initiated = true ∧
    (run (run refused_engine (tick_at 1000000 (SockEvent.ready 100))).2
      (tick_at 1100000 (SockEvent.ready 100))).2._connected = true ∧
    (run (run refused_engine (tick_at 1000000 (SockEvent.ready 100))).2
      (tick_at 1100000 (SockEvent.ready 100))).2._dest_stream_open = true ∧
    (initiate_file (run (run refused_engine (tick_at 1000000 (SockEvent.ready 100))).2
      (tick_at 1100000 (SockEvent.ready 100))).2 "/next".toList (smooth_init 100)).1
      = EU_error_abort := by
  decide

/-! ## Sending the request (C20) -/

theorem safe_send_loop_done (data : List Char) (fuel bytes : Nat) (sent : List Char)
    (events : List SendEvent) (h : data.length ≤ bytes) :
    safe_send_loop data fuel bytes sent events = (EU_success, sent) := by
  cases fuel with
  | zero => rfl
  | succ k =>
    unfold safe_send_loop
    rw [if_pos (by omega)]

/-- The loop of `safe_send` ends before `fuel = length - bytes` iterations are used up: more
fuel gives the same result. -/
theorem safe_send_loop_fuel (data : List Char) (fuel extra bytes : Nat) (sent : List Char)
    (events : List SendEvent) (h : data.length ≤ bytes + fuel) :
    safe_send_loop data (fuel + extra) bytes sent events
      = safe_send_loop data fuel bytes sent events := by
  induction fuel generalizing bytes sent events with
  | zero =>
    rw [safe_send_loop_done data (0 + extra) bytes sent events (by omega),
      safe_send_loop_done data 0 bytes sent events (by omega)]
  | succ k ih =>
    have e : k + 1 + extra = (k + extra) + 1 := by omega
    rw [e]
    unfold safe_send_loop
    by_cases hb : bytes < data.length
    · rw [if_neg (not_not.mpr hb), if_neg (not_not.mpr hb)]
      cases events.headD SendEvent.select_timeout with
      | select_timeout => rfl
      | select_error n => rfl
      | send_error n => rfl
      | accepted n =>
        simp only []
        by_cases hr : min n data.length > 0
        · rw [if_pos hr, if_pos hr]
          exact ih _ _ _ (by omega)
        · rw [if_neg hr, if_neg hr]
    · rw [if_pos hb, if_pos hb]

/-- When the first `send()` takes the whole request, `safe_send` succeeds and the socket has
taken exactly the request. -/
theorem safe_send_all_at_once (sent data : List Char) (n : Nat) (rest : List SendEvent)
    (hd : data ≠ []) (hn : data.length ≤ n) :
    safe_send sent data (SendEvent.accepted n :: rest) = (EU_success, sent ++ data) := by
  have hlen : 0 < data.length := List.length_pos.mpr hd
  unfold safe_send
  rw [if_neg (by omega)]
  obtain ⟨k, hk⟩ : ∃ k, data.length = k + 1 := ⟨data.length - 1, by omega⟩
  rw [hk]
  unfold safe_send_loop
  rw [if_neg (not_not.mpr (by omega))]
  simp only [List.headD_cons, List.tail_cons]
  have hmin : min n data.length = data.length := by omega
  rw [hmin, if_pos hlen, List.take_length]
  exact safe_send_loop_done data k _ _ rest (by omega)

set_option maxRecDepth 1000000 in
/-- C20 (evaluation of the code). The request is 43 bytes long. When the first `send()`
takes 4 of the 43 bytes offered, the second call offers the request from its start again;
the socket takes all 43 bytes and `safe_send` returns success, after the socket has taken
`GET ` followed by the whole request. When the first call takes 40 bytes and the second 3,
the socket has taken 43 bytes that end in `GET`, not in the end of the request. -/
theorem partial_send_restarts :
    short_request.length = 43 ∧
    safe_send [] short_request [SendEvent.accepted 4, SendEvent.accepted 43]
      = (EU_success, "GET ".toList ++ short_request) ∧
    "GET ".toList ++ short_request ≠ short_request ∧
    safe_send [] short_request [SendEvent.accepted 40, SendEvent.accepted 3]
      = (EU_success, short_request.take 40 ++ "GET".toList) ∧
    short_request.take 40 ++ "GET".toList ≠ short_request := by
  decide

/-! ## The end of the stream (C13) -/

theorem write_to_disk_nonneg (m : Mem) (s : DownloadStatus) (dest : List Char)
    (c : ErrorUtilCode) (h : (write_to_disk m s dest).1 = some c) (hn : c.neg = false) :
    c = EU_success ∧
    (write_to_disk m s dest).2.2
      = dest ++ read_mem m (parse_header m s).2._start (parse_header m s).2._bytes_in_buffer := by
  revert h
  unfold write_to_disk
  rcases hp : parse_header m s with ⟨r, s1⟩
  cases r with
  | none => intro h; cases h
  | some pr =>
    simp only []
    by_cases h1 : s1._header_is_complete = false
    · rw [if_pos h1]
      intro h
      simp only [Option.some.injEq] at h
      subst h
      cases hn
    · rw [if_neg h1]
      by_cases h2 : pr.neg = true
      · rw [if_pos h2]
        intro h
        simp only [Option.some.injEq] at h
        subst h
        rw [h2] at hn
        cases hn
      · rw [if_neg h2]
        intro h
        simp only [Option.some.injEq] at h
        refine ⟨h.symm, ?_⟩
        by_cases h3 : s1._bytes_in_buffer > 0
        · rw [if_pos h3]
        · rw [if_neg h3]
          have h0 : s1._bytes_in_buffer = 0 := by omega
          rw [h0, read_mem_zero, List.append_nil]

theorem run_receive_eof (ret : ErrorUtilCode) (d : Engine) (s : DownloadStatus) (env : TickEnv)
    (hinit : d._initiated = true)
    (heof : (tick_receive d s env).fret = EU_eof)
    (hgot : (tick_receive d s env).got_any_data = true)
    (hflush : 0 < (tick_receive d s env).status._bytes_in_buffer →
      ∃ c, (write_to_disk (tick_receive d s env).memory (tick_receive d s env).status
        d._dest_stream).1 = some c ∧ c.neg = false) :
    (run_receive ret d s env).1 = some EU_success ∧
    (run_receive ret d s env).2._initiated = false ∧
    (run_receive ret d s env).2._current_status = none ∧
    (run_receive ret d s env).2._connected = false ∧
    (run_receive ret d s env).2._dest_stream_open = false ∧
    (run_receive ret d s env).2._dest_stream
      = d._dest_stream ++
        remaining_bytes (tick_receive d s env).memory (tick_receive d s env).status := by
  unfold run_receive
  unfold tick_receive at heof hgot hflush ⊢
  simp only []
  generalize receive_step d._receive_size (before_receive d s env) = r at heof hgot hflush ⊢
  rw [if_pos heof, if_pos (show (after_receive d r)._got_any_data = true from hgot)]
  unfold remaining_bytes
  by_cases hb : r.status._bytes_in_buffer > 0
  · rw [if_pos hb, if_pos hb]
    obtain ⟨c, hc, hneg⟩ := hflush hb
    have hw := write_to_disk_nonneg r.memory r.status d._dest_stream c hc hneg
    unfold write_to_disk_stream
    rcases hwd : write_to_disk (after_receive d r).memory r.status (after_receive d r)._dest_stream
      with ⟨c2, s2, dest2⟩
    have hwd2 : write_to_disk r.memory r.status d._dest_stream = (c2, s2, dest2) := hwd
    rw [hwd2] at hc hw
    simp only [] at hc hw
    subst hc
    simp only []
    rw [if_neg (by rw [hneg]; simp)]
    unfold cleanup
    simp only [after_receive, hinit, Bool.true_eq_false, if_false, disconnect_from_server]
    exact ⟨trivial, trivial, trivial, trivial, trivial, hw.2⟩
  · rw [if_neg hb, if_neg hb]
    unfold cleanup
    simp only [after_receive, hinit, Bool.true_eq_false, if_false, disconnect_from_server,
      List.append_nil]
    exact ⟨trivial, trivial, trivial, trivial, trivial, trivial⟩

theorem write_to_ram_nonneg (m : Mem) (s : DownloadStatus) (dest : List Char)
    (c : ErrorUtilCode) (h : (write_to_ram m s dest).1 = some c) (hn : c.neg = false) :
    c = EU_success ∧
    (write_to_ram m s dest).2.2
      = dest ++ read_mem m (parse_header m s).2._start (parse_header m s).2._bytes_in_buffer := by
  rw [write_to_ram_eq_write_to_disk] at h ⊢
  exact write_to_disk_nonneg m s dest c h hn

theorem run_to_ram_receive_eof (ret : ErrorUtilCode) (d : Engine) (s : DownloadStatus)
    (env : TickEnv) (hinit : d._initiated = true)
    (heof : (tick_receive d s env).fret = EU_eof)
    (hgot : (tick_receive d s env).got_any_data = true)
    (hflush : 0 < (tick_receive d s env).status._bytes_in_buffer →
      ∃ dest c, d._dest_string_stream = some dest ∧
        (write_to_ram (tick_receive d s env).memory (tick_receive d s env).status
          dest).1 = some c ∧ c.neg = false) :
    (run_to_ram_receive ret d s env).1 = some EU_success ∧
    (run_to_ram_receive ret d s env).2._initiated = false ∧
    (run_to_ram_receive ret d s env).2._current_status = none ∧
    (run_to_ram_receive ret d s env).2._connected = false ∧
    (run_to_ram_receive ret d s env).2._dest_stream_open = false ∧
    (run_to_ram_receive ret d s env).2._dest_string_stream
      = d._dest_string_stream.map (fun dest => dest ++
        remaining_bytes (tick_receive d s env).memory (tick_receive d s env).status) := by
  unfold run_to_ram_receive
  unfold tick_receive at heof hgot hflush ⊢
  simp only []
  generalize receive_step d._receive_size (before_receive d s env) = r at heof hgot hflush ⊢
  rw [if_pos heof, if_pos (show (after_receive d r)._got_any_data = true from hgot)]
  unfold remaining_bytes
  by_cases hb : r.status._bytes_in_buffer > 0
  · rw [if_pos hb, if_pos hb]
    obtain ⟨dest, c, hdest, hc, hneg⟩ := hflush hb
    have hw := write_to_ram_nonneg r.memory r.status dest c hc hneg
    unfold write_to_ram_stream
    have hdest2 : (after_receive d r)._dest_string_stream = some dest := hdest
    rw [hdest2]
    simp only []
    rcases hwd : write_to_ram (after_receive d r).memory r.status dest with ⟨c2, s2, dest2⟩
    have hwd2 : write_to_ram r.memory r.status dest = (c2, s2, dest2) := hwd
    rw [hwd2] at hc hw
    simp only [] at hc hw
    subst hc
    simp only []
    rw [if_neg (by rw [hneg]; simp)]
    unfold cleanup
    simp only [after_receive, hinit, Bool.true_eq_false, if_false, disconnect_from_server]
    rw [hdest]
    exact ⟨trivial, trivial, trivial, trivial, trivial, congrArg some hw.2⟩
  · rw [if_neg hb, if_neg hb]
    unfold cleanup
    simp only [after_receive, hinit, Bool.true_eq_false, if_false, disconnect_from_server,
      List.append_nil]
    refine ⟨trivial, trivial, trivial, trivial, trivial, ?_⟩
    cases d._dest_string_stream <;> rfl

theorem run_to_disk_eligible (d : Engine) (s : DownloadStatus) (env : TickEnv)
    (h : ¬ (env.t0 - d._tlast < (d._frequency : Int))) :
    run_to_disk d s env =
      match run_prepare (tick_start d env) s env with
      | Prepared.returned code d3 => (code, d3)
      | Prepared.go_on ret d3 status3 => run_receive ret d3 status3 env := by
  unfold run_to_disk tick_start
  by_cases ht : d._tfirst = 0
  · simp only [ht, if_true]
    rw [if_neg h]
  · simp only [ht, if_false]
    rw [if_neg h]

theorem run_to_ram_eligible (d : Engine) (s : DownloadStatus) (env : TickEnv)
    (h : ¬ (env.t0 - d._tlast < (d._frequency : Int))) :
    run_to_ram d s env =
      match run_to_ram_prepare (tick_start d env) s env with
      | Prepared.returned code d3 => (code, d3)
      | Prepared.go_on ret d3 status3 => run_to_ram_receive ret d3 status3 env := by
  unfold run_to_ram tick_start
  by_cases ht : d._tfirst = 0
  · simp only [ht, if_true]
    rw [if_neg h]
  · simp only [ht, if_false]
    rw [if_neg h]

theorem connect_to_server_clock (d : Engine) (ev : ConnectEvent) :
    (connect_to_server d ev).2._tlast = d._tlast ∧
    (connect_to_server d ev).2._frequency = d._frequency ∧
    (connect_to_server d ev).2._download_to_ram = d._download_to_ram := by
  unfold connect_to_server
  split_ifs
  · exact ⟨rfl, rfl, rfl⟩
  · cases ev <;> exact ⟨rfl, rfl, rfl⟩

theorem tick_start_open (d : Engine) (env : TickEnv) (hs : d._current_status.isSome = true) :
    StillOpen d (tick_start d env) := by
  unfold tick_start
  split_ifs
  · exact ⟨rfl, hs, rfl, rfl⟩
  · exact ⟨rfl, hs, rfl, rfl⟩

/-- A tick of `run` that passes the dial and the throttle is the recompute test followed by
the receive attempts. -/
theorem run_eligible (d : Engine) (s : DownloadStatus) (env : TickEnv)
    (hinit : d._initiated = true) (hs : d._current_status = some s)
    (hdial : (connect_to_server d env.connect).1.neg = false)
    (helig : ¬ (env.t0 - d._tlast < (d._frequency : Int))) :
    run d env =
      if d._download_to_ram = true then
        match run_to_ram_prepare (tick_start (connect_to_server d env.connect).2 env) s env with
        | Prepared.returned code d3 => (code, d3)
        | Prepared.go_on ret d3 status3 => run_to_ram_receive ret d3 status3 env
      else
        match run_prepare (tick_start (connect_to_server d env.connect).2 env) s env with
        | Prepared.returned code d3 => (code, d3)
        | Prepared.go_on ret d3 status3 => run_receive ret d3 status3 env := by
  have hc := connect_to_server_clock d env.connect
  unfold run
  rw [if_neg (by simp [hinit]), hs]
  simp only []
  rcases hcs : connect_to_server d env.connect with ⟨cr, d0⟩
  rw [hcs] at hc hdial
  simp only [] at hc hdial ⊢
  rw [if_neg (by simp [hdial]), hc.2.2]
  have h0 : ¬ (env.t0 - d0._tlast < (d0._frequency : Int)) := by
    rw [hc.1, hc.2.1]; exact helig
  rw [run_to_ram_eligible d0 s env h0, run_to_disk_eligible d0 s env h0]

/-- C13 (counterexample). The server closes the connection without sending a byte: in an
eligible tick of the initiated download the receive attempt reports the end of the stream
and there is nothing to flush, yet `run` returns `EU_ok`, not `EU_success`, and the download
stays in progress: the engine is still initiated, connected, holds its status and its
destination is open. -/
theorem eof_without_data_keeps_download :
    silent_engine._initiated = true ∧
    ¬ ((tick_at 1000000 (SockEvent.ready 100)).t0 - silent_engine._tlast
      < (silent_engine._frequency : Int)) ∧
    (tick_receive (tick_start silent_engine (tick_at 1000000 (SockEvent.ready 100)))
      (DownloadStatus.new 1000 0 0 0 false) (tick_at 1000000 (SockEvent.ready 100))).fret
      = EU_eof ∧
    (tick_receive (tick_start silent_engine (tick_at 1000000 (SockEvent.ready 100)))
      (DownloadStatus.new 1000 0 0 0 false)
      (tick_at 1000000 (SockEvent.ready 100))).status._bytes_in_buffer = 0 ∧
    (run silent_engine (tick_at 1000000 (SockEvent.ready 100))).1 = some EU_ok ∧
    (run silent_engine (tick_at 1000000 (SockEvent.ready 100))).1 ≠ some EU_success ∧
    (run silent_engine (tick_at 1000000 (SockEvent.ready 100))).2._initiated = true ∧
    (run silent_engine (tick_at 1000000 (SockEvent.ready 100))).2._connected = true ∧
    (run silent_engine (tick_at 1000000 (SockEvent.ready 100))).2._dest_stream_open = true ∧
    (run silent_engine
      (tick_at 1000000 (SockEvent.ready 100))).2._current_status.isSome = true := by
  decide

/-- C13 (amended). End-of-stream finishes the download once data was received: for every
eligible tick of an initiated download that reaches the receive attempts, in which a receive
attempt reports the end of the stream, `_got_any_data` is set after the attempts (data was
received in this tick or in an earlier one) and the final flush does not fail, `run` flushes
the bytes that remain in the arena to the destination, closes the socket and the
destination, releases the status, returns `EU_success` and leaves the engine not initiated.
The first part is the disk destination, the second the memory destination. -/
theorem end_of_stream_finishes :
    (∀ (d : Engine) (s : DownloadStatus) (env : TickEnv) (ret : ErrorUtilCode) (d1 : Engine)
      (s1 : DownloadStatus),
      d._initiated = true → d._current_status = some s → d._download_to_ram = false →
      (connect_to_server d env.connect).1.neg = false →
      ¬ (env.t0 - d._tlast < (d._frequency : Int)) →
      run_prepare (tick_start (connect_to_server d env.connect).2 env) s env
        = Prepared.go_on ret d1 s1 →
      (tick_receive d1 s1 env).fret = EU_eof →
      (tick_receive d1 s1 env).got_any_data = true →
      (0 < (tick_receive d1 s1 env).status._bytes_in_buffer →
        ∃ c, (write_to_disk (tick_receive d1 s1 env).memory (tick_receive d1 s1 env).status
          d1._dest_stream).1 = some c ∧ c.neg = false) →
      (run d env).1 = some EU_success ∧
      (run d env).2._initiated = false ∧
      (run d env).2._current_status = none ∧
      (run d env).2._connected = false ∧
      (run d env).2._dest_stream_open = false ∧
      (run d env).2._dest_stream
        = d1._dest_stream ++
          remaining_bytes (tick_receive d1 s1 env).memory (tick_receive d1 s1 env).status) ∧
    (∀ (d : Engine) (s : DownloadStatus) (env : TickEnv) (ret : ErrorUtilCode) (d1 : Engine)
      (s1 : DownloadStatus),
      d._initiated = true → d._current_status = some s → d._download_to_ram = true →
      (connect_to_server d env.connect).1.neg = false →
      ¬ (env.t0 - d._tlast < (d._frequency : Int)) →
      run_to_ram_prepare (tick_start (connect_to_server d env.connect).2 env) s env
        = Prepared.go_on ret d1 s1 →
      (tick_receive d1 s1 env).fret = EU_eof →
      (tick_receive d1 s1 env).got_any_data = true →
      (0 < (tick_receive d1 s1 env).status._bytes_in_buffer →
        ∃ dest c, d1._dest_string_stream = some dest ∧
          (write_to_ram (tick_receive d1 s1 env).memory (tick_receive d1 s1 env).status
            dest).1 = some c ∧ c.neg = false) →
      (run d env).1 = some EU_success ∧
      (run d env).2._initiated = false ∧
      (run d env).2._current_status = none ∧
      (run d env).2._connected = false ∧
      (run d env).2._dest_stream_open = false ∧
      (run d env).2._dest_string_stream
        = d1._dest_string_stream.map (fun dest => dest ++
          remaining_bytes (tick_receive d1 s1 env).memory
            (tick_receive d1 s1 env).status)) := by
  constructor
  · intro d s env ret d1 s1 hinit hs hdisk hdial helig hprep heof hgot hflush
    have hsome : d._current_status.isSome = true := by rw [hs]; rfl
    have hc := connect_to_server_initiated d env.connect
    have h0 := tick_start_open (connect_to_server d env.connect).2 env
      (by rw [hc.2.1]; exact hsome)
    have h1 := run_prepare_open (tick_start (connect_to_server d env.connect).2 env) s env
      h0.2.1
    rw [hprep] at h1
    have hi1 : d1._initiated = true := (h1.1.trans (h0.1.trans hc.1)).trans hinit
    rw [run_eligible d s env hinit hs hdial helig, if_neg (by simp [hdisk]), hprep]
    exact run_receive_eof ret d1 s1 env hi1 heof hgot hflush
  · intro d s env ret d1 s1 hinit hs hram hdial helig hprep heof hgot hflush
    have hsome : d._current_status.isSome = true := by rw [hs]; rfl
    have hc := connect_to_server_initiated d env.connect
    have h0 := tick_start_open (connect_to_server d env.connect).2 env
      (by rw [hc.2.1]; exact hsome)
    have h1 := run_to_ram_prepare_open (tick_start (connect_to_server d env.connect).2 env) s
      env h0.2.1
    rw [hprep] at h1
    have hi1 : d1._initiated = true := (h1.1.trans (h0.1.trans hc.1)).trans hinit
    rw [run_eligible d s env hinit hs hdial helig, if_pos hram, hprep]
    exact run_to_ram_receive_eof ret d1 s1 env hi1 heof hgot hflush

set_option maxRecDepth 1000000 in
/-- C13 (amended) at a concrete input: 500 payload bytes wait in the arena when the server
closes the connection; the tick returns `EU_success` and the engine is idle again. -/
theorem end_of_stream_finishes_witness :
    (tick_receive (tick_start (final_engine false) (tick_at 6000000 (SockEvent.ready 100)))
      (status_holding_complete) (tick_at 6000000 (SockEvent.ready 100))).got_any_data = true ∧
    (run (final_engine false) (tick_at 6000000 (SockEvent.ready 100))).1 = some EU_success ∧
    (run (final_engine false) (tick_at 6000000 (SockEvent.ready 100))).2._initiated = false :=
  ⟨rfl,
   (end_of_stream_finishes.1 (final_engine false) status_holding_complete
      (tick_at 6000000 (SockEvent.ready 100)) EU_ok
      (tick_start (final_engine false) (tick_at 6000000 (SockEvent.ready 100)))
      status_holding_complete rfl rfl rfl rfl (by decide) rfl rfl rfl
      (fun _ => ⟨EU_success, by decide, rfl⟩)).1,
   (end_of_stream_finishes.1 (final_engine false) status_holding_complete
      (tick_at 6000000 (SockEvent.ready 100)) EU_ok
      (tick_start (final_engine false) (tick_at 6000000 (SockEvent.ready 100)))
      status_holding_complete rfl rfl rfl rfl (by decide) rfl rfl rfl
      (fun _ => ⟨EU_success, by decide, rfl⟩)).2.1⟩

/-! ## The sizes of the receive requests (C16) -/

theorem receive_loop_traced_fst (repeat_ remain k i : Nat) (r : RecvState) :
    (receive_loop_traced repeat_ remain k i r).1 = receive_loop repeat_ remain k i r := by
  induction k generalizing i r with
  | zero => rfl
  | succ k ih =>
    unfold receive_loop_traced receive_loop
    simp only []
    split_ifs <;> first | rfl | exact ih _ _

theorem receive_step_traced_fst (rs : Nat) (r : RecvState) :
    (receive_step_traced rs r).1 = receive_step rs r := by
  unfold receive_step_traced receive_step
  split_ifs
  · exact receive_loop_traced_fst _ _ _ _ _
  · rfl

theorem receive_loop_traced_le (repeat_ remain k i : Nat) (r : RecvState)
    (hrem : remain ≤ MAX_RECEIVE_BYTES) :
    ∀ a ∈ (receive_loop_traced repeat_ remain k i r).2, a.1 ≤ MAX_RECEIVE_BYTES := by
  induction k generalizing i r with
  | zero => intro a ha; cases ha
  | succ k ih =>
    unfold receive_loop_traced
    simp only []
    have hcalls : ∀ (c : ErrorUtilCode), ∀ a ∈ (if i < repeat_ then [(MAX_RECEIVE_BYTES, c)]
        else if remain > 0 then [(remain, c)] else []), a.1 ≤ MAX_RECEIVE_BYTES := by
      intro c a ha
      split_ifs at ha
      · simp only [List.mem_singleton] at ha; subst ha; exact le_refl _
      · simp only [List.mem_singleton] at ha; subst ha; exact hrem
      · cases ha
    generalize (if i < repeat_ then r.receive MAX_RECEIVE_BYTES
      else if remain > 0 then r.receive remain else r) = r1
    by_cases h1 : r1.fret = EU_eof ∨ r1.fret.neg = true
    · rw [if_pos h1]
      exact hcalls _
    · rw [if_neg h1]
      by_cases h2 : r1.fret = EU_success
      · rw [if_pos h2]
        intro a ha
        simp only [List.mem_append] at ha
        rcases ha with ha | ha
        · exact hcalls _ a ha
        · exact ih _ _ a ha
      · rw [if_neg h2]
        intro a ha
        simp only [List.mem_append] at ha
        rcases ha with ha | ha
        · exact hcalls _ a ha
        · exact ih _ _ a ha

theorem receive_loop_traced_full (repeat_ remain k i : Nat) (r : RecvState)
    (hk : i + k = repeat_ + 1) (hi : i ≤ repeat_)
    (hok : ∀ a ∈ (receive_loop_traced repeat_ remain k i r).2,
      a.2 ≠ EU_eof ∧ a.2.neg = false) :
    (receive_loop_traced repeat_ remain k i r).2.map Prod.fst
      = List.replicate (repeat_ - i) MAX_RECEIVE_BYTES
        ++ (if remain > 0 then [remain] else []) := by
  induction k generalizing i r with
  | zero => omega
  | succ k ih =>
    revert hok
    unfold receive_loop_traced
    simp only []
    by_cases hlt : i < repeat_
    · rw [if_pos hlt, if_pos hlt]
      intro hok
      have e : repeat_ - i = (repeat_ - (i + 1)) + 1 := by omega
      rw [e, List.replicate_succ, List.cons_append]
      by_cases h1 : (r.receive MAX_RECEIVE_BYTES).fret = EU_eof
          ∨ (r.receive MAX_RECEIVE_BYTES).fret.neg = true
      · rw [if_pos h1] at hok
        have h2 := hok (MAX_RECEIVE_BYTES, (r.receive MAX_RECEIVE_BYTES).fret)
          (List.mem_singleton.mpr rfl)
        rcases h1 with h1 | h1
        · exact absurd h1 h2.1
        · rw [h2.2] at h1; cases h1
      · rw [if_neg h1] at hok ⊢
        by_cases h3 : (r.receive MAX_RECEIVE_BYTES).fret = EU_success
        · rw [if_pos h3] at hok ⊢
          simp only [List.map_append, List.map_cons, List.map_nil, List.singleton_append]
          rw [ih (i + 1) _ (by omega) (by omega)
            (fun a ha => hok a (List.mem_append.mpr (Or.inr ha)))]
          rfl
        · rw [if_neg h3] at hok ⊢
          simp only [List.map_append, List.map_cons, List.map_nil, List.singleton_append]
          rw [ih (i + 1) _ (by omega) (by omega)
            (fun a ha => hok a (List.mem_append.mpr (Or.inr ha)))]
          rfl
    · rw [if_neg hlt, if_neg hlt]
      have hk0 : k = 0 := by omega
      subst hk0
      have e : repeat_ - i = 0 := by omega
      rw [e, List.replicate_zero, List.nil_append]
      intro _
      have hz : ∀ (j : Nat) (x : RecvState), receive_loop_traced repeat_ remain 0 j x = (x, []) :=
        fun _ _ => rfl
      by_cases hr : remain > 0
      · simp only [hr, if_true, hz]
        split_ifs <;> rfl
      · simp only [hr, if_false, hz]
        split_ifs <;> rfl

theorem full_requests_sum (rs : Nat) : (full_requests rs).sum = rs := by
  unfold full_requests
  rw [List.sum_append, List.sum_replicate, smul_eq_mul]
  have h := Nat.div_add_mod rs MAX_RECEIVE_BYTES
  by_cases hr : rs % MAX_RECEIVE_BYTES > 0
  · rw [if_pos hr, List.sum_singleton]
    rw [Nat.mul_comm]; exact h
  · rw [if_neg hr, List.sum_nil]
    have h0 : rs % MAX_RECEIVE_BYTES = 0 := by omega
    rw [h0] at h
    rw [Nat.mul_comm]; exact h

/-- C16. Receive chunking: the receive attempts of a tick (`receive_step`, traced) ask
`fast_receive` for at most `MAX_RECEIVE_BYTES = 16384` bytes per call; when the receive size
is at most 16384 there is exactly one call, of the receive size; when it is larger and no
call returns the end of the stream or an error, the calls are `receive_size / 16384` requests
of 16384 bytes followed by one of `receive_size % 16384` bytes if that is positive, and the
requested sizes sum to the receive size. -/
theorem receive_chunking (receive_size : Nat) (r : RecvState) :
    MAX_RECEIVE_BYTES = 16384 ∧
    (receive_step_traced receive_size r).1 = receive_step receive_size r ∧
    (∀ a ∈ (receive_step_traced receive_size r).2, a.1 ≤ 16384) ∧
    (receive_size ≤ 16384 →
      (receive_step_traced receive_size r).2.map Prod.fst = [receive_size]) ∧
    (receive_size > 16384 →
      (∀ a ∈ (receive_step_traced receive_size r).2, a.2 ≠ EU_eof ∧ a.2.neg = false) →
      (receive_step_traced receive_size r).2.map Prod.fst
        = List.replicate (receive_size / 16384) 16384
          ++ (if receive_size % 16384 > 0 then [receive_size % 16384] else []) ∧
      ((receive_step_traced receive_size r).2.map Prod.fst).sum = receive_size) := by
  have hmax : MAX_RECEIVE_BYTES = 16384 := rfl
  refine ⟨rfl, receive_step_traced_fst receive_size r, ?_, ?_, ?_⟩
  · intro a ha
    rw [← hmax]
    unfold receive_step_traced at ha
    split_ifs at ha with h
    · exact receive_loop_traced_le _ _ _ _ _
        (le_of_lt (Nat.mod_lt _ (by rw [hmax]; omega))) a ha
    · simp only [List.mem_singleton] at ha
      subst ha
      simp only []
      omega
  · intro h
    unfold receive_step_traced
    rw [if_neg (by rw [hmax]; omega)]
    rfl
  · intro h hok
    have hfull : (receive_step_traced receive_size r).2.map Prod.fst
        = full_requests receive_size := by
      revert hok
      unfold receive_step_traced
      rw [if_pos (by rw [hmax]; omega)]
      simp only []
      intro hok
      rw [receive_loop_traced_full _ _ _ 0 r (Nat.zero_add _) (Nat.zero_le _) hok]
      rfl
    rw [hfull]
    exact ⟨rfl, full_requests_sum receive_size⟩

/-- C16 at concrete inputs: a receive size of 40000 bytes on a socket that has nothing to
read is asked for in the requests 16384, 16384 and 7232; a receive size of 100 bytes in one
request. -/
theorem receive_chunking_witness :
    ((receive_step_traced 40000 idle_socket).2.map Prod.fst = [16384, 16384, 7232] ∧
      ((receive_step_traced 40000 idle_socket).2.map Prod.fst).sum = 40000) ∧
    (receive_step_traced 100 idle_socket).2.map Prod.fst = [100] :=
  ⟨(receive_chunking 40000 idle_socket).2.2.2.2 (by decide) (by decide),
   (receive_chunking 100 idle_socket).2.2.2.1 (by decide)⟩

/-! ## The request (C18, C19) -/

theorem file_request_no_range (path host : List Char) (first_byte last_byte : Int) :
    file_request path host first_byte last_byte false = lf_request path host := by
  simp [file_request, lf_request]

theorem ram_request_eq (path host : List Char) : ram_request path host = lf_request path host := by
  simp [ram_request, lf_request]

theorem connect_to_server_sent (d : Engine) (ev : ConnectEvent) :
    (connect_to_server d ev).2.sent = d.sent ∧
    (connect_to_server d ev).2._server_name = d._server_name := by
  unfold connect_to_server
  split_ifs
  · exact ⟨rfl, rfl⟩
  · cases ev <;> exact ⟨rfl, rfl⟩

theorem lf_request_ne_nil (path host : List Char) : lf_request path host ≠ [] := by
  simp [lf_request]

theorem initiate_sends_request (d : Engine) (path : List Char) (first_byte last_byte
    total_bytes : Int) (env : InitEnv) (n : Nat) (rest : List SendEvent) (existing : List Char)
    (hinit : d._initiated = false)
    (hdial : (connect_to_server d env.connect).1.neg = false)
    (hopen : env.open_file = OpenEvent.opened existing)
    (hsends : env.sends = SendEvent.accepted n :: rest)
    (hn : (lf_request path d._server_name).length ≤ n) :
    (initiate d path first_byte last_byte total_bytes false env).1 = EU_success ∧
    (initiate d path first_byte last_byte total_bytes false env).2.sent
      = d.sent ++ lf_request path d._server_name := by
  have hc := connect_to_server_sent d env.connect
  unfold initiate
  rw [if_neg (by simp [hinit])]
  rcases hcs : connect_to_server d env.connect with ⟨cr, d1⟩
  rw [hcs] at hc hdial
  simp only [] at hc hdial ⊢
  rw [if_neg (by simp [hdial]), hopen]
  simp only [Bool.false_eq_true, false_and, if_false, file_request_no_range, hsends, hc.1, hc.2]
  rw [safe_send_all_at_once d.sent _ n rest (lf_request_ne_nil _ _) hn]
  simp [ErrorUtilCode.neg]

theorem initiate_ram_sends_request (d : Engine) (path : List Char) (env : InitEnv) (n : Nat)
    (rest : List SendEvent)
    (hinit : d._initiated = false)
    (hdial : (connect_to_server d env.connect).1.neg = false)
    (hsends : env.sends = SendEvent.accepted n :: rest)
    (hn : (lf_request path d._server_name).length ≤ n) :
    (initiate_ram d path env).1 = EU_success ∧
    (initiate_ram d path env).2.sent = d.sent ++ lf_request path d._server_name := by
  have hc := connect_to_server_sent d env.connect
  unfold initiate_ram
  rw [if_neg (by simp [hinit])]
  rcases hcs : connect_to_server d env.connect with ⟨cr, d1⟩
  rw [hcs] at hc hdial
  simp only [] at hc hdial ⊢
  rw [if_neg (by simp [hdial])]
  simp only [ram_request_eq, hsends, hc.1, hc.2]
  rw [safe_send_all_at_once d.sent _ n rest (lf_request_ne_nil _ _) hn]
  simp [ErrorUtilCode.neg]

/-- C18 (counterexample). For the path `/f` and the host `h` the request of the download
to a file and of the download to memory is not the string with CR LF line ends: it holds no
carriage return at all, and these are the bytes `initiate` hands to a socket that takes the
whole request at once. -/
theorem request_is_not_crlf :
    file_request "/f".toList "h".toList 0 0 false ≠ crlf_request "/f".toList "h".toList ∧
    ram_request "/f".toList "h".toList ≠ crlf_request "/f".toList "h".toList ∧
    CR ∉ file_request "/f".toList "h".toList 0 0 false ∧
    (initiate_file idle_engine "/f".toList (smooth_init 100)).1 = EU_success ∧
    (initiate_file idle_engine "/f".toList (smooth_init 100)).2.sent
      = file_request "/f".toList "h".toList 0 0 false ∧
    (initiate_file idle_engine "/f".toList (smooth_init 100)).2.sent
      ≠ crlf_request "/f".toList "h".toList := by
  decide

/-- C18 (amended). Request format: for every path and host, the request that `initiate`
builds for a download without a range, to a file or to memory, is exactly `GET `, the path,
` HTTP/1.1`, LF, `Host: `, the host, LF, `Connection: close`, LF, LF: every line ends in a
bare line feed and the request ends with an empty line. When the engine is not initiated,
is or gets connected, the destination opens and the socket takes the whole request at the
first `send()`, `initiate` succeeds and these are the bytes the socket has taken. -/
theorem request_format_lf (path host : List Char) :
    (∀ first_byte last_byte : Int,
      file_request path host first_byte last_byte false = lf_request path host) ∧
    ram_request path host = lf_request path host ∧
    lf_request path host
      = "GET ".toList ++ path ++ " HTTP/1.1".toList ++ [LF] ++ "Host: ".toList ++ host ++ [LF]
        ++ "Connection: close".toList ++ [LF] ++ [LF] ∧
    (∀ (d : Engine) (env : InitEnv) (n : Nat) (rest : List SendEvent) (existing : List Char),
      d._initiated = false → d._server_name = host →
      (connect_to_server d env.connect).1.neg = false →
      env.open_file = OpenEvent.opened existing →
      env.sends = SendEvent.accepted n :: rest →
      (lf_request path host).length ≤ n →
      (initiate_file d path env).1 = EU_success ∧
      (initiate_file d path env).2.sent = d.sent ++ lf_request path host ∧
      (initiate_ram d path env).1 = EU_success ∧
      (initiate_ram d path env).2.sent = d.sent ++ lf_request path host) := by
  refine ⟨file_request_no_range path host, ram_request_eq path host, rfl, ?_⟩
  intro d env n rest existing hinit hhost hdial hopen hsends hn
  subst hhost
  have h1 := initiate_sends_request d path 0 0 0 env n rest existing hinit hdial hopen hsends hn
  have h2 := initiate_ram_sends_request d path env n rest hinit hdial hsends hn
  exact ⟨h1.1, h1.2, h2.1, h2.2⟩

/-- C18 (amended) at a concrete input: the path `/f` on the host `h`. -/
theorem request_format_lf_witness :
    (initiate_file idle_engine "/f".toList (smooth_init 100)).1 = EU_success ∧
    (initiate_file idle_engine "/f".toList (smooth_init 100)).2.sent
      = idle_engine.sent ++ lf_request "/f".toList "h".toList :=
  ⟨((request_format_lf "/f".toList "h".toList).2.2.2 idle_engine (smooth_init 100) 100 [] []
      rfl rfl rfl rfl rfl (by decide)).1,
   ((request_format_lf "/f".toList "h".toList).2.2.2 idle_engine (smooth_init 100) 100 [] []
      rfl rfl rfl rfl rfl (by decide)).2.1⟩

theorem stream_int_eq (i : Int) : stream_int i = decimal_int i := by
  cases i with
  | ofNat n =>
    have h : ¬ ((Int.ofNat n) < 0) := by simp
    simp only [stream_int, decimal_int, if_neg h]
    rfl
  | negSucc n =>
    have h : (Int.negSucc n) < 0 := Int.negSucc_lt_zero n
    simp only [stream_int, decimal_int, if_pos h]
    rfl

theorem decimal_no_LF (n : Nat) : LF ∉ decimal n := by
  intro h
  have hd := toDigitsCore_isDigit (n + 1) n [] (by intro c hc; cases hc) LF h
  exact absurd hd (by decide)

theorem decimal_int_no_LF (i : Int) : LF ∉ decimal_int i := by
  unfold decimal_int
  split_ifs
  · intro h
    rcases List.mem_cons.mp h with h | h
    · exact absurd h (by decide)
    · exact decimal_no_LF _ h
  · exact decimal_no_LF _

theorem range_line_no_LF (first_byte last_byte : Int) : LF ∉ range_line first_byte last_byte := by
  unfold range_line
  intro h
  simp only [List.mem_append, List.mem_singleton] at h
  rcases h with ((h | h) | h) | h
  · exact absurd h (by decide)
  · exact decimal_int_no_LF _ h
  · exact absurd h (by decide)
  · exact decimal_int_no_LF _ h

theorem lines_of_append_LF (a b : List Char) (h : LF ∉ a) :
    lines_of (a ++ LF :: b) = a :: lines_of b := by
  induction a with
  | nil => simp [lines_of]
  | cons c a ih =>
    have hc : c ≠ LF := fun e => h (by rw [e]; exact List.mem_cons_self _ _)
    have ha : LF ∉ a := fun e => h (List.mem_cons_of_mem _ e)
    rw [List.cons_append, lines_of, if_neg hc, ih ha]

theorem file_request_range (path host : List Char) (first_byte last_byte : Int) :
    file_request path host first_byte last_byte true
      = "GET ".toList ++ path ++ " HTTP/1.1".toList ++ [LF] ++ "Host: ".toList ++ host ++ [LF]
        ++ "Connection: close".toList ++ [LF] ++ range_line first_byte last_byte
        ++ [LF] ++ [LF] := by
  simp [file_request, range_line, stream_int_eq]

theorem lines_of_lf_request (path host : List Char) (hp : LF ∉ path) (hh : LF ∉ host) :
    lines_of (lf_request path host)
      = ["GET ".toList ++ path ++ " HTTP/1.1".toList, "Host: ".toList ++ host,
         "Connection: close".toList, [], []] := by
  have h1 : LF ∉ "GET ".toList ++ path ++ " HTTP/1.1".toList := by
    intro h
    simp only [List.mem_append] at h
    rcases h with (h | h) | h
    · exact absurd h (by decide)
    · exact hp h
    · exact absurd h (by decide)
  have h2 : LF ∉ "Host: ".toList ++ host := by
    intro h
    simp only [List.mem_append] at h
    rcases h with h | h
    · exact absurd h (by decide)
    · exact hh h
  have h3 : LF ∉ "Connection: close".toList := by decide
  have e : lf_request path host
      = ("GET ".toList ++ path ++ " HTTP/1.1".toList) ++ LF :: (("Host: ".toList ++ host)
        ++ LF :: ("Connection: close".toList ++ LF :: ([] ++ LF :: []))) := by
    simp [lf_request]
  rw [e, lines_of_append_LF _ _ h1, lines_of_append_LF _ _ h2, lines_of_append_LF _ _ h3,
    lines_of_append_LF _ _ (List.not_mem_nil _)]
  rfl

/-- C19. Range header: the request `initiate` builds with `partial_content = true` is the
request line, the `Host` line and the `Connection: close` line followed by the line
`Range: bytes=<first_byte>-<last_byte>`, both numbers in decimal, and the empty line that
ends the request. When neither the path nor the host holds a line feed, its lines are these
four and the end, in this order, while the lines of the request built with
`partial_content = false` and of the request of the download to memory are the first three
and the end: none of them starts with `Range:`. -/
theorem range_header_line (path host : List Char) (first_byte last_byte : Int) :
    file_request path host first_byte last_byte true
      = "GET ".toList ++ path ++ " HTTP/1.1".toList ++ [LF] ++ "Host: ".toList ++ host ++ [LF]
        ++ "Connection: close".toList ++ [LF] ++ range_line first_byte last_byte
        ++ [LF] ++ [LF] ∧
    range_line first_byte last_byte
      = "Range: bytes=".toList ++ decimal_int first_byte ++ "-".toList
        ++ decimal_int last_byte ∧
    (0 ≤ first_byte → 0 ≤ last_byte →
      range_line first_byte last_byte
        = "Range: bytes=".toList ++ decimal first_byte.toNat ++ "-".toList
          ++ decimal last_byte.toNat) ∧
    (LF ∉ path → LF ∉ host →
      lines_of (file_request path host first_byte last_byte true)
        = ["GET ".toList ++ path ++ " HTTP/1.1".toList, "Host: ".toList ++ host,
           "Connection: close".toList, range_line first_byte last_byte, [], []] ∧
      lines_of (file_request path host first_byte last_byte false)
        = ["GET ".toList ++ path ++ " HTTP/1.1".toList, "Host: ".toList ++ host,
           "Connection: close".toList, [], []] ∧
      lines_of (ram_request path host)
        = ["GET ".toList ++ path ++ " HTTP/1.1".toList, "Host: ".toList ++ host,
           "Connection: close".toList, [], []] ∧
      (∀ l ∈ lines_of (file_request path host first_byte last_byte false),
        ¬ ("Range:".toList <+: l)) ∧
      (∀ l ∈ lines_of (ram_request path host), ¬ ("Range:".toList <+: l))) := by
  refine ⟨file_request_range path host first_byte last_byte, rfl, ?_, ?_⟩
  · intro hf hl
    unfold range_line decimal_int
    rw [if_neg (by omega), if_neg (by omega)]
    have e1 : first_byte.natAbs = first_byte.toNat := by omega
    have e2 : last_byte.natAbs = last_byte.toNat := by omega
    rw [e1, e2]
    rfl
  · intro hp hh
    have hlf := lines_of_lf_request path host hp hh
    have hno : ∀ l ∈ lines_of (lf_request path host), ¬ ("Range:".toList <+: l) := by
      intro l hl
      rw [hlf] at hl
      simp only [List.mem_cons, List.mem_singleton, List.not_mem_nil, or_false] at hl
      rcases hl with h | h | h | h | h <;> subst h <;>
        simp [List.prefix_iff_eq_take]
    refine ⟨?_, ?_, ?_, ?_, ?_⟩
    · have h1 : LF ∉ "GET ".toList ++ path ++ " HTTP/1.1".toList := by
        intro h
        simp only [List.mem_append] at h
        rcases h with (h | h) | h
        · exact absurd h (by decide)
        · exact hp h
        · exact absurd h (by decide)
      have h2 : LF ∉ "Host: ".toList ++ host := by
        intro h
        simp only [List.mem_append] at h
        rcases h with h | h
        · exact absurd h (by decide)
        · exact hh h
      have h3 : LF ∉ "Connection: close".toList := by decide
      have e : file_request path host first_byte last_byte true
          = ("GET ".toList ++ path ++ " HTTP/1.1".toList) ++ LF :: (("Host: ".toList ++ host)
            ++ LF :: ("Connection: close".toList ++ LF :: (range_line first_byte last_byte
              ++ LF :: ([] ++ LF :: [])))) := by
        rw [file_request_range]
        simp
      rw [e, lines_of_append_LF _ _ h1, lines_of_append_LF _ _ h2, lines_of_append_LF _ _ h3,
        lines_of_append_LF _ _ (range_line_no_LF _ _),
        lines_of_append_LF _ _ (List.not_mem_nil _)]
      rfl
    · rw [file_request_no_range]; exact hlf
    · rw [ram_request_eq]; exact hlf
    · rw [file_request_no_range]; exact hno
    · rw [ram_request_eq]; exact hno

/-- C19 at a concrete input: the bytes 100 to 199 of `/f` on the host `h`. -/
theorem range_header_line_witness :
    lines_of (file_request "/f".toList "h".toList 100 199 true)
      = ["GET /f HTTP/1.1".toList, "Host: h".toList, "Connection: close".toList,
         range_line 100 199, [], []] ∧
    range_line 100 199 = "Range: bytes=100-199".toList :=
  ⟨((range_header_line "/f".toList "h".toList 100 199).2.2.2 (by decide) (by decide)).1,
   (range_header_line "/f".toList "h".toList 100 199).2.2.1 (by decide) (by decide)⟩

/-! ## A second `initiate` (C21) and `reset` (C23) -/

/-- C21. Already-initiated is rejected without effect: on an engine with a download in
progress, `initiate` with a range, `initiate` for a whole file and `initiate` to memory
return `EU_error_abort` whatever the environment would answer to a dial, to the opening of
the destination or to a `send()`, and the engine afterwards is the engine before: status,
arena, connection, bytes sent, destination and the initiated flag are unchanged. -/
theorem initiate_rejected_when_initiated (d : Engine) (hinit : d._initiated = true) :
    (∀ (file : List Char) (first_byte last_byte total_bytes : Int) (partial_content : Bool)
      (env : InitEnv),
      initiate d file first_byte last_byte total_bytes partial_content env
        = (EU_error_abort, d)) ∧
    (∀ (file : List Char) (env : InitEnv), initiate_file d file env = (EU_error_abort, d)) ∧
    (∀ (file : List Char) (env : InitEnv), initiate_ram d file env = (EU_error_abort, d)) := by
  refine ⟨?_, ?_, ?_⟩
  · intro file fb lb tb pc env
    unfold initiate
    rw [if_pos hinit]
  · intro file env
    unfold initiate_file initiate
    rw [if_pos hinit]
  · intro file env
    unfold initiate_ram
    rw [if_pos hinit]

/-- C21 at a concrete input: the engine of the end-to-end example, which is in the middle of
its download, rejects the request for another file and sends nothing. -/
theorem initiate_rejected_when_initiated_witness :
    delivery_engine._initiated = true ∧
    (initiate_file delivery_engine "/next".toList (smooth_init 100)).1 = EU_error_abort ∧
    (initiate_file delivery_engine "/next".toList (smooth_init 100)).2.sent
      = delivery_engine.sent :=
  ⟨rfl,
   congrArg Prod.fst
     ((initiate_rejected_when_initiated delivery_engine rfl).2.1 "/next".toList
       (smooth_init 100)),
   congrArg (fun r => r.2.sent)
     ((initiate_rejected_when_initiated delivery_engine rfl).2.1 "/next".toList
       (smooth_init 100))⟩

/-- C23. Reset is idempotent: resetting a reset status changes nothing; after a reset
`_start` and `_next_in` are the base `_buffer` of the arena and `_bytes_in_buffer` is 0,
while the base, the three parse flags, the byte range, `_partial_content`,
`_total_bytes_written` and `_total_bytes` are those before the reset. -/
theorem reset_idempotent (s : DownloadStatus) :
    s.reset.reset = s.reset ∧
    s.reset._start = s._buffer ∧ s.reset._next_in = s._buffer ∧
    s.reset._bytes_in_buffer = 0 ∧
    s.reset._buffer = s._buffer ∧
    s.reset._first_line_complete = s._first_line_complete ∧
    s.reset._header_is_complete = s._header_is_complete ∧
    s.reset._header_is_valid = s._header_is_valid ∧
    s.reset._first_byte = s._first_byte ∧ s.reset._last_byte = s._last_byte ∧
    s.reset._partial_content = s._partial_content ∧
    s.reset._total_bytes_written = s._total_bytes_written ∧
    s.reset._total_bytes = s._total_bytes :=
  ⟨rfl, rfl, rfl, rfl, rfl, rfl, rfl, rfl, rfl, rfl, rfl, rfl, rfl⟩

/-! ## The protocol token of the first line (C24) -/

theorem find_space_after_token (token rest : List Char) (p : Nat)
    (hsp : Char.ofNat 32 ∉ token) (hp : p ≤ token.length) :
    find (token ++ Char.ofNat 32 :: rest) [Char.ofNat 32] (some p) = some token.length := by
  apply (find_some_iff _ _ _ _).mpr
  refine ⟨hp, by simp, ?_, ?_⟩
  · unfold OccursAt
    rw [List.drop_left]
    exact ⟨rest, rfl⟩
  · intro j _ hj hocc
    unfold OccursAt at hocc
    rw [List.drop_append_of_le_length (le_of_lt hj)] at hocc
    have hne : token.drop j ≠ [] := by
      intro h
      have := congrArg List.length h
      simp at this
      omega
    obtain ⟨c, cs, hc⟩ := List.exists_cons_of_ne_nil hne
    rw [hc] at hocc
    obtain ⟨t, ht⟩ := hocc
    simp only [List.cons_append, List.nil_append, List.cons.injEq] at ht
    have hmem : c ∈ token := List.mem_of_mem_drop (by rw [hc]; exact List.mem_cons_self _ _)
    rw [← ht.1] at hmem
    exact hsp hmem

theorem atoi_three_digits_end (d1 d2 d3 : Char) (tail : List Char)
    (h1 : d1.isDigit = true) (h2 : d2.isDigit = true) (h3 : d3.isDigit = true)
    (ht : tail = [] ∨ ∃ rest, tail = Char.ofNat 32 :: rest) :
    atoi (Char.ofNat 32 :: d1 :: d2 :: d3 :: tail)
      = ((100 * digit_value d1 + 10 * digit_value d2 + digit_value d3 : Nat) : Int) := by
  rcases ht with ht | ⟨rest, ht⟩
  · subst ht
    have hn : atoi_number [Char.ofNat 32, d1, d2, d3]
        = ((100 * digit_value d1 + 10 * digit_value d2 + digit_value d3 : Nat) : Int) := by
      obtain ⟨a1, a2, a3, _⟩ := digit_not_space d1 h1
      have hsp : isspace (Char.ofNat 32) = true := by decide
      simp only [atoi_number, hsp, a1, if_true, atoi_signed, a2, a3, if_false, atoi_digits, h1,
        h2, h3, digit_value]
      simp only [Bool.false_eq_true, if_false]
      congr 1
      omega
    rw [atoi_of_fits _ (by rw [hn]; exact three_digits_fit d1 d2 d3 h1 h2 h3), hn]
  · subst ht
    exact atoi_three_digits d1 d2 d3 rest h1 h2 h3

/-- With a token of four characters or more the code is extracted: the count `ws2` of
`resp.substr(ws, ws2)` is then at least 4, the length of the blank and the code. -/
theorem parse_http_response_long_token (token : List Char) (d1 d2 d3 : Char)
    (reason : List Char) (hsp : Char.ofNat 32 ∉ token) (hlen : 4 ≤ token.length)
    (h1 : d1.isDigit = true) (h2 : d2.isDigit = true) (h3 : d3.isDigit = true) :
    parse_http_response (response_line token d1 d2 d3 reason)
      = some (status_table (100 * digit_value d1 + 10 * digit_value d2 + digit_value d3)) := by
  have hf1 := find_space_after_token token (d1 :: d2 :: d3 :: Char.ofNat 32 :: reason) 0 hsp
    (Nat.zero_le _)
  have hf2 := find_space_after_token token (d1 :: d2 :: d3 :: Char.ofNat 32 :: reason)
    token.length hsp (le_refl _)
  obtain ⟨k, hk⟩ : ∃ k, token.length = k + 4 := ⟨token.length - 4, by omega⟩
  have hs2 : substr (response_line token d1 d2 d3 reason) (some token.length)
      (some token.length)
      = some (Char.ofNat 32 :: d1 :: d2 :: d3 :: (Char.ofNat 32 :: reason).take k) := by
    unfold substr response_line
    simp only []
    rw [if_neg (by simp), List.drop_left, hk]
    rfl
  obtain ⟨t1, hs1⟩ := substr_zero (response_line token d1 d2 d3 reason) (some token.length)
  unfold parse_http_response
  unfold response_line at hs1 hs2 ⊢
  simp only [hf1, hs1, hf2, hs2]
  rw [atoi_three_digits_end d1 d2 d3 _ h1 h2 h3 (by
    cases k with
    | zero => exact Or.inl rfl
    | succ k => exact Or.inr ⟨reason.take k, rfl⟩)]
  generalize 100 * digit_value d1 + 10 * digit_value d2 + digit_value d3 = n
  unfold status_table
  simp only [List.length_cons, Nat.add_one_ne_zero, if_false]
  have e : ∀ k : Nat, ((n : Int) = (k : Int)) ↔ n = k := fun k => Int.ofNat_inj
  have e200 := e 200
  have e201 := e 201
  have e202 := e 202
  have e203 := e 203
  have e204 := e 204
  have e205 := e 205
  have e206 := e 206
  have e302 := e 302
  have e408 := e 408
  have e503 := e 503
  have e504 := e 504
  simp only [Nat.cast_ofNat] at e200 e201 e202 e203 e204 e205 e206 e302 e408 e503 e504
  simp only [e200, e201, e202, e203, e204, e205, e206, e302, e408, e503, e504]
  split_ifs <;> first | rfl | omega

set_option maxRecDepth 1000000 in
/-- C24 (evaluation of the code). On the first line `ICY 200 OK` the token is three
characters long: `ws = ws2 = 3`, `resp.substr(ws, ws2)` is the three characters ` 20`, `atoi`
gives 20 and `parse_http_response` returns `EU_error_abort`, where the status table assigns
success to the code 200. With the token `H` the extracted string is a blank and with `HT`
it is ` 2`; on `A 503 Down` the service-unavailable code is lost. A whole response that starts
with `ICY 200 OK` is rejected by `parse_header`. -/
theorem short_token_truncates_code :
    response_line "ICY".toList '2' '0' '0' "OK".toList = "ICY 200 OK".toList ∧
    find "ICY 200 OK".toList [Char.ofNat 32] (some 0) = some 3 ∧
    find "ICY 200 OK".toList [Char.ofNat 32] (some 3) = some 3 ∧
    substr "ICY 200 OK".toList (some 3) (some 3) = some " 20".toList ∧
    parse_http_response "ICY 200 OK".toList = some EU_error_abort ∧
    status_table 200 = EU_success ∧
    parse_http_response "H 200 OK".toList = some EU_error_abort ∧
    parse_http_response "HT 200 OK".toList = some EU_error_abort ∧
    parse_http_response "A 503 Down".toList = some EU_error_abort ∧
    status_table 503 = EU_error_http_service_unavailable ∧
    parse_http_response "HTTP 200 OK".toList = some EU_success ∧
    (parse_header (memory_with 64 ("ICY 200 OK".toList ++ CRLF ++ CRLF))
      (status_holding 64 14 0 0 false)).1 = some EU_error_abort := by
  decide

/-! ## Repeated parses (C26) -/

theorem parse_first_line_valid (component : List Char) (redirect : Bool)
    (status : DownloadStatus)
    (hinv : status._first_line_complete = true → status._header_is_valid = true)
    (red1 : Bool) (st1 : DownloadStatus)
    (h : parse_first_line component redirect status = (none, red1, st1)) :
    st1._first_line_complete = true ∧ st1._header_is_valid = true := by
  revert h
  unfold parse_first_line
  by_cases h1 : status._first_line_complete = false
  · rw [if_pos h1]
    cases parse_http_response component with
    | none => intro h; cases h
    | some pr =>
      simp only []
      by_cases h2 : pr = EU_success
      · rw [if_pos h2]
        intro h
        simp only [Prod.mk.injEq, true_and] at h
        rw [← h.2]
        exact ⟨rfl, rfl⟩
      · rw [if_neg h2]
        by_cases h3 : pr = EU_http_redirect
        · rw [if_pos h3]
          intro h
          simp only [Prod.mk.injEq, true_and] at h
          rw [← h.2]
          exact ⟨rfl, rfl⟩
        · rw [if_neg h3]
          intro h
          cases h
  · rw [if_neg h1]
    intro h
    simp only [Prod.mk.injEq, true_and] at h
    rw [← h.2]
    have h1' : status._first_line_complete = true := by simpa using h1
    exact ⟨h1', hinv h1'⟩

/-- As long as the first line was never rejected (`_first_line_complete` implies
`_header_is_valid`), the loop of `parse_header` completes the header of a valid response
only. -/
theorem parse_header_loop_valid (bufstr : List Char) :
    ∀ (fuel p : Nat) (redirect : Bool) (status : DownloadStatus),
      (status._first_line_complete = true → status._header_is_valid = true) →
      status._header_is_complete = false →
      (parse_header_loop bufstr fuel p redirect status).2._header_is_complete = true →
      (parse_header_loop bufstr fuel p redirect status).2._header_is_valid = true := by
  intro fuel
  induction fuel with
  | zero =>
    intro p redirect status _ hc
    simp [parse_header_loop, parse_header_end, hc]
  | succ fuel ih =>
    intro p redirect status hinv hc
    rw [parse_header_loop]
    by_cases hlen : p < bufstr.length
    swap
    · rw [if_pos hlen]
      simp [parse_header_end, hc]
    rw [if_neg (not_not.mpr hlen)]
    cases find bufstr CRLF (some p) with
    | none => simp [hc]
    | some nl =>
      simp only []
      by_cases h0 : p = 0 ∧ nl = p
      · rw [if_pos h0]; simp [hc]
      rw [if_neg h0]
      cases substr bufstr (some p) (some (nl - p)) with
      | none => simp [hc]
      | some component =>
        simp only []
        have hspec := parse_first_line_spec component redirect status
        have hval := parse_first_line_valid component redirect status hinv
        rcases hfl : parse_first_line component redirect status with ⟨r1, redirect1, status1⟩
        rw [hfl] at hspec hval
        simp only [] at hspec
        have hc1 : status1._header_is_complete = false := by rw [hspec.2.1]; exact hc
        cases r1 with
        | some r => simp [hc1]
        | none =>
          have hv := hval redirect1 status1 rfl
          simp only []
          cases parse_field_line component redirect1 status1 with
          | some r => simp [hc1]
          | none =>
            simp only []
            by_cases hnl : nl = p
            · rw [if_pos hnl]
              by_cases hr : redirect1 = true
              · rw [if_pos hr]; simp [hc1]
              · rw [if_neg hr]
                intro _
                exact hv.2
            · rw [if_neg hnl]
              exact ih (nl + 2) redirect1 status1 (fun _ => hv.2) hc1

/-- On a status whose first line was not parsed yet, one call of `parse_header` completes
the header of a valid response only. -/
theorem parse_header_fresh_valid (m : Mem) (s : DownloadStatus)
    (hfl : s._first_line_complete = false) (hc : s._header_is_complete = false) :
    (parse_header m s).2._header_is_complete = true →
    (parse_header m s).2._header_is_valid = true := by
  unfold parse_header
  rw [if_neg (by simp [hc])]
  by_cases h0 : s._bytes_in_buffer = 0
  · rw [if_pos h0]
    simp [hc]
  · rw [if_neg h0]
    exact parse_header_loop_valid _ _ 0 false s (by simp [hfl]) hc

set_option maxRecDepth 1000000 in
/-- C26 (evaluation of the code). The arena holds a `404` response with the body `secret`.
The first `write_to_disk` returns `EU_error_abort` and writes nothing, but it leaves
`_first_line_complete` set; the second call on the status it left skips the status line,
finds the blank line, sets `_header_is_complete` with `_header_is_valid` still false,
returns `EU_success` and writes `secret` to the destination; `write_to_ram` does the same.
In the engine: the tick that flushes at the end of the stream returns `EU_error_abort`, and
the tick after it returns `EU_success` with `secret` in the destination file. -/
theorem rejected_response_released :
    read_mem (memory_with 64 rejected_response) 64 32 = rejected_response ∧
    parse_http_response (status_line '4' '0' '4' "Not Found".toList) = some EU_error_abort ∧
    (write_to_disk (memory_with 64 rejected_response) (status_holding 64 32 0 0 false) []).1
      = some EU_error_abort ∧
    (write_to_disk (memory_with 64 rejected_response) (status_holding 64 32 0 0 false) []).2.2
      = [] ∧
    (write_to_disk (memory_with 64 rejected_response)
      (write_to_disk (memory_with 64 rejected_response)
        (status_holding 64 32 0 0 false) []).2.1 []).1 = some EU_success ∧
    (write_to_disk (memory_with 64 rejected_response)
      (write_to_disk (memory_with 64 rejected_response)
        (status_holding 64 32 0 0 false) []).2.1 []).2.2 = "secret".toList ∧
    (parse_header (memory_with 64 rejected_response)
      (parse_header (memory_with 64 rejected_response)
        (status_holding 64 32 0 0 false)).2).2._header_is_complete = true ∧
    (parse_header (memory_with 64 rejected_response)
      (parse_header (memory_with 64 rejected_response)
        (status_holding 64 32 0 0 false)).2).2._header_is_valid = false ∧
    (write_to_ram (memory_with 64 rejected_response)
      (write_to_ram (memory_with 64 rejected_response)
        (status_holding 64 32 0 0 false) []).2.1 []).2.2 = "secret".toList ∧
    (run (run rejected_engine (tick_at 1000000 (SockEvent.ready 100))).2
      (tick_at 1100000 (SockEvent.ready 100))).1 = some EU_error_abort ∧
    (run (run (run rejected_engine (tick_at 1000000 (SockEvent.ready 100))).2
      (tick_at 1100000 (SockEvent.ready 100))).2
      (tick_at 1200000 (SockEvent.ready 100))).1 = some EU_success ∧
    (run (run (run rejected_engine (tick_at 1000000 (SockEvent.ready 100))).2
      (tick_at 1100000 (SockEvent.ready 100))).2
      (tick_at 1200000 (SockEvent.ready 100))).2._dest_stream = "secret".toList := by
  decide

/-! ## Totality of the parser (C27) -/

theorem mem_iff_occursAt_singleton (c : Char) (s : List Char) :
    c ∈ s ↔ ∃ i, i ≤ s.length ∧ OccursAt [c] s i := by
  constructor
  · intro h
    obtain ⟨a, b, hab⟩ := List.append_of_mem h
    refine ⟨a.length, by rw [hab]; simp, ?_⟩
    unfold OccursAt
    rw [hab, List.drop_left]
    exact ⟨b, rfl⟩
  · rintro ⟨i, _, t, ht⟩
    have hm : c ∈ s.drop i := by rw [← ht]; simp
    exact List.mem_of_mem_drop hm

/-- The function `parse_http_response` is left by `std::out_of_range` exactly on the lines
that hold no blank. -/
theorem parse_http_response_none_iff (resp : List Char) :
    parse_http_response resp = none ↔ Char.ofNat 32 ∉ resp := by
  obtain ⟨t1, hs1⟩ : ∃ t, substr resp (some 0) (find resp [Char.ofNat 32] (some 0)) = some t :=
    substr_zero resp _
  unfold parse_http_response
  simp only [hs1]
  cases hws : find resp [Char.ofNat 32] (some 0) with
  | none =>
    have hno : Char.ofNat 32 ∉ resp := by
      intro hmem
      obtain ⟨i, hi, hocc⟩ := (mem_iff_occursAt_singleton _ _).mp hmem
      obtain ⟨k, hk, _⟩ := find_exists_of_occurs [Char.ofNat 32] resp 0 i (Nat.zero_le _) hi hocc
      rw [hws] at hk
      cases hk
    simp [find, substr, hno]
  | some i =>
    obtain ⟨_, hil, hocc, _⟩ := (find_some_iff _ _ _ _).mp hws
    have hmem : Char.ofNat 32 ∈ resp := (mem_iff_occursAt_singleton _ _).mpr ⟨i, hil, hocc⟩
    obtain ⟨k, hk, _⟩ := find_exists_of_occurs [Char.ofNat 32] resp i i (le_refl _) hil hocc
    have hs2 : substr resp (some i) (some k) = some ((resp.drop i).take k) := by
      unfold substr
      simp only []
      rw [if_neg (by omega)]
    simp only [hk, hs2]
    constructor
    · intro h
      split_ifs at h
    · intro h
      exact absurd hmem h

set_option maxRecDepth 1000000 in
/-- C27 (evaluation of the code). Three buffers on which `parse_header` returns no code
because a `substr` with a start position beyond the end of the string throws
`std::out_of_range`: a first line without a blank (`ws` is `npos` in `resp.substr(ws, ws2)`),
and, for a range request and after a redirect, a line `Content-Length:` or `Location:` with
nothing after the colon (`cpos + 2` is one more than the length of the line). -/
theorem parse_header_leaves_by_exception :
    garbled_response ≠ [] ∧
    parse_http_response "ERROR".toList = none ∧
    (parse_header (memory_with 64 garbled_response) (status_holding 64 7 0 0 false)).1
      = none ∧
    (parse_header (memory_with 64 garbled_response) (status_holding 64 7 0 99 true)).1
      = none ∧
    read_mem (memory_with 64 truncated_length_response) 64 49 = truncated_length_response ∧
    parse_field_line "Content-Length:".toList false (status_holding 64 49 0 99 true)
      = some none ∧
    (parse_header (memory_with 64 truncated_length_response)
      (status_holding 64 49 0 99 true)).1 = none ∧
    (parse_header (memory_with 64 truncated_length_response)
      (status_holding 64 49 0 99 false)).1 = some EU_success ∧
    parse_field_line "Location:".toList true (status_holding 64 33 0 0 false) = some none ∧
    (parse_header (memory_with 64 redirect_response) (status_holding 64 33 0 99 true)).1
      = none := by
  decide

/-! ## The disk tick and the memory tick (C22) -/

theorem sameMachine_to_ram (d : Engine) (ds : List Char) (o : Bool)
    (h : d._download_to_ram = false) : SameMachine d (to_ram d ds o) :=
  ⟨h, rfl, rfl, rfl, rfl, rfl, rfl, rfl, rfl, rfl, rfl, rfl, rfl, rfl, rfl, rfl, rfl, rfl, rfl,
    rfl, rfl, rfl⟩

theorem sameMachine_eq (d r : Engine) (h : SameMachine d r) :
    r = to_ram d r._dest_stream r._dest_stream_open := by
  obtain ⟨_, h2, h3, h4, h5, h6, h7, h8, h9, h10, h11, h12, h13, h14, h15, h16, h17, h18, h19,
    h20, h21, h22⟩ := h
  cases r
  cases d
  simp only [to_ram] at *
  subst_vars
  rfl

theorem ram_code_neg (c : ErrorUtilCode) (h : c.neg = true) : ram_code c = c := by
  cases c <;> first | rfl | cases h

theorem connect_to_server_to_ram (d : Engine) (ds : List Char) (o : Bool) (ev : ConnectEvent) :
    connect_to_server (to_ram d ds o) ev
      = ((connect_to_server d ev).1, to_ram (connect_to_server d ev).2 ds o) := by
  unfold connect_to_server
  by_cases h : d._connected = true
  · rw [if_pos h, if_pos (show (to_ram d ds o)._connected = true from h)]
  · rw [if_neg h, if_neg (show ¬ (to_ram d ds o)._connected = true from h)]
    cases ev <;> rfl

theorem write_to_ram_stream_to_ram (d : Engine) (ds : List Char) (o : Bool)
    (s : DownloadStatus) :
    write_to_ram_stream (to_ram d ds o) s
      = ((write_to_disk_stream d s).1, (write_to_disk_stream d s).2.1,
         to_ram (write_to_disk_stream d s).2.2 ds o) := by
  unfold write_to_ram_stream write_to_disk_stream
  have e : (to_ram d ds o)._dest_string_stream = some d._dest_stream := rfl
  rw [e]
  simp only []
  rw [write_to_ram_eq_write_to_disk]
  rfl

theorem run_to_ram_prepare_to_ram (d : Engine) (ds : List Char) (o : Bool)
    (s : DownloadStatus) (env : TickEnv) :
    run_to_ram_prepare (to_ram d ds o) s env = (run_prepare d s env).to_ram ds o := by
  unfold run_to_ram_prepare run_prepare
  rw [write_to_ram_stream_to_ram]
  have e1 : (to_ram d ds o)._recompute_buffer = d._recompute_buffer := rfl
  have e2 : (to_ram d ds o)._receive_size = d._receive_size := rfl
  have e3 : (to_ram d ds o)._disk_buffer_size = d._disk_buffer_size := rfl
  rw [e1, e2, e3]
  rcases write_to_disk_stream d s with ⟨c, s1, d1⟩
  by_cases h1 : d._recompute_buffer = true
  · rw [if_pos h1, if_pos h1]
    by_cases h2 : s._bytes_in_buffer > 0
    · rw [if_pos h2, if_pos h2]
      cases c with
      | none => rfl
      | some c =>
        simp only []
        by_cases h3 : c.neg = true
        · rw [if_pos h3, if_pos h3]
          simp only [Prepared.to_ram, Option.map_some', ram_code_neg c h3]
        · rw [if_neg h3, if_neg h3]
          rfl
    · rw [if_neg h2, if_neg h2]
      rfl
  · rw [if_neg h1, if_neg h1]
    by_cases h2 : s._bytes_in_buffer + d._receive_size > d._disk_buffer_size
    · rw [if_pos h2, if_pos h2]
      cases c with
      | none => rfl
      | some c =>
        simp only []
        by_cases h3 : c.neg = true
        · rw [if_pos h3, if_pos h3]
          simp only [Prepared.to_ram, Option.map_some', ram_code_neg c h3]
        · rw [if_neg h3, if_neg h3]
          rfl
    · rw [if_neg h2, if_neg h2]
      rfl

theorem cleanup_to_ram (d : Engine) (ds : List Char) (o : Bool) :
    ∃ o1, cleanup (to_ram d ds o) = to_ram (cleanup d) ds o1 := by
  unfold cleanup
  by_cases h : d._initiated = false
  · rw [if_pos h, if_pos (show (to_ram d ds o)._initiated = false from h)]
    exact ⟨o, rfl⟩
  · rw [if_neg h, if_neg (show ¬ (to_ram d ds o)._initiated = false from h)]
    have e : (to_ram d ds o)._current_status = d._current_status := rfl
    rw [e]
    cases d._current_status with
    | none => exact ⟨o, rfl⟩
    | some s => exact ⟨false, rfl⟩

theorem run_to_ram_receive_to_ram (ret : ErrorUtilCode) (d : Engine) (ds : List Char)
    (o : Bool) (s : DownloadStatus) (env : TickEnv) :
    ∃ o1, run_to_ram_receive (ram_code ret) (to_ram d ds o) s env
      = ((run_receive ret d s env).1.map ram_code, to_ram (run_receive ret d s env).2 ds o1) := by
  unfold run_to_ram_receive run_receive
  have e1 : (to_ram d ds o)._receive_size = d._receive_size := rfl
  have e2 : before_receive (to_ram d ds o) s env = before_receive d s env := rfl
  rw [e1, e2]
  simp only []
  generalize receive_step d._receive_size (before_receive d s env) = r
  have e3 : after_receive (to_ram d ds o) r = to_ram (after_receive d r) ds o := rfl
  rw [e3, write_to_ram_stream_to_ram]
  have e4 : (to_ram (after_receive d r) ds o)._got_any_data = (after_receive d r)._got_any_data :=
    rfl
  rw [e4]
  rcases write_to_disk_stream (after_receive d r) r.status with ⟨c, s1, d1⟩
  by_cases h1 : r.fret = EU_eof
  · rw [if_pos h1, if_pos h1]
    by_cases h2 : (after_receive d r)._got_any_data = true
    · rw [if_pos h2, if_pos h2]
      by_cases h3 : r.status._bytes_in_buffer > 0
      · rw [if_pos h3, if_pos h3]
        cases c with
        | none => exact ⟨o, rfl⟩
        | some c =>
          simp only []
          by_cases h4 : c.neg = true
          · rw [if_pos h4, if_pos h4]
            refine ⟨o, ?_⟩
            simp only [Option.map_some', ram_code_neg c h4]
          · rw [if_neg h4, if_neg h4]
            obtain ⟨o1, ho1⟩ := cleanup_to_ram d1 ds o
            exact ⟨o1, by rw [ho1]; rfl⟩
      · rw [if_neg h3, if_neg h3]
        obtain ⟨o1, ho1⟩ := cleanup_to_ram (after_receive d r) ds o
        exact ⟨o1, by rw [ho1]; rfl⟩
    · rw [if_neg h2, if_neg h2]
      exact ⟨o, rfl⟩
  · rw [if_neg h1, if_neg h1]
    by_cases h2 : r.fret = EU_network_no_data
    · rw [if_pos h2, if_pos h2]
      exact ⟨o, rfl⟩
    · rw [if_neg h2, if_neg h2]
      by_cases h3 : r.fret.neg = true
      · rw [if_pos h3, if_pos h3]
        refine ⟨o, ?_⟩
        simp only [Option.map_some', ram_code_neg _ h3]
      · rw [if_neg h3, if_neg h3]
        exact ⟨o, rfl⟩

theorem run_to_disk_throttled (d : Engine) (s : DownloadStatus) (env : TickEnv)
    (h : env.t0 - d._tlast < (d._frequency : Int)) :
    run_to_disk d s env
      = (some EU_ok, if d._tfirst = 0 then { d with _tfirst := env.t0 } else d) := by
  unfold run_to_disk
  by_cases ht : d._tfirst = 0
  · simp only [ht, if_true]
    rw [if_pos h]
  · simp only [ht, if_false]
    rw [if_pos h]

theorem run_to_ram_throttled (d : Engine) (s : DownloadStatus) (env : TickEnv)
    (h : env.t0 - d._tlast < (d._frequency : Int)) :
    run_to_ram d s env
      = (some EU_ok, if d._tfirst = 0 then { d with _tfirst := env.t0 } else d) := by
  unfold run_to_ram
  by_cases ht : d._tfirst = 0
  · simp only [ht, if_true]
    rw [if_pos h]
  · simp only [ht, if_false]
    rw [if_pos h]

theorem tick_start_to_ram (d : Engine) (ds : List Char) (o : Bool) (env : TickEnv) :
    tick_start (to_ram d ds o) env = to_ram (tick_start d env) ds o := by
  unfold tick_start
  have e0 : (to_ram d ds o)._tfirst = d._tfirst := rfl
  rw [e0]
  split_ifs <;> rfl

theorem run_to_ram_to_ram (d : Engine) (ds : List Char) (o : Bool) (s : DownloadStatus)
    (env : TickEnv) :
    ∃ o1, run_to_ram (to_ram d ds o) s env
      = ((run_to_disk d s env).1.map ram_code, to_ram (run_to_disk d s env).2 ds o1) := by
  by_cases ht : env.t0 - d._tlast < (d._frequency : Int)
  · rw [run_to_disk_throttled d s env ht, run_to_ram_throttled (to_ram d ds o) s env ht]
    have e0 : (to_ram d ds o)._tfirst = d._tfirst := rfl
    rw [e0]
    refine ⟨o, ?_⟩
    split_ifs <;> rfl
  · rw [run_to_disk_eligible d s env ht, run_to_ram_eligible (to_ram d ds o) s env ht,
      tick_start_to_ram, run_to_ram_prepare_to_ram]
    rcases run_prepare (tick_start d env) s env with ⟨code, d3⟩ | ⟨ret, d3, s3⟩
    · exact ⟨o, rfl⟩
    · exact run_to_ram_receive_to_ram ret d3 ds o s3 env

theorem run_to_ram_of_to_ram (d : Engine) (ds : List Char) (o : Bool) (env : TickEnv)
    (hd : d._download_to_ram = false) :
    ∃ o1, run (to_ram d ds o) env = ((run d env).1.map ram_code, to_ram (run d env).2 ds o1) := by
  unfold run
  have e0 : (to_ram d ds o)._initiated = d._initiated := rfl
  have e1 : (to_ram d ds o)._current_status = d._current_status := rfl
  rw [e0, e1, connect_to_server_to_ram]
  by_cases hi : d._initiated = false
  · rw [if_pos hi, if_pos hi]
    exact ⟨o, rfl⟩
  · rw [if_neg hi, if_neg hi]
    cases d._current_status with
    | none => exact ⟨o, rfl⟩
    | some s =>
      simp only []
      have hf := (connect_to_server_clock d env.connect).2.2
      rcases hcs : connect_to_server d env.connect with ⟨cr, d1⟩
      rw [hcs] at hf
      simp only [] at hf ⊢
      by_cases hn : cr.neg = true
      · rw [if_pos hn, if_pos hn]
        refine ⟨o, ?_⟩
        simp only [Option.map_some', ram_code_neg cr hn]
      · rw [if_neg hn, if_neg hn]
        have e2 : (to_ram d1 ds o)._download_to_ram = true := rfl
        rw [if_pos e2, if_neg (by rw [hf, hd]; simp)]
        exact run_to_ram_to_ram d1 ds o s env

theorem run_prepare_kind (d : Engine) (s : DownloadStatus) (env : TickEnv) :
    (run_prepare d s env).engine._download_to_ram = d._download_to_ram := by
  unfold run_prepare
  have hw : (write_to_disk_stream d s).2.2._download_to_ram = d._download_to_ram := rfl
  rcases hws : write_to_disk_stream d s with ⟨c, s1, d1⟩
  rw [hws] at hw
  simp only [] at hw
  by_cases h1 : d._recompute_buffer = true
  · rw [if_pos h1]
    by_cases h2 : s._bytes_in_buffer > 0
    · rw [if_pos h2]
      cases c with
      | none => exact hw
      | some c =>
        simp only []
        by_cases h3 : c.neg = true
        · rw [if_pos h3]; exact hw
        · rw [if_neg h3]; exact hw
    · rw [if_neg h2]; rfl
  · rw [if_neg h1]
    by_cases h2 : s._bytes_in_buffer + d._receive_size > d._disk_buffer_size
    · rw [if_pos h2]
      cases c with
      | none => exact hw
      | some c =>
        simp only []
        by_cases h3 : c.neg = true
        · rw [if_pos h3]; exact hw
        · rw [if_neg h3]; exact hw
    · rw [if_neg h2]; rfl

theorem cleanup_kind (d : Engine) : (cleanup d)._download_to_ram = d._download_to_ram := by
  unfold cleanup
  split_ifs
  · rfl
  · cases d._current_status <;> rfl

theorem run_receive_kind (ret : ErrorUtilCode) (d : Engine) (s : DownloadStatus)
    (env : TickEnv) : (run_receive ret d s env).2._download_to_ram = d._download_to_ram := by
  unfold run_receive
  simp only []
  generalize receive_step d._receive_size (before_receive d s env) = r
  have hw : (write_to_disk_stream (after_receive d r) r.status).2.2._download_to_ram
      = d._download_to_ram := rfl
  rcases hws : write_to_disk_stream (after_receive d r) r.status with ⟨c, s1, d1⟩
  rw [hws] at hw
  simp only [] at hw
  by_cases h1 : r.fret = EU_eof
  · rw [if_pos h1]
    by_cases h2 : (after_receive d r)._got_any_data = true
    · rw [if_pos h2]
      by_cases h3 : r.status._bytes_in_buffer > 0
      · rw [if_pos h3]
        cases c with
        | none => exact hw
        | some c =>
          simp only []
          by_cases h4 : c.neg = true
          · rw [if_pos h4]; exact hw
          · rw [if_neg h4]
            exact (cleanup_kind d1).trans hw
      · rw [if_neg h3]
        exact cleanup_kind _
    · rw [if_neg h2]; rfl
  · rw [if_neg h1]
    by_cases h2 : r.fret = EU_network_no_data
    · rw [if_pos h2]; rfl
    · rw [if_neg h2]
      by_cases h3 : r.fret.neg = true
      · rw [if_pos h3]; rfl
      · rw [if_neg h3]; rfl

theorem tick_start_kind (d : Engine) (env : TickEnv) :
    (tick_start d env)._download_to_ram = d._download_to_ram := by
  unfold tick_start
  split_ifs <;> rfl

theorem run_to_disk_kind (d : Engine) (s : DownloadStatus) (env : TickEnv) :
    (run_to_disk d s env).2._download_to_ram = d._download_to_ram := by
  by_cases ht : env.t0 - d._tlast < (d._frequency : Int)
  · rw [run_to_disk_throttled d s env ht]
    simp only []
    split_ifs <;> rfl
  · rw [run_to_disk_eligible d s env ht]
    have h1 := run_prepare_kind (tick_start d env) s env
    rw [tick_start_kind] at h1
    rcases hp : run_prepare (tick_start d env) s env with ⟨code, d3⟩ | ⟨ret, d3, s3⟩
    · rw [hp] at h1
      exact h1
    · rw [hp] at h1
      exact (run_receive_kind ret d3 s3 env).trans h1

/-- A tick of the disk destination leaves the engine on the disk destination. -/
theorem run_disk_kind (d : Engine) (env : TickEnv) (hd : d._download_to_ram = false) :
    (run d env).2._download_to_ram = false := by
  unfold run
  by_cases hi : d._initiated = false
  · rw [if_pos hi]; exact hd
  · rw [if_neg hi]
    cases d._current_status with
    | none => exact hd
    | some s =>
      simp only []
      have hf := (connect_to_server_clock d env.connect).2.2
      rcases hcs : connect_to_server d env.connect with ⟨cr, d1⟩
      rw [hcs] at hf
      simp only [] at hf ⊢
      by_cases hn : cr.neg = true
      · rw [if_pos hn]
        exact hf.trans hd
      · rw [if_neg hn, if_neg (by rw [hf, hd]; simp)]
        exact (run_to_disk_kind d1 s env).trans (hf.trans hd)

theorem sameMachine_run (d r : Engine) (env : TickEnv) (h : SameMachine d r) :
    (run r env).1 = (run d env).1.map ram_code ∧ SameMachine (run d env).2 (run r env).2 := by
  have hr := sameMachine_eq d r h
  obtain ⟨o1, ho1⟩ := run_to_ram_of_to_ram d r._dest_stream r._dest_stream_open env h.1
  rw [hr, ho1]
  exact ⟨rfl, sameMachine_to_ram _ _ _ (run_disk_kind d env h.1)⟩

theorem sameMachine_run_ticks (envs : List TickEnv) :
    ∀ (d r : Engine), SameMachine d r → SameMachine (run_ticks d envs) (run_ticks r envs) := by
  induction envs with
  | nil => intro d r h; exact h
  | cons env envs ih =>
    intro d r h
    exact ih _ _ (sameMachine_run d r env h).2

/-- C22. Disk and memory ticks are the same machine: when the engine `r` downloads to memory
what the engine `d` downloads to a file (same status, arena, sizes, flags, clock values,
socket and memory, and the string stream of `r` holds what the file of `d` holds), a tick
with the same clock readings and socket outcomes returns the same code in both, with
`EU_write_ram` in place of `EU_write`, and leaves the two engines in the same relation: the
same Download Status, arena and sizes, recompute flag and initiated flag, and the same bytes
in the two sinks. The same holds after any sequence of ticks. -/
theorem disk_and_memory_ticks_agree (d r : Engine) (h : SameMachine d r) :
    (∀ env : TickEnv,
      (run r env).1 = (run d env).1.map ram_code ∧
      SameMachine (run d env).2 (run r env).2 ∧
      (run r env).2._current_status = (run d env).2._current_status ∧
      (run r env).2._receive_size = (run d env).2._receive_size ∧
      (run r env).2._disk_buffer_size = (run d env).2._disk_buffer_size ∧
      (run r env).2._buffer = (run d env).2._buffer ∧
      (run r env).2._recompute_buffer = (run d env).2._recompute_buffer ∧
      (run r env).2._initiated = (run d env).2._initiated ∧
      (run r env).2._dest_string_stream = some (run d env).2._dest_stream) ∧
    (∀ envs : List TickEnv,
      SameMachine (run_ticks d envs) (run_ticks r envs) ∧
      (run_ticks r envs)._current_status = (run_ticks d envs)._current_status ∧
      (run_ticks r envs)._initiated = (run_ticks d envs)._initiated ∧
      (run_ticks r envs)._dest_string_stream = some (run_ticks d envs)._dest_stream) := by
  constructor
  · intro env
    have h1 := sameMachine_run d r env h
    obtain ⟨_, _, a3, a4, a5, a6, a7, a8, a9, _⟩ := h1.2
    exact ⟨h1.1, h1.2, a4, a5, a6, a7, a8, a9, a3⟩
  · intro envs
    have h1 := sameMachine_run_ticks envs d r h
    have h2 := h1
    obtain ⟨_, _, a3, a4, _, _, _, _, a9, _⟩ := h2
    exact ⟨h1, a4, a9, a3⟩

set_option maxRecDepth 1000000 in
/-- C22 at a concrete input: the engine that holds 500 payload bytes with a recompute
pending, once for each destination. The tick flushes the 500 bytes and returns `EU_write`
for the disk and `EU_write_ram` for the memory destination. -/
theorem disk_and_memory_ticks_agree_witness :
    SameMachine (recompute_engine false) (recompute_engine true) ∧
    (run (recompute_engine false) quiet_tick).1 = some EU_write ∧
    (run (recompute_engine true) quiet_tick).1
      = (run (recompute_engine false) quiet_tick).1.map ram_code ∧
    (run (recompute_engine true) quiet_tick).2._dest_string_stream
      = some (run (recompute_engine false) quiet_tick).2._dest_stream :=
  ⟨⟨rfl, rfl, rfl, rfl, rfl, rfl, rfl, rfl, rfl, rfl, rfl, rfl, rfl, rfl, rfl, rfl, rfl, rfl,
      rfl, rfl, rfl, rfl⟩,
   by decide,
   ((disk_and_memory_ticks_agree (recompute_engine false) (recompute_engine true)
      ⟨rfl, rfl, rfl, rfl, rfl, rfl, rfl, rfl, rfl, rfl, rfl, rfl, rfl, rfl, rfl, rfl, rfl,
        rfl, rfl, rfl, rfl, rfl⟩).1 quiet_tick).1,
   ((disk_and_memory_ticks_agree (recompute_engine false) (recompute_engine true)
      ⟨rfl, rfl, rfl, rfl, rfl, rfl, rfl, rfl, rfl, rfl, rfl, rfl, rfl, rfl, rfl, rfl, rfl,
        rfl, rfl, rfl, rfl, rfl⟩).1 quiet_tick).2.2.2.2.2.2.2.2⟩

/-! ## The arena bounds (C25) -/

theorem receive_loop_calls_fst (repeat_ remain k i : Nat) (r : RecvState) :
    (receive_loop_calls repeat_ remain k i r).1 = receive_loop repeat_ remain k i r := by
  induction k generalizing i r with
  | zero => rfl
  | succ k ih =>
    unfold receive_loop_calls receive_loop
    simp only []
    split_ifs <;> first | rfl | exact ih _ _

theorem receive_step_calls_fst (rs : Nat) (r : RecvState) :
    (receive_step_calls rs r).1 = receive_step rs r := by
  unfold receive_step_calls receive_step
  split_ifs
  · exact receive_loop_calls_fst _ _ _ _ _
  · rfl

theorem fast_receive_grows (m : Mem) (inbound : List Char) (s : DownloadStatus) (n : Nat)
    (ev : SockEvent) :
    ∃ g, g ≤ n ∧
      (fast_receive m inbound s n ev).2.1._buffer = s._buffer ∧
      (fast_receive m inbound s n ev).2.1._start = s._start ∧
      (fast_receive m inbound s n ev).2.1._next_in = s._next_in + g ∧
      (fast_receive m inbound s n ev).2.1._bytes_in_buffer = s._bytes_in_buffer + g := by
  unfold fast_receive
  split_ifs
  · exact ⟨0, Nat.zero_le _, rfl, rfl, rfl, rfl⟩
  · cases ev with
    | no_data => exact ⟨0, Nat.zero_le _, rfl, rfl, rfl, rfl⟩
    | select_error k => exact ⟨0, Nat.zero_le _, rfl, rfl, rfl, rfl⟩
    | recv_error k => exact ⟨0, Nat.zero_le _, rfl, rfl, rfl, rfl⟩
    | ready avail =>
      simp only []
      split_ifs
      · exact ⟨0, Nat.zero_le _, rfl, rfl, rfl, rfl⟩
      · refine ⟨(inbound.take (min n avail)).length, ?_, rfl, rfl, rfl, rfl⟩
        rw [List.length_take]
        omega

theorem receive_grows (r : RecvState) (n : Nat) :
    ∃ g, g ≤ n ∧
      (r.receive n).status._buffer = r.status._buffer ∧
      (r.receive n).status._start = r.status._start ∧
      (r.receive n).status._next_in = r.status._next_in + g ∧
      (r.receive n).status._bytes_in_buffer = r.status._bytes_in_buffer + g := by
  unfold RecvState.receive
  have h := fast_receive_grows r.memory r.inbound r.status n (r.recvs.headD SockEvent.no_data)
  rcases hf : fast_receive r.memory r.inbound r.status n (r.recvs.headD SockEvent.no_data)
    with ⟨a, b, c, e⟩
  rw [hf] at h
  exact h

theorem statusInArena_receive (base n : Nat) (r : RecvState)
    (h : r.status._buffer = base ∧ r.status._start = base ∧
      r.status._next_in = base + r.status._bytes_in_buffer)
    :
    ((r.receive n).status._buffer = base ∧ (r.receive n).status._start = base ∧
      (r.receive n).status._next_in = base + (r.receive n).status._bytes_in_buffer) ∧
    (r.receive n).status._bytes_in_buffer ≤ r.status._bytes_in_buffer + n := by
  obtain ⟨g, hg, h1, h2, h3, h4⟩ := receive_grows r n
  obtain ⟨a1, a2, a3⟩ := h
  refine ⟨⟨h1.trans a1, h2.trans a2, ?_⟩, ?_⟩
  · rw [h3, h4, a3]; omega
  · rw [h4]; omega

theorem receive_loop_calls_within (base cap repeat_ remain : Nat) :
    ∀ (k i : Nat) (r : RecvState), i + k = repeat_ + 1 →
      (r.status._buffer = base ∧ r.status._start = base ∧
        r.status._next_in = base + r.status._bytes_in_buffer) →
      r.status._bytes_in_buffer + (repeat_ - i) * 16384
        + (if i ≤ repeat_ then remain else 0) ≤ cap →
      (∀ call ∈ (receive_loop_calls repeat_ remain k i r).2,
        base ≤ call.1.status._next_in ∧
        call.1.status._next_in - base + call.2 ≤ cap) ∧
      StatusInArena base cap (receive_loop_calls repeat_ remain k i r).1.status := by
  intro k
  induction k with
  | zero =>
    intro i r _ h hroom
    have hz : receive_loop_calls repeat_ remain 0 i r = (r, []) := rfl
    rw [hz]
    refine ⟨fun call hc => (by cases hc), ?_⟩
    show StatusInArena base cap r.status
    unfold StatusInArena
    exact ⟨h.1, h.2.1, h.2.2, by omega⟩
  | succ k ih =>
    intro i r hk h hroom
    have hmax : MAX_RECEIVE_BYTES = 16384 := rfl
    have hi : i ≤ repeat_ := by omega
    rw [if_pos hi] at hroom
    have hnext : r.status._next_in = base + r.status._bytes_in_buffer := h.2.2
    unfold receive_loop_calls
    simp only []
    rw [hmax]
    by_cases hlt : i < repeat_
    · rw [if_pos hlt, if_pos hlt]
      have hr1 := statusInArena_receive base 16384 r h
      have hcall : ∀ call ∈ [(r, 16384)],
          base ≤ call.1.status._next_in ∧ call.1.status._next_in - base + call.2 ≤ cap := by
        intro call hc
        simp only [List.mem_singleton] at hc
        subst hc
        simp only []
        rw [hnext]
        omega
      have hle := hr1.2
      have hroom1 : (r.receive 16384).status._bytes_in_buffer
          + (repeat_ - (i + 1)) * 16384
          + (if i + 1 ≤ repeat_ then remain else 0) ≤ cap := by
        rw [if_pos (by omega)]
        omega
      by_cases h1 : (r.receive 16384).fret = EU_eof ∨ (r.receive 16384).fret.neg = true
      · rw [if_pos h1]
        refine ⟨hcall, ?_⟩
        show StatusInArena base cap (r.receive 16384).status
        unfold StatusInArena
        exact ⟨hr1.1.1, hr1.1.2.1, hr1.1.2.2, by omega⟩
      · rw [if_neg h1]
        by_cases h2 : (r.receive 16384).fret = EU_success
        · rw [if_pos h2]
          have hrec := ih (i + 1) { r.receive 16384 with got_any_data := true }
            (by omega) hr1.1 hroom1
          refine ⟨?_, hrec.2⟩
          intro call hc
          simp only [List.mem_append] at hc
          rcases hc with hc | hc
          · exact hcall call hc
          · exact hrec.1 call hc
        · rw [if_neg h2]
          have hrec := ih (i + 1) (r.receive 16384) (by omega) hr1.1 hroom1
          refine ⟨?_, hrec.2⟩
          intro call hc
          simp only [List.mem_append] at hc
          rcases hc with hc | hc
          · exact hcall call hc
          · exact hrec.1 call hc
    · rw [if_neg hlt, if_neg hlt]
      have hk0 : k = 0 := by omega
      subst hk0
      have hz : ∀ (j : Nat) (x : RecvState), receive_loop_calls repeat_ remain 0 j x = (x, []) :=
        fun _ _ => rfl
      simp only [hz, List.append_nil]
      by_cases hr : remain > 0
      · rw [if_pos hr, if_pos hr]
        have hr1 := statusInArena_receive base remain r h
        have hcall : ∀ call ∈ [(r, remain)],
            base ≤ call.1.status._next_in ∧ call.1.status._next_in - base + call.2 ≤ cap := by
          intro call hc
          simp only [List.mem_singleton] at hc
          subst hc
          simp only []
          rw [hnext]
          omega
        have hle := hr1.2
        have hfin : StatusInArena base cap (r.receive remain).status := by
          unfold StatusInArena
          exact ⟨hr1.1.1, hr1.1.2.1, hr1.1.2.2, by omega⟩
        split_ifs
        · exact ⟨hcall, hfin⟩
        · exact ⟨hcall, hfin⟩
        · exact ⟨hcall, hfin⟩
      · rw [if_neg hr, if_neg hr]
        have hfin : StatusInArena base cap r.status := by
          unfold StatusInArena
          exact ⟨h.1, h.2.1, h.2.2, by omega⟩
        split_ifs
        · exact ⟨fun call hc => (by cases hc), hfin⟩
        · exact ⟨fun call hc => (by cases hc), hfin⟩
        · exact ⟨fun call hc => (by cases hc), hfin⟩

theorem receive_step_calls_within (base cap rs : Nat) (r : RecvState)
    (h : r.status._buffer = base ∧ r.status._start = base ∧
      r.status._next_in = base + r.status._bytes_in_buffer)
    (hroom : r.status._bytes_in_buffer + rs ≤ cap) :
    (∀ call ∈ (receive_step_calls rs r).2,
      base ≤ call.1.status._next_in ∧ call.1.status._next_in - base + call.2 ≤ cap) ∧
    StatusInArena base cap (receive_step_calls rs r).1.status := by
  have hmax : MAX_RECEIVE_BYTES = 16384 := rfl
  unfold receive_step_calls
  rw [hmax]
  by_cases hbig : rs > 16384
  · rw [if_pos hbig]
    simp only []
    apply receive_loop_calls_within base cap _ _ _ 0 r (Nat.zero_add _) h
    rw [if_pos (Nat.zero_le _), Nat.sub_zero]
    have := Nat.div_add_mod rs 16384
    omega
  · rw [if_neg hbig]
    have hr1 := statusInArena_receive base rs r h
    have hle := hr1.2
    refine ⟨?_, ?_⟩
    · intro call hc
      simp only [List.mem_singleton] at hc
      subst hc
      simp only []
      rw [h.2.2]
      omega
    · show StatusInArena base cap (r.receive rs).status
      unfold StatusInArena
      exact ⟨hr1.1.1, hr1.1.2.1, hr1.1.2.2, by omega⟩

theorem statusInArena_of_sameCursors {s t : DownloadStatus} (base cap : Nat)
    (h : SameCursors s t) (hs : StatusInArena base cap s) : StatusInArena base cap t := by
  unfold StatusInArena SameCursors at *
  obtain ⟨a1, a2, a3, a4, _⟩ := h
  rw [a1, a2, a3, a4]
  exact hs

theorem write_to_disk_arena (m : Mem) (s : DownloadStatus) (dest : List Char)
    (base cap : Nat) (h : StatusInArena base cap s) :
    StatusInArena base cap (write_to_disk m s dest).2.1 ∧
    (∀ c, (write_to_disk m s dest).1 = some c → c.neg = false →
      (write_to_disk m s dest).2.1._bytes_in_buffer = 0) := by
  by_cases hc : s._header_is_complete = true
  · rw [write_to_disk_complete m s dest hc]
    refine ⟨?_, fun _ _ _ => rfl⟩
    unfold StatusInArena at *
    exact ⟨h.1, h.1, by simp [DownloadStatus.reset, h.1], Nat.zero_le _⟩
  · have hc2 : s._header_is_complete = false := by simpa using hc
    unfold write_to_disk
    rcases parse_header_spec m s hc2 with ⟨h1, h2, _⟩ | ⟨h2, k, s1, _, _, hsc, _, hstrip⟩
    · rcases hp : parse_header m s with ⟨r, st1⟩
      rw [hp] at h1 h2
      simp only [] at h1 h2
      cases r with
      | none =>
        exact ⟨statusInArena_of_sameCursors base cap h1 h, fun c hcode _ => by cases hcode⟩
      | some pr =>
        simp only []
        rw [if_pos h2]
        refine ⟨statusInArena_of_sameCursors base cap h1 h, ?_⟩
        intro c hcode hneg
        simp only [Option.some.injEq] at hcode
        subst hcode
        cases hneg
    · rcases hp : parse_header m s with ⟨r, st1⟩
      rw [hp] at h2 hstrip
      simp only [] at h2 hstrip
      subst h2
      subst hstrip
      simp only []
      rw [if_neg (by simp [strip_header])]
      simp only [ErrorUtilCode.neg, Bool.false_eq_true, if_false]
      have hb : s1._buffer = base := hsc.1.trans h.1
      refine ⟨?_, fun _ _ _ => rfl⟩
      unfold StatusInArena
      split_ifs <;>
        exact ⟨hb, hb, by simp [DownloadStatus.reset, strip_header, hb], Nat.zero_le _⟩

theorem write_to_ram_arena (m : Mem) (s : DownloadStatus) (dest : List Char)
    (base cap : Nat) (h : StatusInArena base cap s) :
    StatusInArena base cap (write_to_ram m s dest).2.1 ∧
    (∀ c, (write_to_ram m s dest).1 = some c → c.neg = false →
      (write_to_ram m s dest).2.1._bytes_in_buffer = 0) := by
  rw [write_to_ram_eq_write_to_disk]
  exact write_to_disk_arena m s dest base cap h

theorem write_to_disk_stream_arena (d : Engine) (s : DownloadStatus) (hd : ArenaInv d)
    (hs : d._current_status = some s) :
    ArenaInv (write_to_disk_stream d s).2.2 ∧
    (write_to_disk_stream d s).2.2._current_status = some (write_to_disk_stream d s).2.1 ∧
    (write_to_disk_stream d s).2.2._receive_size = d._receive_size ∧
    (write_to_disk_stream d s).2.2._disk_buffer_size = d._disk_buffer_size ∧
    (∀ c, (write_to_disk_stream d s).1 = some c → c.neg = false →
      (write_to_disk_stream d s).2.1._bytes_in_buffer = 0) := by
  have hw := write_to_disk_arena d.memory s d._dest_stream d._buffer._buffer
    d._disk_buffer_size (hd.2.2.2 s hs)
  unfold write_to_disk_stream
  rcases hwd : write_to_disk d.memory s d._dest_stream with ⟨c, s1, dest1⟩
  rw [hwd] at hw
  simp only [] at hw ⊢
  refine ⟨⟨hd.1, hd.2.1, hd.2.2.1, ?_⟩, trivial, trivial, trivial, hw.2⟩
  intro s2 hs2
  simp only [Option.some.injEq] at hs2
  subst hs2
  exact hw.1

theorem write_to_ram_stream_arena (d : Engine) (s : DownloadStatus) (hd : ArenaInv d)
    (hs : d._current_status = some s) :
    ArenaInv (write_to_ram_stream d s).2.2 ∧
    (write_to_ram_stream d s).2.2._current_status = some (write_to_ram_stream d s).2.1 ∧
    (write_to_ram_stream d s).2.2._receive_size = d._receive_size ∧
    (write_to_ram_stream d s).2.2._disk_buffer_size = d._disk_buffer_size ∧
    (∀ c, (write_to_ram_stream d s).1 = some c → c.neg = false →
      (write_to_ram_stream d s).2.1._bytes_in_buffer = 0) := by
  unfold write_to_ram_stream
  cases hds : d._dest_string_stream with
  | none =>
    simp only []
    exact ⟨hd, hs, trivial, trivial, fun c hc _ => by cases hc⟩
  | some dest =>
    simp only []
    have hw := write_to_ram_arena d.memory s dest d._buffer._buffer
      d._disk_buffer_size (hd.2.2.2 s hs)
    rcases hwd : write_to_ram d.memory s dest with ⟨c, s1, dest1⟩
    rw [hwd] at hw
    simp only [] at hw ⊢
    refine ⟨⟨hd.1, hd.2.1, hd.2.2.1, ?_⟩, trivial, trivial, trivial, hw.2⟩
    intro s2 hs2
    simp only [Option.some.injEq] at hs2
    subst hs2
    exact hw.1

theorem recompute_buffer_ready (d : Engine) (s : DownloadStatus) (t0 : Int) (nb : Nat)
    (hw : 1 ≤ d._disk_write_frequency) :
    ReadyToReceive (recompute_buffer d s t0 nb).1 (recompute_buffer d s t0 nb).2 := by
  unfold ReadyToReceive ArenaInv recompute_buffer
  simp only []
  have hle : compute_receive_size d._frequency d._byte_rate
      ≤ compute_receive_size d._frequency d._byte_rate * d._disk_write_frequency :=
    Nat.le_mul_of_pos_right _ hw
  refine ⟨⟨hw, hle, trivial, ?_⟩, trivial, ?_⟩
  · intro s2 hs2
    simp only [Option.some.injEq] at hs2
    subst hs2
    unfold StatusInArena
    exact ⟨rfl, rfl, rfl, Nat.zero_le _⟩
  · show 0 + _ ≤ _
    rw [Nat.zero_add]
    exact hle

theorem run_prepare_arena (d : Engine) (s : DownloadStatus) (env : TickEnv)
    (hd : ArenaInv d) (hs : d._current_status = some s) :
    PreparedArena (run_prepare d s env) := by
  have hw := write_to_disk_stream_arena d s hd hs
  unfold run_prepare
  rcases hws : write_to_disk_stream d s with ⟨c, s1, d1⟩
  rw [hws] at hw
  simp only [] at hw
  obtain ⟨hw1, hw2, hw3, hw4, hw5⟩ := hw
  by_cases h1 : d._recompute_buffer = true
  · rw [if_pos h1]
    by_cases h2 : s._bytes_in_buffer > 0
    · rw [if_pos h2]
      cases c with
      | none => exact hw1
      | some c =>
        simp only []
        by_cases h3 : c.neg = true
        · rw [if_pos h3]; exact hw1
        · rw [if_neg h3]
          exact recompute_buffer_ready d1 s1 env.t0 env.new_buffer hw1.1
    · rw [if_neg h2]
      exact recompute_buffer_ready d s env.t0 env.new_buffer hd.1
  · rw [if_neg h1]
    by_cases h2 : s._bytes_in_buffer + d._receive_size > d._disk_buffer_size
    · rw [if_pos h2]
      cases c with
      | none => exact hw1
      | some c =>
        simp only []
        by_cases h3 : c.neg = true
        · rw [if_pos h3]; exact hw1
        · rw [if_neg h3]
          refine ⟨hw1, hw2, ?_⟩
          rw [hw5 c rfl (by simpa using h3), hw3, hw4, Nat.zero_add]
          exact hd.2.1
    · rw [if_neg h2]
      exact ⟨hd, hs, by omega⟩

theorem run_to_ram_prepare_arena (d : Engine) (s : DownloadStatus) (env : TickEnv)
    (hd : ArenaInv d) (hs : d._current_status = some s) :
    PreparedArena (run_to_ram_prepare d s env) := by
  have hw := write_to_ram_stream_arena d s hd hs
  unfold run_to_ram_prepare
  rcases hws : write_to_ram_stream d s with ⟨c, s1, d1⟩
  rw [hws] at hw
  simp only [] at hw
  obtain ⟨hw1, hw2, hw3, hw4, hw5⟩ := hw
  by_cases h1 : d._recompute_buffer = true
  · rw [if_pos h1]
    by_cases h2 : s._bytes_in_buffer > 0
    · rw [if_pos h2]
      cases c with
      | none => exact hw1
      | some c =>
        simp only []
        by_cases h3 : c.neg = true
        · rw [if_pos h3]; exact hw1
        · rw [if_neg h3]
          exact recompute_buffer_ready d1 s1 env.t0 env.new_buffer hw1.1
    · rw [if_neg h2]
      exact recompute_buffer_ready d s env.t0 env.new_buffer hd.1
  · rw [if_neg h1]
    by_cases h2 : s._bytes_in_buffer + d._receive_size > d._disk_buffer_size
    · rw [if_pos h2]
      cases c with
      | none => exact hw1
      | some c =>
        simp only []
        by_cases h3 : c.neg = true
        · rw [if_pos h3]; exact hw1
        · rw [if_neg h3]
          refine ⟨hw1, hw2, ?_⟩
          rw [hw5 c rfl (by simpa using h3), hw3, hw4, Nat.zero_add]
          exact hd.2.1
    · rw [if_neg h2]
      exact ⟨hd, hs, by omega⟩

theorem arenaInv_congr (d e : Engine) (hd : ArenaInv d)
    (h1 : e._disk_write_frequency = d._disk_write_frequency)
    (h2 : e._receive_size = d._receive_size) (h3 : e._disk_buffer_size = d._disk_buffer_size)
    (h4 : e._buffer = d._buffer)
    (h5 : e._current_status = d._current_status ∨ e._current_status = none) : ArenaInv e := by
  unfold ArenaInv at *
  rw [h1, h2, h3, h4]
  refine ⟨hd.1, hd.2.1, hd.2.2.1, ?_⟩
  intro s hs
  rcases h5 with h5 | h5
  · rw [h5] at hs
    exact hd.2.2.2 s hs
  · rw [h5] at hs
    cases hs

theorem cleanup_arena (d : Engine) (hd : ArenaInv d) : ArenaInv (cleanup d) := by
  unfold cleanup
  split_ifs
  · exact hd
  · cases hs : d._current_status with
    | none => exact hd
    | some s => exact arenaInv_congr d _ hd rfl rfl rfl rfl (Or.inr rfl)

theorem run_receive_arena (ret : ErrorUtilCode) (d : Engine) (s : DownloadStatus)
    (env : TickEnv) (h : ReadyToReceive d s) : ArenaInv (run_receive ret d s env).2 := by
  obtain ⟨hd, hs, hroom⟩ := h
  have hst := hd.2.2.2 s hs
  have hr := (receive_step_calls_within d._buffer._buffer d._disk_buffer_size d._receive_size
    (before_receive d s env) ⟨hst.1, hst.2.1, hst.2.2.1⟩ hroom).2
  rw [receive_step_calls_fst] at hr
  unfold run_receive
  simp only []
  generalize receive_step d._receive_size (before_receive d s env) = r at hr
  have ha : ArenaInv (after_receive d r) := by
    refine ⟨hd.1, hd.2.1, hd.2.2.1, ?_⟩
    intro s2 hs2
    have e : s2 = r.status := (Option.some.inj hs2).symm
    rw [e]
    exact hr
  have hw := (write_to_disk_stream_arena (after_receive d r) r.status ha rfl).1
  rcases hws : write_to_disk_stream (after_receive d r) r.status with ⟨c, s1, d1⟩
  rw [hws] at hw
  simp only [] at hw
  by_cases h1 : r.fret = EU_eof
  · rw [if_pos h1]
    by_cases h2 : (after_receive d r)._got_any_data = true
    · rw [if_pos h2]
      by_cases h3 : r.status._bytes_in_buffer > 0
      · rw [if_pos h3]
        cases c with
        | none => exact hw
        | some c =>
          simp only []
          by_cases h4 : c.neg = true
          · rw [if_pos h4]; exact hw
          · rw [if_neg h4]; exact cleanup_arena d1 hw
      · rw [if_neg h3]; exact cleanup_arena _ ha
    · rw [if_neg h2]; exact ha
  · rw [if_neg h1]
    by_cases h2 : r.fret = EU_network_no_data
    · rw [if_pos h2]; exact ha
    · rw [if_neg h2]
      by_cases h3 : r.fret.neg = true
      · rw [if_pos h3]; exact ha
      · rw [if_neg h3]
        exact arenaInv_congr _ _ ha rfl rfl rfl rfl (Or.inl rfl)

theorem run_to_ram_receive_arena (ret : ErrorUtilCode) (d : Engine) (s : DownloadStatus)
    (env : TickEnv) (h : ReadyToReceive d s) : ArenaInv (run_to_ram_receive ret d s env).2 := by
  obtain ⟨hd, hs, hroom⟩ := h
  have hst := hd.2.2.2 s hs
  have hr := (receive_step_calls_within d._buffer._buffer d._disk_buffer_size d._receive_size
    (before_receive d s env) ⟨hst.1, hst.2.1, hst.2.2.1⟩ hroom).2
  rw [receive_step_calls_fst] at hr
  unfold run_to_ram_receive
  simp only []
  generalize receive_step d._receive_size (before_receive d s env) = r at hr
  have ha : ArenaInv (after_receive d r) := by
    refine ⟨hd.1, hd.2.1, hd.2.2.1, ?_⟩
    intro s2 hs2
    have e : s2 = r.status := (Option.some.inj hs2).symm
    rw [e]
    exact hr
  have hw := (write_to_ram_stream_arena (after_receive d r) r.status ha rfl).1
  rcases hws : write_to_ram_stream (after_receive d r) r.status with ⟨c, s1, d1⟩
  rw [hws] at hw
  simp only [] at hw
  by_cases h1 : r.fret = EU_eof
  · rw [if_pos h1]
    by_cases h2 : (after_receive d r)._got_any_data = true
    · rw [if_pos h2]
      by_cases h3 : r.status._bytes_in_buffer > 0
      · rw [if_pos h3]
        cases c with
        | none => exact hw
        | some c =>
          simp only []
          by_cases h4 : c.neg = true
          · rw [if_pos h4]; exact hw
          · rw [if_neg h4]; exact cleanup_arena d1 hw
      · rw [if_neg h3]; exact cleanup_arena _ ha
    · rw [if_neg h2]; exact ha
  · rw [if_neg h1]
    by_cases h2 : r.fret = EU_network_no_data
    · rw [if_pos h2]; exact ha
    · rw [if_neg h2]
      by_cases h3 : r.fret.neg = true
      · rw [if_pos h3]; exact ha
      · rw [if_neg h3]
        exact arenaInv_congr _ _ ha rfl rfl rfl rfl (Or.inl rfl)

theorem tick_start_arena (d : Engine) (env : TickEnv) (hd : ArenaInv d) :
    ArenaInv (tick_start d env) ∧ (tick_start d env)._current_status = d._current_status := by
  unfold tick_start
  split_ifs
  · exact ⟨arenaInv_congr d _ hd rfl rfl rfl rfl (Or.inl rfl), rfl⟩
  · exact ⟨arenaInv_congr d _ hd rfl rfl rfl rfl (Or.inl rfl), rfl⟩

theorem connect_to_server_arena (d : Engine) (ev : ConnectEvent) (hd : ArenaInv d) :
    ArenaInv (connect_to_server d ev).2 ∧
    (connect_to_server d ev).2._current_status = d._current_status ∧
    (connect_to_server d ev).2._buffer = d._buffer := by
  unfold connect_to_server
  split_ifs
  · exact ⟨hd, rfl, rfl⟩
  · cases ev <;> exact ⟨arenaInv_congr d _ hd rfl rfl rfl rfl (Or.inl rfl), rfl, rfl⟩

theorem run_to_disk_arena (d : Engine) (s : DownloadStatus) (env : TickEnv)
    (hd : ArenaInv d) (hs : d._current_status = some s) :
    ArenaInv (run_to_disk d s env).2 := by
  by_cases ht : env.t0 - d._tlast < (d._frequency : Int)
  · rw [run_to_disk_throttled d s env ht]
    simp only []
    split_ifs
    · exact arenaInv_congr d _ hd rfl rfl rfl rfl (Or.inl rfl)
    · exact hd
  · rw [run_to_disk_eligible d s env ht]
    have h0 := tick_start_arena d env hd
    have h1 := run_prepare_arena (tick_start d env) s env h0.1 (h0.2.trans hs)
    rcases hp : run_prepare (tick_start d env) s env with ⟨code, d3⟩ | ⟨ret, d3, s3⟩
    · rw [hp] at h1
      exact h1
    · rw [hp] at h1
      exact run_receive_arena ret d3 s3 env h1

theorem run_to_ram_arena (d : Engine) (s : DownloadStatus) (env : TickEnv)
    (hd : ArenaInv d) (hs : d._current_status = some s) :
    ArenaInv (run_to_ram d s env).2 := by
  by_cases ht : env.t0 - d._tlast < (d._frequency : Int)
  · rw [run_to_ram_throttled d s env ht]
    simp only []
    split_ifs
    · exact arenaInv_congr d _ hd rfl rfl rfl rfl (Or.inl rfl)
    · exact hd
  · rw [run_to_ram_eligible d s env ht]
    have h0 := tick_start_arena d env hd
    have h1 := run_to_ram_prepare_arena (tick_start d env) s env h0.1 (h0.2.trans hs)
    rcases hp : run_to_ram_prepare (tick_start d env) s env with ⟨code, d3⟩ | ⟨ret, d3, s3⟩
    · rw [hp] at h1
      exact h1
    · rw [hp] at h1
      exact run_to_ram_receive_arena ret d3 s3 env h1

theorem run_arena (d : Engine) (env : TickEnv) (hd : ArenaInv d) : ArenaInv (run d env).2 := by
  unfold run
  split_ifs
  · exact hd
  · cases hs : d._current_status with
    | none => exact hd
    | some s =>
      simp only []
      have hc := connect_to_server_arena d env.connect hd
      rcases hcs : connect_to_server d env.connect with ⟨cr, d1⟩
      rw [hcs] at hc
      simp only [] at hc ⊢
      have hs1 : d1._current_status = some s := hc.2.1.trans hs
      split_ifs
      · exact hc.1
      · exact run_to_ram_arena d1 s env hc.1 hs1
      · exact run_to_disk_arena d1 s env hc.1 hs1

theorem set_tunables_arena (d : Engine) (frequency byte_rate disk_write_frequency : Nat)
    (hd : ArenaInv d) (hw : 1 ≤ disk_write_frequency) :
    ArenaInv (set_tunables d frequency byte_rate disk_write_frequency) :=
  ⟨hw, hd.2.1, hd.2.2.1, hd.2.2.2⟩

theorem statusInArena_new (base cap : Nat) (first_byte last_byte total_bytes : Int)
    (partial_content : Bool) :
    StatusInArena base cap
      (DownloadStatus.new base first_byte last_byte total_bytes partial_content) :=
  ⟨rfl, rfl, rfl, Nat.zero_le _⟩

theorem arenaInv_started (d e : Engine) (hd : ArenaInv d)
    (h1 : e._disk_write_frequency = d._disk_write_frequency)
    (h2 : e._receive_size = d._receive_size) (h3 : e._disk_buffer_size = d._disk_buffer_size)
    (h4 : e._buffer = d._buffer)
    (h5 : e._current_status = d._current_status ∨
      ∃ first_byte last_byte total_bytes partial_content, e._current_status
        = some (DownloadStatus.new d._buffer._buffer first_byte last_byte total_bytes
            partial_content)) : ArenaInv e := by
  rcases h5 with h5 | ⟨fb, lb, tb, pc, h5⟩
  · exact arenaInv_congr d e hd h1 h2 h3 h4 (Or.inl h5)
  · unfold ArenaInv at *
    rw [h1, h2, h3, h4]
    refine ⟨hd.1, hd.2.1, hd.2.2.1, ?_⟩
    intro s hs
    rw [h5] at hs
    rw [← Option.some.inj hs]
    exact statusInArena_new _ _ _ _ _ _

theorem initiate_arena (d : Engine) (file : List Char) (first_byte last_byte total_bytes : Int)
    (partial_content : Bool) (env : InitEnv) (hd : ArenaInv d) :
    ArenaInv (initiate d file first_byte last_byte total_bytes partial_content env).2 := by
  unfold initiate
  by_cases hi : d._initiated = true
  · rw [if_pos hi]; exact hd
  · rw [if_neg hi]
    have hc := connect_to_server_arena d env.connect hd
    rcases hcs : connect_to_server d env.connect with ⟨cr, d1⟩
    rw [hcs] at hc
    simp only [] at hc ⊢
    by_cases hn : cr.neg = true
    · rw [if_pos hn]; exact hc.1
    · rw [if_neg hn]
      cases env.open_file with
      | failed k => exact hc.1
      | opened existing =>
        simp only []
        split_ifs <;>
          first
          | exact arenaInv_started d1 _ hc.1 rfl rfl rfl rfl (Or.inl rfl)
          | exact arenaInv_started d1 _ hc.1 rfl rfl rfl rfl (Or.inr ⟨_, _, _, _, rfl⟩)

theorem initiate_ram_arena (d : Engine) (file : List Char) (env : InitEnv) (hd : ArenaInv d) :
    ArenaInv (initiate_ram d file env).2 := by
  unfold initiate_ram
  by_cases hi : d._initiated = true
  · rw [if_pos hi]; exact hd
  · rw [if_neg hi]
    have hc := connect_to_server_arena d env.connect hd
    rcases hcs : connect_to_server d env.connect with ⟨cr, d1⟩
    rw [hcs] at hc
    simp only [] at hc ⊢
    by_cases hn : cr.neg = true
    · rw [if_pos hn]; exact hc.1
    · rw [if_neg hn]
      split_ifs <;>
        first
        | exact arenaInv_started d1 _ hc.1 rfl rfl rfl rfl (Or.inl rfl)
        | exact arenaInv_started d1 _ hc.1 rfl rfl rfl rfl (Or.inr ⟨_, _, _, _, rfl⟩)

theorem engine_new_arena (frequency byte_rate disk_write_frequency arena : Nat) (d : Engine)
    (h : Engine.new frequency byte_rate disk_write_frequency arena = some d) : ArenaInv d := by
  unfold Engine.new at h
  split_ifs at h with hpos
  cases h
  refine ⟨hpos.2.2, ?_, rfl, ?_⟩
  · exact Nat.le_mul_of_pos_left _ hpos.2.2
  · intro s hs
    cases hs

theorem engineOp_apply_arena (d : Engine) (op : EngineOp) (hd : ArenaInv d)
    (hop : op.keeps_flush_interval) : ArenaInv (op.apply d) := by
  cases op with
  | tick env => exact run_arena d env hd
  | set_rate f r w => exact set_tunables_arena d f r w hd hop
  | start_file file fb lb tb pc env => exact initiate_arena d file fb lb tb pc env hd
  | start_ram file env => exact initiate_ram_arena d file env hd

theorem engineOp_foldl_arena (ops : List EngineOp) :
    ∀ d : Engine, ArenaInv d → (∀ op ∈ ops, op.keeps_flush_interval) →
      ArenaInv (ops.foldl EngineOp.apply d) := by
  induction ops with
  | nil => intro d hd _; exact hd
  | cons op ops ih =>
    intro d hd hops
    exact ih _ (engineOp_apply_arena d op hd (hops op (List.mem_cons_self _ _)))
      (fun o ho => hops o (List.mem_cons_of_mem _ ho))

/-- C25. No arena overflow. In every state reached from a newly constructed engine by
`initiate` calls, ticks of `run` (for the disk and for the memory destination) and changes
of the tunables that keep the flush interval at one poll or more, the arena invariant
holds: a status lies in the arena, with at most `buffer_capacity` bytes buffered and its
write cursor between the base and the end of the arena. In a tick that comes to its receive
attempts from such a state, every call of `fast_receive` is made with the write cursor at or
after the base of the arena and with the offset of the write cursor plus the number of
bytes asked for at most the size of the arena. -/
theorem no_arena_overflow :
    (∀ (frequency byte_rate disk_write_frequency arena : Nat) (d0 : Engine)
      (ops : List EngineOp),
      Engine.new frequency byte_rate disk_write_frequency arena = some d0 →
      (∀ op ∈ ops, op.keeps_flush_interval) →
      ArenaInv (ops.foldl EngineOp.apply d0)) ∧
    (∀ (d : Engine) (s : DownloadStatus), ArenaInv d → d._current_status = some s →
      s._bytes_in_buffer ≤ d._buffer._length ∧ d._buffer._buffer ≤ s._next_in ∧
      s._next_in ≤ d._buffer._buffer + d._buffer._length) ∧
    (∀ (d : Engine) (s : DownloadStatus) (env : TickEnv) (ret : ErrorUtilCode) (d1 : Engine)
      (s1 : DownloadStatus), ArenaInv d → d._current_status = some s →
      (run_prepare (tick_start (connect_to_server d env.connect).2 env) s env
          = Prepared.go_on ret d1 s1 ∨
        run_to_ram_prepare (tick_start (connect_to_server d env.connect).2 env) s env
          = Prepared.go_on ret d1 s1) →
      (receive_step_calls d1._receive_size (before_receive d1 s1 env)).1
        = tick_receive d1 s1 env ∧
      ∀ call ∈ (receive_step_calls d1._receive_size (before_receive d1 s1 env)).2,
        d1._buffer._buffer ≤ call.1.status._next_in ∧
        call.1.status._next_in - d1._buffer._buffer + call.2 ≤ d1._buffer._length) := by
  refine ⟨?_, ?_, ?_⟩
  · intro f r w arena d0 ops hnew hops
    exact engineOp_foldl_arena ops d0 (engine_new_arena f r w arena d0 hnew) hops
  · intro d s hd hs
    obtain ⟨_, _, h3, h4⟩ := hd
    obtain ⟨a1, a2, a3, a4⟩ := h4 s hs
    rw [h3, a3]
    omega
  · intro d s env ret d1 s1 hd hs hprep
    have hc := connect_to_server_arena d env.connect hd
    have h0 := tick_start_arena (connect_to_server d env.connect).2 env hc.1
    have hs0 : (tick_start (connect_to_server d env.connect).2 env)._current_status = some s :=
      h0.2.trans (hc.2.1.trans hs)
    have hready : ReadyToReceive d1 s1 := by
      rcases hprep with hprep | hprep
      · have h1 := run_prepare_arena _ s env h0.1 hs0
        rw [hprep] at h1
        exact h1
      · have h1 := run_to_ram_prepare_arena _ s env h0.1 hs0
        rw [hprep] at h1
        exact h1
    obtain ⟨hd1, hs1, hroom⟩ := hready
    have hst := hd1.2.2.2 s1 hs1
    have hcalls := (receive_step_calls_within d1._buffer._buffer d1._disk_buffer_size
      d1._receive_size (before_receive d1 s1 env) ⟨hst.1, hst.2.1, hst.2.2.1⟩ hroom).1
    refine ⟨receive_step_calls_fst _ _, ?_⟩
    intro call hcall
    rw [hd1.2.2.1]
    exact hcalls call hcall

/-- C25 at a concrete input: a session with a change of the tunables in the middle of a
download keeps the arena invariant. -/
theorem no_arena_overflow_witness :
    ∃ d0, Engine.new 100000 1000 2 1000 = some d0 ∧
      ArenaInv (rate_change_session.foldl EngineOp.apply d0) := by
  obtain ⟨d0, hd0⟩ : ∃ d, Engine.new 100000 1000 2 1000 = some d := ⟨_, rfl⟩
  refine ⟨d0, hd0, no_arena_overflow.1 100000 1000 2 1000 d0 rate_change_session hd0 ?_⟩
  intro op hop
  simp only [rate_change_session, List.mem_cons, List.mem_singleton, List.not_mem_nil,
    or_false] at hop
  rcases hop with h | h | h | h <;> subst h <;> simp [EngineOp.keeps_flush_interval]

end Downloader
